import Mathlib

/-!
Verification of the `caustic` UV-irradiance simulator core against its
natural-language specification.  The Python sources under `src/caustic/` are
shallowly embedded: 3D vectors, rays and triangles over `ℝ`, the uniform
spatial grid with 3D-DDA traversal, the Möller-Trumbore intersection tester
and `Tracer`, the mesh-surface measurement-point sampler, the forward photon
tracer, the intensity calculator and the pathogen calculator.  Randomness is
modelled by threading an explicit stream of draws (each `random.random()` /
`random.uniform(a,b)` call consumes one draw); Python dictionaries keyed by
`int` are modelled as `ℕ → Option ℝ`; Python `set` deduplication of triangle
objects is modelled by triangle indices into the input list.
-/

namespace Caustic

/-- 3D vector of floats, from `core/vector.py` (embedded over `ℝ`). -/
structure Vector3 where
  x : ℝ
  y : ℝ
  z : ℝ

namespace Vector3

/-- `Vector3.add` from `core/vector.py`. -/
def add (a b : Vector3) : Vector3 := ⟨a.x + b.x, a.y + b.y, a.z + b.z⟩

/-- `Vector3.subtract` from `core/vector.py`. -/
def subtract (a b : Vector3) : Vector3 := ⟨a.x - b.x, a.y - b.y, a.z - b.z⟩

/-- `Vector3.multiply` (scalar) from `core/vector.py`. -/
def multiply (a : Vector3) (s : ℝ) : Vector3 := ⟨a.x * s, a.y * s, a.z * s⟩

/-- `Vector3.divide` (scalar) from `core/vector.py`. -/
noncomputable def divide (a : Vector3) (s : ℝ) : Vector3 := ⟨a.x / s, a.y / s, a.z / s⟩

/-- `Vector3.dot` from `core/vector.py`. -/
def dot (a b : Vector3) : ℝ := a.x * b.x + a.y * b.y + a.z * b.z

/-- `Vector3.cross` from `core/vector.py`. -/
def cross (a b : Vector3) : Vector3 :=
  ⟨a.y * b.z - a.z * b.y, a.z * b.x - a.x * b.z, a.x * b.y - a.y * b.x⟩

/-- `Vector3.length` from `core/vector.py`: `sqrt(x² + y² + z²)`. -/
noncomputable def length (v : Vector3) : ℝ :=
  Real.sqrt (v.x * v.x + v.y * v.y + v.z * v.z)

/-- `Vector3.normalize` from `core/vector.py`: a zero-length vector
normalizes to the zero vector, otherwise divide by the length. -/
noncomputable def normalize (v : Vector3) : Vector3 :=
  if v.length = 0 then ⟨0, 0, 0⟩ else v.divide v.length

end Vector3

/-- Triangle from `core/triangle.py`: three vertices and a reflectivity
(default 0.5 at the construction sites). -/
structure Triangle where
  v0 : Vector3
  v1 : Vector3
  v2 : Vector3
  reflectivity : ℝ

namespace Triangle

/-- The derived normal of `core/triangle.py`:
`((v1−v0) × (v2−v0)).normalize()`. -/
noncomputable def normal (t : Triangle) : Vector3 :=
  ((t.v1.subtract t.v0).cross (t.v2.subtract t.v0)).normalize

/-- `Triangle.get_center` from `core/triangle.py`. -/
noncomputable def get_center (t : Triangle) : Vector3 :=
  ⟨(t.v0.x + t.v1.x + t.v2.x) / 3, (t.v0.y + t.v1.y + t.v2.y) / 3,
    (t.v0.z + t.v1.z + t.v2.z) / 3⟩

/-- `minX` of `Triangle.get_bounds` from `core/triangle.py`. -/
noncomputable def minX (t : Triangle) : ℝ := min (min t.v0.x t.v1.x) t.v2.x

/-- `maxX` of `Triangle.get_bounds` from `core/triangle.py`. -/
noncomputable def maxX (t : Triangle) : ℝ := max (max t.v0.x t.v1.x) t.v2.x

/-- `minY` of `Triangle.get_bounds` from `core/triangle.py`. -/
noncomputable def minY (t : Triangle) : ℝ := min (min t.v0.y t.v1.y) t.v2.y

/-- `maxY` of `Triangle.get_bounds` from `core/triangle.py`. -/
noncomputable def maxY (t : Triangle) : ℝ := max (max t.v0.y t.v1.y) t.v2.y

/-- `minZ` of `Triangle.get_bounds` from `core/triangle.py`. -/
noncomputable def minZ (t : Triangle) : ℝ := min (min t.v0.z t.v1.z) t.v2.z

/-- `maxZ` of `Triangle.get_bounds` from `core/triangle.py`. -/
noncomputable def maxZ (t : Triangle) : ℝ := max (max t.v0.z t.v1.z) t.v2.z

end Triangle

/-- Placeholder triangle used only as the (never-reached) default for list
indexing that the Python source performs after an in-bounds clamp. -/
def degenerateTriangle : Triangle := ⟨⟨0, 0, 0⟩, ⟨0, 0, 0⟩, ⟨0, 0, 0⟩, 0⟩

/-- Pathogen parameters, from `simulation/pathogen.py` (`Pathogen` NamedTuple). -/
structure Pathogen where
  name : String
  k1 : ℝ
  k2 : ℝ
  percent_resistant : ℝ

/-- Result record of `PathogenCalculator.calculate_survival`,
from `simulation/pathogen.py` (`PathogenSurvivalResult` NamedTuple). -/
structure PathogenSurvivalResult where
  pathogen_name : String
  k1 : ℝ
  k2 : ℝ
  percent_resistant : ℝ
  fluence : ℝ
  survival_rate : ℝ
  ech_uv : ℝ

/-- `PathogenCalculator.calculate_survival` from `simulation/pathogen.py`:
fluence `F = intensity · exposure_time`, survival `10^(−k₁·F)`,
`eACH-UV = (k₁(1−f) + k₂f) · F · 3.6` with `f = percent_resistant / 100`. -/
noncomputable def calculate_survival (intensity exposure_time : ℝ)
    (pathogen : Pathogen) : PathogenSurvivalResult :=
  let fluence := intensity * exposure_time
  let survival_rate := (10 : ℝ) ^ (-pathogen.k1 * fluence)
  let f := pathogen.percent_resistant / 100
  let effective_k := pathogen.k1 * (1 - f) + pathogen.k2 * f
  let ech_uv := effective_k * fluence * 3.6
  ⟨pathogen.name, pathogen.k1, pathogen.k2, pathogen.percent_resistant,
    fluence, survival_rate, ech_uv⟩

/-- C9 counterexample: for the pathogen with `k₁ = 1 > 0`, `k₂ = 0 ≥ 0` and
`percent_resistant = 100 ∈ [0,100]`, the effective rate constant is
`k₁·(1−1) + k₂·1 = 0`, so `ech_uv` is identically `0`: it is **not** strictly
increasing in the fluence (here fluence 1 versus fluence 2, both give 0). -/
theorem C9_ech_not_strictly_increasing :
    let p : Pathogen := ⟨"resistant", 1, 0, 100⟩
    0 < p.k1 ∧ 0 ≤ p.k2 ∧ 0 ≤ p.percent_resistant ∧ p.percent_resistant ≤ 100 ∧
    (calculate_survival 1 1 p).fluence < (calculate_survival 1 2 p).fluence ∧
    ¬ (calculate_survival 1 1 p).ech_uv < (calculate_survival 1 2 p).ech_uv := by
  refine ⟨by norm_num, le_refl _, by norm_num, by norm_num, ?_, ?_⟩
  · simp only [calculate_survival]
    norm_num
  · simp only [calculate_survival]
    norm_num

/-- C9 amended: for `k₁ > 0`, `k₂ ≥ 0`, `percent_resistant ∈ [0,100]`, the
`survival_rate` of `calculate_survival` is strictly decreasing in the fluence
`F = intensity · exposure_time`; the `ech_uv` is strictly increasing in `F`
provided the effective rate `k₁(1−f) + k₂f` is positive (which fails exactly
when `percent_resistant = 100` and `k₂ = 0`). -/
theorem C9_pathogen_monotonicity (p : Pathogen) (i₁ t₁ i₂ t₂ : ℝ)
    (hk1 : 0 < p.k1)
    (hF : i₁ * t₁ < i₂ * t₂) :
    (calculate_survival i₂ t₂ p).survival_rate
        < (calculate_survival i₁ t₁ p).survival_rate ∧
    (0 < p.k1 * (1 - p.percent_resistant / 100)
        + p.k2 * (p.percent_resistant / 100) →
      (calculate_survival i₁ t₁ p).ech_uv
        < (calculate_survival i₂ t₂ p).ech_uv) := by
  constructor
  · simp only [calculate_survival]
    rw [Real.rpow_lt_rpow_left_iff (by norm_num : (1:ℝ) < 10)]
    nlinarith
  · intro heff
    simp only [calculate_survival]
    nlinarith

/-- Witness for `C9_pathogen_monotonicity` at the pathogen `(k₁, k₂, f%) =
(1, 0, 0)` and fluences `1·1 = 1 < 2·1 = 2`. -/
theorem C9_pathogen_monotonicity_witness :
    (0 : ℝ) < 1 ∧
    ((calculate_survival 2 1 ⟨"generic", 1, 0, 0⟩).survival_rate
        < (calculate_survival 1 1 ⟨"generic", 1, 0, 0⟩).survival_rate ∧
      (calculate_survival 1 1 ⟨"generic", 1, 0, 0⟩).ech_uv
        < (calculate_survival 2 1 ⟨"generic", 1, 0, 0⟩).ech_uv) :=
  ⟨one_pos,
    (C9_pathogen_monotonicity ⟨"generic", 1, 0, 0⟩ 1 1 2 1 one_pos
      (by norm_num)).1,
    (C9_pathogen_monotonicity ⟨"generic", 1, 0, 0⟩ 1 1 2 1 one_pos
      (by norm_num)).2 (by norm_num)⟩

/-! ## Mesh sampler (`spatial/mesh_sampler.py`) -/

/-- `MeshSampler.calculate_triangle_area`: `½‖(v1−v0) × (v2−v0)‖`. -/
noncomputable def calculate_triangle_area (triangle : Triangle) : ℝ :=
  0.5 * ((triangle.v1.subtract triangle.v0).cross
    (triangle.v2.subtract triangle.v0)).length

/-- `MeshSampler.sample_point_on_triangle`, with the two `random.random()`
draws `r1, r2` passed explicitly: barycentric coordinates
`u = 1−√r1`, `v = √r1(1−r2)`, `w = √r1·r2`, then offset along the normal. -/
noncomputable def sample_point_on_triangle (triangle : Triangle)
    (offset r1 r2 : ℝ) : Vector3 :=
  let sqrt_r1 := Real.sqrt r1
  let u := 1 - sqrt_r1
  let v := sqrt_r1 * (1 - r2)
  let w := sqrt_r1 * r2
  let point := ((triangle.v0.multiply u).add (triangle.v1.multiply v)).add
    (triangle.v2.multiply w)
  if offset ≠ 0 then point.add (triangle.normal.multiply offset) else point

open Classical in
/-- `MeshSampler.points_are_similar`: two points are similar when they are
within `distance_threshold` of each other AND their normals' dot product is
at least `normal_threshold`. -/
noncomputable def points_are_similar (point1 normal1 point2 normal2 : Vector3)
    (distance_threshold normal_threshold : ℝ) : Bool :=
  if (point1.subtract point2).length > distance_threshold then false
  else decide (normal1.dot normal2 ≥ normal_threshold)

/-- `point_to_cell` of `generate_measurement_points`: integer cell of a point
at grid cell size `c` (Python `int(p // c)` is `⌊p / c⌋`). -/
noncomputable def point_to_cell (c : ℝ) (p : Vector3) : ℤ × ℤ × ℤ :=
  (⌊p.x / c⌋, ⌊p.y / c⌋, ⌊p.z / c⌋)

/-- The candidate spatial grid of `generate_measurement_points`: each
enumerated candidate `(idx, point, normal)` is appended to the bucket of its
own cell. -/
noncomputable def buildSampleCellGrid (c : ℝ)
    (candidate_points : List (Vector3 × Vector3)) :
    ℤ × ℤ × ℤ → List (ℕ × Vector3 × Vector3) :=
  candidate_points.enum.foldl
    (fun g e cell =>
      if cell = point_to_cell c e.2.1 then g cell ++ [e] else g cell)
    (fun _ => [])

/-- The `range(-search_range, search_range + 1)` offsets with
`search_range = 2` of the pruning loop. -/
def searchOffsets : List ℤ := [-2, -1, 0, 1, 2]

/-- `cells_to_check` of the pruning loop: all grid entries in the 5×5×5
neighbourhood of cells around a cell, in Python iteration order. -/
noncomputable def cellsToCheck (grid : ℤ × ℤ × ℤ → List (ℕ × Vector3 × Vector3))
    (cell : ℤ × ℤ × ℤ) : List (ℕ × Vector3 × Vector3) :=
  searchOffsets.flatMap fun dx => searchOffsets.flatMap fun dy => searchOffsets.flatMap
    fun dz => grid (cell.1 + dx, cell.2.1 + dy, cell.2.2 + dz)

open Classical in
/-- The inner loop of the pruning stage: mark as used every entry `(j, q, m)`
of `cells_to_check` with `j ∉ used`, `j > i` that is similar to the accepted
point `(point, normal)`. -/
noncomputable def markSimilar (i : ℕ) (point normal : Vector3)
    (distance_threshold normal_threshold : ℝ)
    (toCheck : List (ℕ × Vector3 × Vector3)) (used : Finset ℕ) : Finset ℕ :=
  toCheck.foldl
    (fun u e =>
      if e.1 ∈ u ∨ e.1 ≤ i then u
      else if points_are_similar point normal e.2.1 e.2.2
          distance_threshold normal_threshold then insert e.1 u
      else u)
    used

open Classical in
/-- The pruning loop of `generate_measurement_points` over the enumerated
candidates.  The accepted list keeps `(point, normal)` pairs (the Python code
appends only `point`; the normal of the accepted candidate is carried
alongside so the spread property can mention it), and the loop breaks as soon
as `num_points` are accepted. -/
noncomputable def pruneGo (distance_threshold normal_threshold : ℝ)
    (num_points : ℤ) (grid : ℤ × ℤ × ℤ → List (ℕ × Vector3 × Vector3))
    (grid_cell_size : ℝ) : List (ℕ × Vector3 × Vector3) →
    List (Vector3 × Vector3) → Finset ℕ → List (Vector3 × Vector3)
  | [], pruned, _ => pruned
  | e :: rest, pruned, used =>
    if e.1 ∈ used then
      pruneGo distance_threshold normal_threshold num_points grid
        grid_cell_size rest pruned used
    else
      let pruned' := pruned ++ [(e.2.1, e.2.2)]
      let used' := insert e.1 used
      let used'' := markSimilar e.1 e.2.1 e.2.2 distance_threshold
        normal_threshold (cellsToCheck grid (point_to_cell grid_cell_size e.2.1))
        used'
      if (pruned'.length : ℤ) ≥ num_points then pruned'
      else pruneGo distance_threshold normal_threshold num_points grid
        grid_cell_size rest pruned' used''

open Classical in
/-- `bisect.bisect_right` on the (nondecreasing) normalized cumulative-area
table: the number of entries `≤ rand_val`. -/
noncomputable def bisectRight (cumulative : List ℝ) (rand_val : ℝ) : ℕ :=
  cumulative.countP (fun a => decide (a ≤ rand_val))

/-- The cumulative-area table of `generate_measurement_points` (running sums
of the per-triangle areas, before normalization). -/
noncomputable def cumulativeAreas (areas : List ℝ) : List ℝ :=
  (areas.foldl (fun acc a => acc ++ [(acc.getLastD 0) + a]) [])

/-- The candidate-generation loop of `generate_measurement_points`: candidate
`idx` consumes draws `rng (3·idx)` (triangle selection), `rng (3·idx+1)` and
`rng (3·idx+2)` (barycentric sampling), producing the offset surface point
paired with the selected triangle's normal. -/
noncomputable def genCandidates (triangles : List Triangle)
    (cumulative : List ℝ) (surface_offset : ℝ) (rng : ℕ → ℝ)
    (count : ℕ) : List (Vector3 × Vector3) :=
  (List.range count).map fun idx =>
    let rand_val := rng (3 * idx)
    let triangle_idx := min (bisectRight cumulative rand_val)
      (triangles.length - 1)
    let selected := triangles.getD triangle_idx degenerateTriangle
    (sample_point_on_triangle selected surface_offset
      (rng (3 * idx + 1)) (rng (3 * idx + 2)), selected.normal)

open Classical in
/-- `MeshSampler.generate_measurement_points` from `spatial/mesh_sampler.py`,
with the random draws passed as the stream `rng`.  Validation failures raise
`ValueError` (modelled as `Except.error`); otherwise the area-weighted
candidates are drawn, pruned with the spatial grid, and the first
`num_points` accepted positions are returned. -/
noncomputable def generate_measurement_points (triangles : List Triangle)
    (num_points : ℤ) (distance_threshold normal_similarity_threshold : ℝ)
    (max_attempts_multiplier : ℤ) (surface_offset : ℝ) (rng : ℕ → ℝ) :
    Except String (List Vector3) :=
  if triangles = [] then
    Except.error "Cannot generate points on empty triangle list"
  else if num_points ≤ 0 then Except.error "num_points must be positive"
  else if distance_threshold ≤ 0 then
    Except.error "distance_threshold must be positive"
  else if ¬ (0 ≤ normal_similarity_threshold ∧
      normal_similarity_threshold ≤ 1) then
    Except.error "normal_similarity_threshold must be between 0 and 1"
  else
    let triangle_areas := triangles.map calculate_triangle_area
    let total_area := triangle_areas.sum
    if total_area = 0 then
      Except.error "Total mesh area is zero - degenerate triangles"
    else
      let cumulative := cumulativeAreas triangle_areas
      let max_cumulative := cumulative.getLastD 0
      let normalized := cumulative.map (· / max_cumulative)
      let max_attempts := num_points * max_attempts_multiplier
      let candidate_points := genCandidates triangles normalized
        surface_offset rng max_attempts.toNat
      let grid_cell_size := max distance_threshold 0.1
      let grid := buildSampleCellGrid grid_cell_size candidate_points
      let pruned := pruneGo distance_threshold normal_similarity_threshold
        num_points grid grid_cell_size candidate_points.enum [] ∅
      Except.ok ((pruned.map Prod.fst).take num_points.toNat)

/-! ### Lemmas about the mesh sampler -/

theorem points_are_similar_iff (p₁ n₁ p₂ n₂ : Vector3) (d s : ℝ) :
    points_are_similar p₁ n₁ p₂ n₂ d s = true ↔
      (p₁.subtract p₂).length ≤ d ∧ n₁.dot n₂ ≥ s := by
  unfold points_are_similar
  by_cases h : (p₁.subtract p₂).length > d
  · rw [if_pos h]
    simp only [Bool.false_eq_true, false_iff, not_and]
    intro hle
    exact absurd h (not_lt.mpr hle)
  · rw [if_neg h]
    simp only [decide_eq_true_eq]
    exact ⟨fun hd' => ⟨not_lt.mp h, hd'⟩, fun hd' => hd'.2⟩

theorem length_subtract_comm (a b : Vector3) :
    (a.subtract b).length = (b.subtract a).length := by
  unfold Vector3.length Vector3.subtract
  congr 1
  ring

theorem dot_comm (a b : Vector3) : a.dot b = b.dot a := by
  unfold Vector3.dot
  ring

theorem points_are_similar_comm (p₁ n₁ p₂ n₂ : Vector3) (d s : ℝ) :
    points_are_similar p₁ n₁ p₂ n₂ d s = points_are_similar p₂ n₂ p₁ n₁ d s := by
  have h : points_are_similar p₁ n₁ p₂ n₂ d s = true ↔
      points_are_similar p₂ n₂ p₁ n₁ d s = true := by
    rw [points_are_similar_iff, points_are_similar_iff, length_subtract_comm,
      dot_comm]
  exact Bool.eq_iff_iff.mpr h

theorem length_subtract_eq (a b : Vector3) : (a.subtract b).length =
    Real.sqrt ((a.x - b.x) * (a.x - b.x) + (a.y - b.y) * (a.y - b.y) +
      (a.z - b.z) * (a.z - b.z)) := rfl

theorem abs_dx_le_length (a b : Vector3) : |a.x - b.x| ≤ (a.subtract b).length := by
  rw [length_subtract_eq, ← Real.sqrt_mul_self_eq_abs (a.x - b.x)]
  exact Real.sqrt_le_sqrt (by nlinarith [sq_nonneg (a.y - b.y), sq_nonneg (a.z - b.z)])

theorem abs_dy_le_length (a b : Vector3) : |a.y - b.y| ≤ (a.subtract b).length := by
  rw [length_subtract_eq, ← Real.sqrt_mul_self_eq_abs (a.y - b.y)]
  exact Real.sqrt_le_sqrt (by nlinarith [sq_nonneg (a.x - b.x), sq_nonneg (a.z - b.z)])

theorem abs_dz_le_length (a b : Vector3) : |a.z - b.z| ≤ (a.subtract b).length := by
  rw [length_subtract_eq, ← Real.sqrt_mul_self_eq_abs (a.z - b.z)]
  exact Real.sqrt_le_sqrt (by nlinarith [sq_nonneg (a.x - b.x), sq_nonneg (a.y - b.y)])

/-- Two coordinates within `c` of each other land in `⌊·/c⌋`-cells at most one
apart. -/
theorem floor_div_within_one {c x y : ℝ} (hc : 0 < c) (h : |x - y| ≤ c) :
    |⌊y / c⌋ - ⌊x / c⌋| ≤ 1 := by
  have hxy : y ≤ x + c := by
    have := abs_le.mp h
    linarith [this.1]
  have hyx : x - c ≤ y := by
    have := abs_le.mp h
    linarith [this.2]
  have hmul : (x / c) * c = x := div_mul_cancel₀ x (ne_of_gt hc)
  have h1 : ⌊y / c⌋ ≤ ⌊x / c⌋ + 1 := by
    have hdiv : y / c ≤ x / c + 1 := by
      rw [div_le_iff₀ hc]
      nlinarith
    calc ⌊y / c⌋ ≤ ⌊x / c + 1⌋ := Int.floor_le_floor hdiv
    _ = ⌊x / c⌋ + 1 := by rw [Int.floor_add_one]
  have h2 : ⌊x / c⌋ - 1 ≤ ⌊y / c⌋ := by
    have hdiv : x / c - 1 ≤ y / c := by
      rw [le_div_iff₀ hc]
      nlinarith
    calc ⌊x / c⌋ - 1 = ⌊x / c - 1⌋ := by rw [Int.floor_sub_one]
    _ ≤ ⌊y / c⌋ := Int.floor_le_floor hdiv
  rw [abs_le]
  omega

theorem mem_searchOffsets {a : ℤ} (h1 : -2 ≤ a) (h2 : a ≤ 2) :
    a ∈ searchOffsets := by
  unfold searchOffsets
  interval_cases a <;> simp

open Classical in
theorem buildSampleCellGrid_eq (c : ℝ) (cands : List (Vector3 × Vector3))
    (cell : ℤ × ℤ × ℤ) :
    buildSampleCellGrid c cands cell =
      cands.enum.filter (fun e => decide (point_to_cell c e.2.1 = cell)) := by
  unfold buildSampleCellGrid
  suffices H : ∀ (l : List (ℕ × Vector3 × Vector3))
      (g : ℤ × ℤ × ℤ → List (ℕ × Vector3 × Vector3)),
      (l.foldl (fun g e cell =>
        if cell = point_to_cell c e.2.1 then g cell ++ [e] else g cell) g) cell =
        g cell ++ l.filter (fun e => decide (point_to_cell c e.2.1 = cell)) by
    simpa using H cands.enum (fun _ => [])
  intro l
  induction l with
  | nil => intro g; simp
  | cons e l ih =>
    intro g
    rw [List.foldl_cons, ih, List.filter_cons]
    by_cases h : point_to_cell c e.2.1 = cell
    · rw [if_pos h.symm]
      simp [h]
    · rw [if_neg (fun hc' => h hc'.symm)]
      simp [h]

open Classical in
theorem mem_buildSampleCellGrid (c : ℝ) (cands : List (Vector3 × Vector3))
    {e : ℕ × Vector3 × Vector3} (he : e ∈ cands.enum) :
    e ∈ buildSampleCellGrid c cands (point_to_cell c e.2.1) := by
  rw [buildSampleCellGrid_eq]
  exact List.mem_filter.mpr ⟨he, by simp⟩

theorem mem_cellsToCheck (grid : ℤ × ℤ × ℤ → List (ℕ × Vector3 × Vector3))
    (cell cell' : ℤ × ℤ × ℤ) (e : ℕ × Vector3 × Vector3)
    (hx : |cell'.1 - cell.1| ≤ 2) (hy : |cell'.2.1 - cell.2.1| ≤ 2)
    (hz : |cell'.2.2 - cell.2.2| ≤ 2) (he : e ∈ grid cell') :
    e ∈ cellsToCheck grid cell := by
  rw [abs_le] at hx hy hz
  unfold cellsToCheck
  rw [List.mem_flatMap]
  refine ⟨cell'.1 - cell.1, mem_searchOffsets (by omega) (by omega), ?_⟩
  rw [List.mem_flatMap]
  refine ⟨cell'.2.1 - cell.2.1, mem_searchOffsets (by omega) (by omega), ?_⟩
  rw [List.mem_flatMap]
  refine ⟨cell'.2.2 - cell.2.2, mem_searchOffsets (by omega) (by omega), ?_⟩
  have : (cell.1 + (cell'.1 - cell.1), cell.2.1 + (cell'.2.1 - cell.2.1),
      cell.2.2 + (cell'.2.2 - cell.2.2)) = cell' := by
    obtain ⟨a, b, c'⟩ := cell'
    simp only [Prod.mk.injEq]
    omega
  rw [this]
  exact he

theorem markSimilar_cons (i : ℕ) (p n : Vector3) (d s : ℝ)
    (e : ℕ × Vector3 × Vector3) (l : List (ℕ × Vector3 × Vector3))
    (used : Finset ℕ) :
    markSimilar i p n d s (e :: l) used = markSimilar i p n d s l
      (if e.1 ∈ used ∨ e.1 ≤ i then used
      else if points_are_similar p n e.2.1 e.2.2 d s then insert e.1 used
      else used) := by
  unfold markSimilar
  rw [List.foldl_cons]

theorem subset_markSimilar (i : ℕ) (p n : Vector3) (d s : ℝ) :
    ∀ (toCheck : List (ℕ × Vector3 × Vector3)) (used : Finset ℕ),
      used ⊆ markSimilar i p n d s toCheck used := by
  intro toCheck
  induction toCheck with
  | nil => intro used; exact Finset.Subset.refl _
  | cons e l ih =>
    intro used
    rw [markSimilar_cons]
    refine Finset.Subset.trans ?_ (ih _)
    by_cases h1 : e.1 ∈ used ∨ e.1 ≤ i
    · rw [if_pos h1]
    · rw [if_neg h1]
      by_cases h2 : points_are_similar p n e.2.1 e.2.2 d s = true
      · rw [if_pos h2]
        exact Finset.subset_insert _ _
      · rw [if_neg h2]

theorem mem_markSimilar (i : ℕ) (p n : Vector3) (d s : ℝ) :
    ∀ (toCheck : List (ℕ × Vector3 × Vector3)) (used : Finset ℕ)
      (e : ℕ × Vector3 × Vector3), e ∈ toCheck → i < e.1 →
      points_are_similar p n e.2.1 e.2.2 d s = true →
      e.1 ∈ markSimilar i p n d s toCheck used := by
  intro toCheck
  induction toCheck with
  | nil => intro used e he; exact absurd he (List.not_mem_nil e)
  | cons e0 l ih =>
    intro used e he hlt hsim
    rw [markSimilar_cons]
    rcases List.mem_cons.mp he with heq | hmem
    · subst heq
      by_cases h1 : e.1 ∈ used ∨ e.1 ≤ i
      · rcases h1 with h1 | h1
        · rw [if_pos (Or.inl h1)]
          exact subset_markSimilar i p n d s l used h1
        · omega
      · rw [if_neg h1, if_pos hsim]
        exact subset_markSimilar i p n d s l _ (Finset.mem_insert_self _ _)
    · exact ih _ e hmem hlt hsim

theorem pruneGo_nil (d s : ℝ) (N : ℤ)
    (grid : ℤ × ℤ × ℤ → List (ℕ × Vector3 × Vector3)) (c : ℝ)
    (pruned : List (Vector3 × Vector3)) (used : Finset ℕ) :
    pruneGo d s N grid c [] pruned used = pruned := rfl

theorem pruneGo_cons (d s : ℝ) (N : ℤ)
    (grid : ℤ × ℤ × ℤ → List (ℕ × Vector3 × Vector3)) (c : ℝ)
    (e : ℕ × Vector3 × Vector3) (rest : List (ℕ × Vector3 × Vector3))
    (pruned : List (Vector3 × Vector3)) (used : Finset ℕ) :
    pruneGo d s N grid c (e :: rest) pruned used =
      if e.1 ∈ used then pruneGo d s N grid c rest pruned used
      else
        let pruned' := pruned ++ [(e.2.1, e.2.2)]
        let used'' := markSimilar e.1 e.2.1 e.2.2 d s
          (cellsToCheck grid (point_to_cell c e.2.1)) (insert e.1 used)
        if (pruned'.length : ℤ) ≥ N then pruned'
        else pruneGo d s N grid c rest pruned' used'' := rfl

theorem mem_enum_of_get? {α : Type} {l : List α} {i : ℕ} {a : α}
    (h : l.get? i = some a) : (i, a) ∈ l.enum := by
  rw [List.mem_enum_iff_get?]
  exact h

/-- The central invariant of the pruning loop: starting from a suffix of the
enumerated candidate list with a pairwise-non-similar accepted list whose
future similar candidates are all marked used, the loop returns a
pairwise-non-similar accepted list. -/
theorem pruneGo_invariant (d s : ℝ) (N : ℤ)
    (cands : List (Vector3 × Vector3)) (c : ℝ)
    (hd : 0 < d) (hdc : d ≤ c) (hc : 0 < c) :
    ∀ (cs : List (Vector3 × Vector3)) (k : ℕ)
      (pruned : List (Vector3 × Vector3)) (used : Finset ℕ),
      cands.drop k = cs →
      pruned.Pairwise
        (fun a b => points_are_similar a.1 a.2 b.1 b.2 d s = false) →
      (∀ pr ∈ pruned, ∀ idx, k ≤ idx → idx ∉ used → ∀ q,
        cands.get? idx = some q →
        points_are_similar pr.1 pr.2 q.1 q.2 d s = false) →
      (pruneGo d s N (buildSampleCellGrid c cands) c
          (List.enumFrom k cs) pruned used).Pairwise
        (fun a b => points_are_similar a.1 a.2 b.1 b.2 d s = false) := by
  intro cs
  induction cs with
  | nil =>
    intro k pruned used _ h1 _
    rw [List.enumFrom_nil, pruneGo_nil]
    exact h1
  | cons q cs' ih =>
    intro k pruned used hdrop h1 h2
    have hdrop' : cands.drop (k + 1) = cs' := by
      have : cands.drop (k + 1) = (cands.drop k).drop 1 := by
        rw [List.drop_drop]
      rw [this, hdrop, List.drop_one, List.tail_cons]
    have hq : cands.get? k = some q := by
      have h0 : (cands.drop k).get? 0 = cands.get? (k + 0) := List.get?_drop _ _ _
      rw [hdrop] at h0
      simpa using h0.symm
    rw [List.enumFrom_cons, pruneGo_cons]
    by_cases hk : k ∈ used
    · rw [if_pos hk]
      exact ih (k + 1) pruned used hdrop' h1
        (fun pr hpr idx hidx => h2 pr hpr idx (by omega))
    · rw [if_neg hk]
      simp only []
      have h1' : (pruned ++ [(q.1, q.2)]).Pairwise
          (fun a b => points_are_similar a.1 a.2 b.1 b.2 d s = false) := by
        rw [List.pairwise_append]
        refine ⟨h1, List.pairwise_singleton _ _, ?_⟩
        intro a ha b hb
        rcases List.mem_singleton.mp hb with rfl
        exact h2 a ha k le_rfl hk q hq
      by_cases hbreak : ((pruned ++ [(q.1, q.2)]).length : ℤ) ≥ N
      · rw [if_pos hbreak]
        exact h1'
      · rw [if_neg hbreak]
        refine ih (k + 1) _ _ hdrop' h1' ?_
        intro pr hpr idx hidx hused'' q₂ hq₂
        have husedsub : used ⊆ markSimilar k q.1 q.2 d s
            (cellsToCheck (buildSampleCellGrid c cands)
              (point_to_cell c q.1)) (insert k used) :=
          Finset.Subset.trans (Finset.subset_insert _ _)
            (subset_markSimilar _ _ _ _ _ _ _)
        rcases List.mem_append.mp hpr with hpr | hpr
        · exact h2 pr hpr idx (by omega)
            (fun hin => hused'' (husedsub hin)) q₂ hq₂
        · rcases List.mem_singleton.mp hpr with rfl
          by_contra hne
          have hsim : points_are_similar q.1 q.2 q₂.1 q₂.2 d s = true := by
            rcases Bool.eq_false_or_eq_true
              (points_are_similar q.1 q.2 q₂.1 q₂.2 d s) with h | h
            · exact h
            · exact absurd h hne
          have hlen : (q.1.subtract q₂.1).length ≤ d :=
            ((points_are_similar_iff _ _ _ _ _ _).mp hsim).1
          have hcx : |⌊q₂.1.x / c⌋ - ⌊q.1.x / c⌋| ≤ 1 :=
            floor_div_within_one hc
              (le_trans (abs_dx_le_length q.1 q₂.1) (le_trans hlen hdc))
          have hcy : |⌊q₂.1.y / c⌋ - ⌊q.1.y / c⌋| ≤ 1 :=
            floor_div_within_one hc
              (le_trans (abs_dy_le_length q.1 q₂.1) (le_trans hlen hdc))
          have hcz : |⌊q₂.1.z / c⌋ - ⌊q.1.z / c⌋| ≤ 1 :=
            floor_div_within_one hc
              (le_trans (abs_dz_le_length q.1 q₂.1) (le_trans hlen hdc))
          have hbucket : (idx, q₂) ∈ buildSampleCellGrid c cands
              (point_to_cell c q₂.1) :=
            mem_buildSampleCellGrid c cands (mem_enum_of_get? hq₂)
          have hcheck : (idx, q₂) ∈ cellsToCheck (buildSampleCellGrid c cands)
              (point_to_cell c q.1) := by
            refine mem_cellsToCheck _ _ (point_to_cell c q₂.1) _ ?_ ?_ ?_ hbucket
            · unfold point_to_cell
              rw [abs_le] at hcx ⊢
              simp only []
              omega
            · unfold point_to_cell
              rw [abs_le] at hcy ⊢
              simp only []
              omega
            · unfold point_to_cell
              rw [abs_le] at hcz ⊢
              simp only []
              omega
          exact hused'' (mem_markSimilar k q.1 q.2 d s _ _ (idx, q₂) hcheck
            (by omega) hsim)

/-- The accepted `(point, normal)` list of `generate_measurement_points`
(the pruning-loop output before positions are projected out and truncated). -/
noncomputable def measurementAccepted (triangles : List Triangle)
    (num_points : ℤ) (distance_threshold normal_similarity_threshold : ℝ)
    (max_attempts_multiplier : ℤ) (surface_offset : ℝ) (rng : ℕ → ℝ) :
    List (Vector3 × Vector3) :=
  let triangle_areas := triangles.map calculate_triangle_area
  let cumulative := cumulativeAreas triangle_areas
  let max_cumulative := cumulative.getLastD 0
  let normalized := cumulative.map (· / max_cumulative)
  let max_attempts := num_points * max_attempts_multiplier
  let candidate_points := genCandidates triangles normalized surface_offset
    rng max_attempts.toNat
  let grid_cell_size := max distance_threshold 0.1
  let grid := buildSampleCellGrid grid_cell_size candidate_points
  pruneGo distance_threshold normal_similarity_threshold num_points grid
    grid_cell_size candidate_points.enum [] ∅

theorem generate_eq_of_valid (triangles : List Triangle) (num_points : ℤ)
    (d s : ℝ) (m : ℤ) (offset : ℝ) (rng : ℕ → ℝ)
    (hne : ¬ triangles = []) (hN : 0 < num_points) (hd : 0 < d)
    (hs : 0 ≤ s ∧ s ≤ 1)
    (harea : ¬ (triangles.map calculate_triangle_area).sum = 0) :
    generate_measurement_points triangles num_points d s m offset rng =
      Except.ok (((measurementAccepted triangles num_points d s m offset
        rng).map Prod.fst).take num_points.toNat) := by
  simp only [generate_measurement_points, measurementAccepted]
  rw [if_neg hne, if_neg (not_le.mpr hN), if_neg (not_le.mpr hd),
    if_neg (not_not_intro hs), if_neg harea]

/-- C6: for every valid input (non-empty triangles, positive target count,
positive distance threshold `d`, normal threshold `s ∈ [0,1]`, non-zero total
area) and every random stream, any two distinct points returned by
`generate_measurement_points`, taken with the normals of their accepted
candidates, satisfy `|pᵢ − pⱼ| > d` OR `n̂ᵢ · n̂ⱼ < s`. -/
theorem C6_mesh_sampler_spread (triangles : List Triangle) (num_points : ℤ)
    (d s : ℝ) (m : ℤ) (offset : ℝ) (rng : ℕ → ℝ) (pts : List Vector3)
    (hne : triangles ≠ []) (hN : 0 < num_points) (hd : 0 < d)
    (hs : 0 ≤ s ∧ s ≤ 1)
    (harea : (triangles.map calculate_triangle_area).sum ≠ 0)
    (hok : generate_measurement_points triangles num_points d s m offset rng =
      Except.ok pts) :
    ∀ i j (hi : i < pts.length) (hj : j < pts.length), i ≠ j →
      ∃ na nb : Vector3,
        (measurementAccepted triangles num_points d s m offset rng).get? i =
          some (pts.get ⟨i, hi⟩, na) ∧
        (measurementAccepted triangles num_points d s m offset rng).get? j =
          some (pts.get ⟨j, hj⟩, nb) ∧
        (d < ((pts.get ⟨i, hi⟩).subtract (pts.get ⟨j, hj⟩)).length ∨
          na.dot nb < s) := by
  have heq := generate_eq_of_valid triangles num_points d s m offset rng
    hne hN hd hs harea
  rw [hok] at heq
  have hpts : pts = ((measurementAccepted triangles num_points d s m offset
      rng).map Prod.fst).take num_points.toNat := by
    exact Except.ok.inj heq
  set acc := measurementAccepted triangles num_points d s m offset rng with hacc
  have hpair : acc.Pairwise
      (fun a b => points_are_similar a.1 a.2 b.1 b.2 d s = false) := by
    rw [hacc]
    unfold measurementAccepted
    simp only []
    have henum : ∀ (l : List (Vector3 × Vector3)), l.enum = List.enumFrom 0 l :=
      fun _ => rfl
    rw [henum]
    exact pruneGo_invariant d s num_points _ (max d 0.1) hd (le_max_left _ _)
      (lt_of_lt_of_le (by norm_num) (le_max_right d 0.1)) _ 0 [] ∅ rfl
      (List.Pairwise.nil) (by intro pr hpr; exact absurd hpr (List.not_mem_nil pr))
  intro i j hi hj hij
  have hlen : pts.length = min num_points.toNat acc.length := by
    rw [hpts]
    simp [List.length_take, List.length_map]
  have hiacc : i < acc.length := by
    rw [hlen] at hi
    exact lt_of_lt_of_le hi (min_le_right _ _)
  have hjacc : j < acc.length := by
    rw [hlen] at hj
    exact lt_of_lt_of_le hj (min_le_right _ _)
  have hget : ∀ (k : ℕ) (hk : k < pts.length) (hka : k < acc.length),
      acc.get? k = some (pts.get ⟨k, hk⟩, (acc.get ⟨k, hka⟩).2) ∧
      pts.get ⟨k, hk⟩ = (acc.get ⟨k, hka⟩).1 := by
    intro k hk hka
    have hkn : k < num_points.toNat := by
      rw [hlen] at hk
      exact lt_of_lt_of_le hk (min_le_left _ _)
    have h1 : pts.get? k = some (pts.get ⟨k, hk⟩) := List.get?_eq_get hk
    have h2 : pts.get? k = (acc.get? k).map Prod.fst := by
      rw [hpts]
      rw [List.get?_take hkn, List.get?_map]
    have h3 : acc.get? k = some (acc.get ⟨k, hka⟩) := List.get?_eq_get hka
    rw [h3] at h2
    have h4 : pts.get ⟨k, hk⟩ = (acc.get ⟨k, hka⟩).1 := by
      have h5 := h1.symm.trans h2
      simpa using h5
    refine ⟨?_, h4⟩
    rw [h3, h4]
  obtain ⟨hgi, hvi⟩ := hget i hi hiacc
  obtain ⟨hgj, hvj⟩ := hget j hj hjacc
  refine ⟨(acc.get ⟨i, hiacc⟩).2, (acc.get ⟨j, hjacc⟩).2, hgi, hgj, ?_⟩
  have hnotsim : points_are_similar (acc.get ⟨i, hiacc⟩).1
      (acc.get ⟨i, hiacc⟩).2 (acc.get ⟨j, hjacc⟩).1
      (acc.get ⟨j, hjacc⟩).2 d s = false := by
    rcases lt_or_gt_of_ne hij with hlt | hgt
    · exact List.pairwise_iff_get.mp hpair ⟨i, hiacc⟩ ⟨j, hjacc⟩ hlt
    · rw [points_are_similar_comm]
      exact List.pairwise_iff_get.mp hpair ⟨j, hjacc⟩ ⟨i, hiacc⟩ hgt
  have hnot : ¬ (((acc.get ⟨i, hiacc⟩).1.subtract
      (acc.get ⟨j, hjacc⟩).1).length ≤ d ∧
      (acc.get ⟨i, hiacc⟩).2.dot (acc.get ⟨j, hjacc⟩).2 ≥ s) := by
    intro hand
    rw [(points_are_similar_iff _ _ _ _ _ _).mpr hand] at hnotsim
    exact Bool.noConfusion hnotsim
  rw [← hvi, ← hvj] at hnot
  rcases not_and_or.mp hnot with h | h
  · exact Or.inl (not_le.mp h)
  · exact Or.inr (not_le.mp h)

/-- C10: `generate_measurement_points` returns an error if and only if the
triangle list is empty, `num_points ≤ 0`, `distance_threshold ≤ 0`,
`normal_similarity_threshold ∉ [0,1]`, or the total triangle area is zero;
otherwise it returns (`Except.ok`, hence no partial result on failure) a list
of at most `num_points` points. -/
theorem C10_mesh_sampler_validation (triangles : List Triangle)
    (num_points : ℤ) (d s : ℝ) (m : ℤ) (offset : ℝ) (rng : ℕ → ℝ) :
    ((∃ e, generate_measurement_points triangles num_points d s m offset rng =
        Except.error e) ↔
      (triangles = [] ∨ num_points ≤ 0 ∨ d ≤ 0 ∨ ¬ (0 ≤ s ∧ s ≤ 1) ∨
        (triangles.map calculate_triangle_area).sum = 0)) ∧
    (∀ pts, generate_measurement_points triangles num_points d s m offset rng =
      Except.ok pts → (pts.length : ℤ) ≤ num_points) := by
  by_cases h1 : triangles = []
  · constructor
    · exact ⟨fun _ => Or.inl h1, fun _ => ⟨_, by
        simp only [generate_measurement_points]
        rw [if_pos h1]⟩⟩
    · intro pts hok
      simp only [generate_measurement_points] at hok
      rw [if_pos h1] at hok
      exact absurd hok (by simp)
  · by_cases h2 : num_points ≤ 0
    · constructor
      · exact ⟨fun _ => Or.inr (Or.inl h2), fun _ => ⟨_, by
          simp only [generate_measurement_points]
          rw [if_neg h1, if_pos h2]⟩⟩
      · intro pts hok
        simp only [generate_measurement_points] at hok
        rw [if_neg h1, if_pos h2] at hok
        exact absurd hok (by simp)
    · by_cases h3 : d ≤ 0
      · constructor
        · exact ⟨fun _ => Or.inr (Or.inr (Or.inl h3)), fun _ => ⟨_, by
            simp only [generate_measurement_points]
            rw [if_neg h1, if_neg h2, if_pos h3]⟩⟩
        · intro pts hok
          simp only [generate_measurement_points] at hok
          rw [if_neg h1, if_neg h2, if_pos h3] at hok
          exact absurd hok (by simp)
      · by_cases h4 : ¬ (0 ≤ s ∧ s ≤ 1)
        · constructor
          · exact ⟨fun _ => Or.inr (Or.inr (Or.inr (Or.inl h4))), fun _ => ⟨_, by
              simp only [generate_measurement_points]
              rw [if_neg h1, if_neg h2, if_neg h3, if_pos h4]⟩⟩
          · intro pts hok
            simp only [generate_measurement_points] at hok
            rw [if_neg h1, if_neg h2, if_neg h3, if_pos h4] at hok
            exact absurd hok (by simp)
        · by_cases h5 : (triangles.map calculate_triangle_area).sum = 0
          · constructor
            · refine ⟨fun _ => Or.inr (Or.inr (Or.inr (Or.inr h5))),
                fun _ =>
                  ⟨"Total mesh area is zero - degenerate triangles", ?_⟩⟩
              simp only [generate_measurement_points]
              rw [if_neg h1, if_neg h2, if_neg h3, if_neg h4, if_pos h5]
            · intro pts hok
              simp only [generate_measurement_points] at hok
              rw [if_neg h1, if_neg h2, if_neg h3, if_neg h4, if_pos h5] at hok
              exact absurd hok (by simp)
          · have hok := generate_eq_of_valid triangles num_points d s m offset
              rng h1 (not_le.mp h2) (not_le.mp h3) (not_not.mp h4) h5
            constructor
            · constructor
              · rintro ⟨e, he⟩
                rw [hok] at he
                exact absurd he (by simp)
              · rintro (h | h | h | h | h)
                · exact absurd h h1
                · exact absurd h h2
                · exact absurd h h3
                · exact absurd h h4
                · exact absurd h h5
            · intro pts hpts
              rw [hok] at hpts
              have : pts = ((measurementAccepted triangles num_points d s m
                  offset rng).map Prod.fst).take num_points.toNat :=
                (Except.ok.inj hpts).symm
              have hlen : pts.length ≤ num_points.toNat := by
                rw [this]
                exact le_trans (List.length_take_le _ _) (le_refl _)
              have hpos : (0:ℤ) < num_points := not_le.mp h2
              omega

theorem cumulativeAreas_single (a : ℝ) : cumulativeAreas [a] = [a] := by
  unfold cumulativeAreas
  simp

theorem bisectRight_one_zero : bisectRight [(1 : ℝ)] 0 = 0 := by
  unfold bisectRight
  rw [List.countP_cons, List.countP_nil]
  rw [if_neg (by norm_num [decide_eq_true_eq] : ¬ (decide ((1:ℝ) ≤ 0) = true))]

theorem pruneGo_singleton (d s : ℝ)
    (grid : ℤ × ℤ × ℤ → List (ℕ × Vector3 × Vector3)) (c : ℝ)
    (e : ℕ × Vector3 × Vector3) :
    pruneGo d s 1 grid c [e] [] ∅ = [(e.2.1, e.2.2)] := by
  rw [pruneGo_cons]
  rw [if_neg (Finset.not_mem_empty e.1)]
  simp only [List.nil_append, List.length_singleton]
  rw [if_pos (by norm_num : ((1 : ℕ) : ℤ) ≥ 1)]

theorem C6_unit_triangle_area :
    calculate_triangle_area ⟨⟨0,0,0⟩, ⟨1,0,0⟩, ⟨0,1,0⟩, 1⟩ = 0.5 := by
  unfold calculate_triangle_area Vector3.cross Vector3.subtract Vector3.length
  norm_num

theorem C6_candidates_eval :
    genCandidates [⟨⟨0,0,0⟩, ⟨1,0,0⟩, ⟨0,1,0⟩, 1⟩] [(1:ℝ)] 0
      (fun _ => 0) 1 =
      [(⟨0,0,0⟩, Triangle.normal ⟨⟨0,0,0⟩, ⟨1,0,0⟩, ⟨0,1,0⟩, 1⟩)] := by
  unfold genCandidates
  simp only [List.range_succ, List.range_zero, List.nil_append, List.map_cons,
    List.map_nil, Nat.mul_zero, bisectRight_one_zero, List.length_singleton,
    Nat.sub_self, Nat.min_self, List.getD_cons_zero]
  unfold sample_point_on_triangle
  simp [Vector3.add, Vector3.multiply, Real.sqrt_zero]

theorem C6_generate_eval :
    generate_measurement_points
      [⟨⟨0,0,0⟩, ⟨1,0,0⟩, ⟨0,1,0⟩, 1⟩] 1 1 1 1 0 (fun _ => 0) =
      Except.ok [⟨0,0,0⟩] := by
  rw [generate_eq_of_valid _ _ _ _ _ _ _ (by simp) (by norm_num) (by norm_num)
    (by norm_num)
    (by rw [List.map_cons, List.map_nil, C6_unit_triangle_area]; norm_num)]
  congr 1
  unfold measurementAccepted
  simp only [List.map_cons, List.map_nil, C6_unit_triangle_area]
  rw [cumulativeAreas_single]
  norm_num
  rw [C6_candidates_eval]
  have henum : ([((⟨0,0,0⟩ : Vector3),
      Triangle.normal ⟨⟨0,0,0⟩, ⟨1,0,0⟩, ⟨0,1,0⟩, 1⟩)]).enum =
      [(0, ((⟨0,0,0⟩ : Vector3),
        Triangle.normal ⟨⟨0,0,0⟩, ⟨1,0,0⟩, ⟨0,1,0⟩, 1⟩))] := rfl
  rw [henum, pruneGo_singleton]
  rfl

/-- Witness for `C6_mesh_sampler_spread`: a single unit triangle, one
requested point, thresholds `d = 1`, `s = 1`, oversampling factor 1, a
constant-zero random stream; the sampler returns the single point `(0,0,0)`
and the spread property holds for its output. -/
theorem C6_mesh_sampler_spread_witness :
    ([(⟨⟨0,0,0⟩, ⟨1,0,0⟩, ⟨0,1,0⟩, 1⟩ : Triangle)] ≠ [] ∧ (0 : ℤ) < 1 ∧
      (0 : ℝ) < 1) ∧
    (∀ i j (hi : i < ([(⟨0,0,0⟩ : Vector3)]).length)
      (hj : j < ([(⟨0,0,0⟩ : Vector3)]).length), i ≠ j →
      ∃ na nb : Vector3,
        (measurementAccepted [⟨⟨0,0,0⟩, ⟨1,0,0⟩, ⟨0,1,0⟩, 1⟩] 1 1 1 1 0
          (fun _ => 0)).get? i =
          some (([(⟨0,0,0⟩ : Vector3)]).get ⟨i, hi⟩, na) ∧
        (measurementAccepted [⟨⟨0,0,0⟩, ⟨1,0,0⟩, ⟨0,1,0⟩, 1⟩] 1 1 1 1 0
          (fun _ => 0)).get? j =
          some (([(⟨0,0,0⟩ : Vector3)]).get ⟨j, hj⟩, nb) ∧
        ((1:ℝ) < ((([(⟨0,0,0⟩ : Vector3)]).get ⟨i, hi⟩).subtract
          (([(⟨0,0,0⟩ : Vector3)]).get ⟨j, hj⟩)).length ∨
          na.dot nb < 1)) :=
  ⟨⟨List.cons_ne_nil _ _, by norm_num, by norm_num⟩,
    C6_mesh_sampler_spread [⟨⟨0,0,0⟩, ⟨1,0,0⟩, ⟨0,1,0⟩, 1⟩] 1 1 1 1 0
      (fun _ => 0) [⟨0,0,0⟩] (List.cons_ne_nil _ _) (by norm_num) (by norm_num)
      (by norm_num)
      (by rw [List.map_cons, List.map_nil, C6_unit_triangle_area]; norm_num)
      C6_generate_eval⟩

/-- Witness for `C10_mesh_sampler_validation`: on the empty triangle list the
sampler reports an error. -/
theorem C10_mesh_sampler_validation_witness :
    ∃ e, generate_measurement_points ([] : List Triangle) 1 1 1 1 0
      (fun _ => 0) = Except.error e :=
  (C10_mesh_sampler_validation [] 1 1 1 1 0 (fun _ => 0)).1.mpr (Or.inl rfl)

/-! ## Uniform spatial grid (`spatial/grid.py`) -/

/-- `SpatialGrid._position_to_cell`: Python `int(pos // cell_size)` is
`⌊pos / cell_size⌋` componentwise. -/
noncomputable def position_to_cell (cell_size : ℝ) (pos : Vector3) : ℤ × ℤ × ℤ :=
  (⌊pos.x / cell_size⌋, ⌊pos.y / cell_size⌋, ⌊pos.z / cell_size⌋)

/-- The cell box of `SpatialGrid._build_grid`'s triple `for` loop: the
inclusive integer range from the cell of the triangle's AABB minimum to the
cell of its AABB maximum. -/
noncomputable def cellInTriangleBox (cell_size : ℝ) (t : Triangle)
    (cell : ℤ × ℤ × ℤ) : Prop :=
  (position_to_cell cell_size ⟨t.minX, t.minY, t.minZ⟩).1 ≤ cell.1 ∧
  cell.1 ≤ (position_to_cell cell_size ⟨t.maxX, t.maxY, t.maxZ⟩).1 ∧
  (position_to_cell cell_size ⟨t.minX, t.minY, t.minZ⟩).2.1 ≤ cell.2.1 ∧
  cell.2.1 ≤ (position_to_cell cell_size ⟨t.maxX, t.maxY, t.maxZ⟩).2.1 ∧
  (position_to_cell cell_size ⟨t.minX, t.minY, t.minZ⟩).2.2 ≤ cell.2.2 ∧
  cell.2.2 ≤ (position_to_cell cell_size ⟨t.maxX, t.maxY, t.maxZ⟩).2.2

open Classical in
/-- One triangle insertion of `SpatialGrid._build_grid`: the triangle (by its
index, standing for Python object identity) is appended to every cell of its
inclusive AABB cell box. -/
noncomputable def gridInsertTriangle (cell_size : ℝ)
    (g : ℤ × ℤ × ℤ → List ℕ) (idx : ℕ) (t : Triangle) : ℤ × ℤ × ℤ → List ℕ :=
  fun cell =>
    if cellInTriangleBox cell_size t cell then g cell ++ [idx] else g cell

/-- `SpatialGrid._build_grid`: fold the insertion over the enumerated
triangle list, starting from the empty grid. -/
noncomputable def buildGrid (cell_size : ℝ) (triangles : List Triangle) :
    ℤ × ℤ × ℤ → List ℕ :=
  triangles.enum.foldl (fun g e => gridInsertTriangle cell_size g e.1 e.2)
    (fun _ => [])

open Classical in
theorem buildGrid_eq (cell_size : ℝ) (triangles : List Triangle)
    (cell : ℤ × ℤ × ℤ) :
    buildGrid cell_size triangles cell =
      ((triangles.enum.filter
        (fun e => decide (cellInTriangleBox cell_size e.2 cell))).map
          Prod.fst) := by
  unfold buildGrid
  suffices H : ∀ (l : List (ℕ × Triangle)) (g : ℤ × ℤ × ℤ → List ℕ),
      (l.foldl (fun g e => gridInsertTriangle cell_size g e.1 e.2) g) cell =
        g cell ++ ((l.filter
          (fun e => decide (cellInTriangleBox cell_size e.2 cell))).map
            Prod.fst) by
    simpa using H triangles.enum (fun _ => [])
  intro l
  induction l with
  | nil => intro g; simp
  | cons e l ih =>
    intro g
    rw [List.foldl_cons, ih, List.filter_cons]
    by_cases h : cellInTriangleBox cell_size e.2 cell
    · rw [if_pos (by simpa using h)]
      unfold gridInsertTriangle
      rw [if_pos h]
      simp
    · rw [if_neg (by simpa using h)]
      unfold gridInsertTriangle
      rw [if_neg h]

/-- C5 (grid completeness): after construction with cell size `c > 0`, every
input triangle is a member of the grid bucket of every integer cell `(i,j,k)`
in the inclusive range from `⌊AABB.min/c⌋` to `⌊AABB.max/c⌋` componentwise. -/
theorem C5_grid_completeness (triangles : List Triangle) (c : ℝ)
    (hc : 0 < c) (idx : ℕ) (t : Triangle) (hidx : triangles.get? idx = some t)
    (i j k : ℤ)
    (hxl : ⌊t.minX / c⌋ ≤ i) (hxu : i ≤ ⌊t.maxX / c⌋)
    (hyl : ⌊t.minY / c⌋ ≤ j) (hyu : j ≤ ⌊t.maxY / c⌋)
    (hzl : ⌊t.minZ / c⌋ ≤ k) (hzu : k ≤ ⌊t.maxZ / c⌋) :
    idx ∈ buildGrid c triangles (i, j, k) := by
  rw [buildGrid_eq]
  refine List.mem_map.mpr ⟨(idx, t), List.mem_filter.mpr ⟨mem_enum_of_get? hidx, ?_⟩, rfl⟩
  simp only [decide_eq_true_eq]
  exact ⟨hxl, hxu, hyl, hyu, hzl, hzu⟩

/-- Witness for `C5_grid_completeness`: the unit triangle with cell size 1 is
registered in cell `(0,0,0)` (its AABB spans cells `0..1` in x and y). -/
theorem C5_grid_completeness_witness :
    (0 : ℝ) < 1 ∧
    0 ∈ buildGrid 1 [⟨⟨0,0,0⟩, ⟨1,0,0⟩, ⟨0,1,0⟩, 1⟩] (0, 0, 0) :=
  ⟨one_pos,
    C5_grid_completeness [⟨⟨0,0,0⟩, ⟨1,0,0⟩, ⟨0,1,0⟩, 1⟩] 1 one_pos 0
      ⟨⟨0,0,0⟩, ⟨1,0,0⟩, ⟨0,1,0⟩, 1⟩ rfl 0 0 0
      (by unfold Triangle.minX; norm_num)
      (by unfold Triangle.maxX; norm_num)
      (by unfold Triangle.minY; norm_num)
      (by unfold Triangle.maxY; norm_num)
      (by unfold Triangle.minZ; norm_num)
      (by unfold Triangle.maxZ; norm_num)⟩

/-! ## 3D-DDA ray traversal (`SpatialGrid.get_triangles_along_ray`) -/

/-- Ray from `core/ray.py`: the constructor normalizes the direction, see
`mkRay`. -/
structure Ray where
  origin : Vector3
  direction : Vector3

/-- `Ray.__init__`: stores the origin and the normalized direction. -/
noncomputable def mkRay (origin direction : Vector3) : Ray :=
  ⟨origin, direction.normalize⟩

/-- `Ray.get_point`: `origin + direction · t`. -/
noncomputable def Ray.get_point (r : Ray) (t : ℝ) : Vector3 :=
  r.origin.add (r.direction.multiply t)

open Classical in
/-- `step_x = 1 if direction.x >= 0 else -1` of the DDA setup. -/
noncomputable def stepOf (dir_a : ℝ) : ℤ := if dir_a ≥ 0 then 1 else -1

open Classical in
/-- The per-axis `t_max` initialization of the DDA: parametric distance to
the first cell boundary along the axis, `+∞` for a zero direction
component. -/
noncomputable def initTMax (cell_size origin_a dir_a : ℝ) (cell_a : ℤ) :
    WithTop ℝ :=
  if dir_a ≠ 0 then
    ((if stepOf dir_a > 0 then
        (cell_size * ((cell_a : ℝ) + 1) - origin_a) / dir_a
      else (cell_size * (cell_a : ℝ) - origin_a) / dir_a : ℝ) : WithTop ℝ)
  else ⊤

open Classical in
/-- The per-axis `t_delta` of the DDA: `cell_size / |direction_axis|`, `+∞`
for a zero direction component. -/
noncomputable def initTDelta (cell_size dir_a : ℝ) : WithTop ℝ :=
  if dir_a ≠ 0 then ((cell_size / |dir_a| : ℝ) : WithTop ℝ) else ⊤

/-- Remaining boundary crossings of one axis before `t_max` exceeds
`max_distance`; used to pre-compute a sufficient iteration bound for the
Python `while` loop (which has no fuel: the bound is proved to make the
embedded loop reach the same break the Python loop reaches). -/
noncomputable def axisPotential (max_distance : ℝ) :
    WithTop ℝ → WithTop ℝ → ℕ
  | (x : ℝ), (dlt : ℝ) => ⌈(max_distance - x) / dlt⌉₊
  | _, _ => 0

/-- Total iteration bound for the DDA walk. -/
noncomputable def ddaFuel (max_distance : ℝ)
    (tmax tdelta : WithTop ℝ × WithTop ℝ × WithTop ℝ) : ℕ :=
  axisPotential max_distance tmax.1 tdelta.1 +
    axisPotential max_distance tmax.2.1 tdelta.2.1 +
    axisPotential max_distance tmax.2.2 tdelta.2.2 + 1

open Classical in
/-- The DDA `while` loop of `get_triangles_along_ray`: while `t <
max_distance`, record the current cell, then step into the neighbour with the
smallest `t_max` (ties in the Python `if/else` chain prefer `y`/`z`),
breaking before the step when the crossing parameter reaches
`max_distance`.  Cells are recorded by unconditional append: the Python
`visited`-set guard never fires because (as proved below) the walk never
revisits a cell. -/
noncomputable def ddaLoop (max_distance : ℝ) (step : ℤ × ℤ × ℤ)
    (tdelta : WithTop ℝ × WithTop ℝ × WithTop ℝ) :
    ℕ → ℤ × ℤ × ℤ → WithTop ℝ × WithTop ℝ × WithTop ℝ → WithTop ℝ →
    List (ℤ × ℤ × ℤ) → List (ℤ × ℤ × ℤ)
  | 0, _, _, _, acc => acc
  | fuel + 1, cell, tmax, t, acc =>
    if t < (max_distance : WithTop ℝ) then
      let acc' := acc ++ [cell]
      if tmax.1 < tmax.2.1 then
        if tmax.1 < tmax.2.2 then
          if (max_distance : WithTop ℝ) ≤ tmax.1 then acc'
          else ddaLoop max_distance step tdelta fuel
            (cell.1 + step.1, cell.2.1, cell.2.2)
            (tmax.1 + tdelta.1, tmax.2.1, tmax.2.2) tmax.1 acc'
        else
          if (max_distance : WithTop ℝ) ≤ tmax.2.2 then acc'
          else ddaLoop max_distance step tdelta fuel
            (cell.1, cell.2.1, cell.2.2 + step.2.2)
            (tmax.1, tmax.2.1, tmax.2.2 + tdelta.2.2) tmax.2.2 acc'
      else
        if tmax.2.1 < tmax.2.2 then
          if (max_distance : WithTop ℝ) ≤ tmax.2.1 then acc'
          else ddaLoop max_distance step tdelta fuel
            (cell.1, cell.2.1 + step.2.1, cell.2.2)
            (tmax.1, tmax.2.1 + tdelta.2.1, tmax.2.2) tmax.2.1 acc'
        else
          if (max_distance : WithTop ℝ) ≤ tmax.2.2 then acc'
          else ddaLoop max_distance step tdelta fuel
            (cell.1, cell.2.1, cell.2.2 + step.2.2)
            (tmax.1, tmax.2.1, tmax.2.2 + tdelta.2.2) tmax.2.2 acc'
    else acc

/-- The list of cells visited by `get_triangles_along_ray`'s DDA walk, in
visit order. -/
noncomputable def rayVisitedCells (cell_size : ℝ) (ray : Ray)
    (max_distance : ℝ) : List (ℤ × ℤ × ℤ) :=
  let direction := ray.direction.normalize
  let start_cell := position_to_cell cell_size ray.origin
  let tmax := (initTMax cell_size ray.origin.x direction.x start_cell.1,
    initTMax cell_size ray.origin.y direction.y start_cell.2.1,
    initTMax cell_size ray.origin.z direction.z start_cell.2.2)
  let tdelta := (initTDelta cell_size direction.x,
    initTDelta cell_size direction.y, initTDelta cell_size direction.z)
  ddaLoop max_distance (stepOf direction.x, stepOf direction.y,
    stepOf direction.z) tdelta (ddaFuel max_distance tmax tdelta)
    start_cell tmax 0 []

/-- `get_triangles_along_ray`: the union (a `Finset`, modelling the Python
`set` of triangles) of the grid buckets over the visited cells. -/
noncomputable def get_triangles_along_ray (grid : ℤ × ℤ × ℤ → List ℕ)
    (cell_size : ℝ) (ray : Ray) (max_distance : ℝ) : Finset ℕ :=
  (rayVisitedCells cell_size ray max_distance).foldl
    (fun s cell => s ∪ (grid cell).toFinset) ∅

/-- The grid cell containing the segment point at parameter `τ`. -/
noncomputable def cellOfPoint (c : ℝ) (o d : Vector3) (τ : ℝ) : ℤ × ℤ × ℤ :=
  position_to_cell c (o.add (d.multiply τ))

/-- The per-axis loop invariant of the DDA walk: the stored `t_max` is the
crossing parameter out of the current cell and the current position is inside
the cell's axis slab (with the boundary conventions forced by the walk). -/
def AxisInv (c o_a d_a : ℝ) (cell_a : ℤ) (tmax_a : WithTop ℝ) (tr : ℝ) :
    Prop :=
  (d_a = 0 → cell_a = ⌊o_a / c⌋ ∧ tmax_a = ⊤) ∧
  (0 < d_a → tmax_a = ((c * ((cell_a : ℝ) + 1) - o_a) / d_a : ℝ) ∧
    c * (cell_a : ℝ) ≤ o_a + tr * d_a) ∧
  (d_a < 0 → tmax_a = ((c * (cell_a : ℝ) - o_a) / d_a : ℝ) ∧
    o_a + tr * d_a ≤ c * ((cell_a : ℝ) + 1))

theorem axis_floor_eq {c o_a d_a : ℝ} {cell_a : ℤ} {tmax_a : WithTop ℝ}
    {tr : ℝ} (hc : 0 < c) (hinv : AxisInv c o_a d_a cell_a tmax_a tr)
    {τ : ℝ} (hτ : tr < τ) (hlt : (τ : WithTop ℝ) < tmax_a) :
    ⌊(o_a + τ * d_a) / c⌋ = cell_a := by
  rcases lt_trichotomy d_a 0 with hd | hd | hd
  · obtain ⟨hT, hpos⟩ := hinv.2.2 hd
    rw [hT] at hlt
    have hτT : τ < (c * (cell_a : ℝ) - o_a) / d_a := WithTop.coe_lt_coe.mp hlt
    have hup : o_a + τ * d_a < c * ((cell_a : ℝ) + 1) := by
      have h1 : τ * d_a < tr * d_a := by
        exact mul_lt_mul_of_neg_right hτ hd
      linarith
    have hlo : c * (cell_a : ℝ) < o_a + τ * d_a := by
      have h1 : τ * d_a > ((c * (cell_a : ℝ) - o_a) / d_a) * d_a := by
        exact mul_lt_mul_of_neg_right hτT hd
      rw [div_mul_cancel₀ _ (ne_of_lt hd)] at h1
      linarith
    rw [Int.floor_eq_iff]
    constructor
    · rw [le_div_iff₀ hc]
      nlinarith
    · rw [div_lt_iff₀ hc]
      push_cast
      nlinarith
  · obtain ⟨hcell, _⟩ := hinv.1 hd
    rw [hd]
    simp [hcell]
  · obtain ⟨hT, hpos⟩ := hinv.2.1 hd
    rw [hT] at hlt
    have hτT : τ < (c * ((cell_a : ℝ) + 1) - o_a) / d_a := WithTop.coe_lt_coe.mp hlt
    have hup : o_a + τ * d_a < c * ((cell_a : ℝ) + 1) := by
      have h1 : τ * d_a < ((c * ((cell_a : ℝ) + 1) - o_a) / d_a) * d_a :=
        mul_lt_mul_of_pos_right hτT hd
      rw [div_mul_cancel₀ _ (ne_of_gt hd)] at h1
      linarith
    have hlo : c * (cell_a : ℝ) ≤ o_a + τ * d_a := by
      have h1 : tr * d_a ≤ τ * d_a :=
        mul_le_mul_of_nonneg_right (le_of_lt hτ) (le_of_lt hd)
      linarith
    rw [Int.floor_eq_iff]
    constructor
    · rw [le_div_iff₀ hc]
      nlinarith
    · rw [div_lt_iff₀ hc]
      push_cast
      nlinarith

/-- Stepping the minimal axis (which is finite) preserves its invariant with
the advanced cell and `t_max`, at the new time `vr`. -/
theorem AxisInv_stepped {c o_a d_a : ℝ} {cell_a : ℤ} {tmax_a : WithTop ℝ}
    {tr vr : ℝ} (hc : 0 < c) (hinv : AxisInv c o_a d_a cell_a tmax_a tr)
    (hfin : tmax_a = (vr : ℝ)) :
    AxisInv c o_a d_a (cell_a + stepOf d_a) (tmax_a + initTDelta c d_a) vr := by
  rcases lt_trichotomy d_a 0 with hd | hd | hd
  · obtain ⟨hT, _⟩ := hinv.2.2 hd
    have hstep : stepOf d_a = -1 := by
      unfold stepOf
      rw [if_neg (not_le.mpr hd)]
    have hdelta : initTDelta c d_a = ((c / |d_a| : ℝ) : WithTop ℝ) := by
      unfold initTDelta
      rw [if_pos (ne_of_lt hd)]
    have habs : |d_a| = -d_a := abs_of_neg hd
    have hvr : vr = (c * (cell_a : ℝ) - o_a) / d_a := by
      rw [hT] at hfin
      exact (WithTop.coe_inj.mp hfin).symm
    refine ⟨fun h0 => absurd h0 (ne_of_lt hd), fun h0 => absurd h0 (by linarith), fun _ => ⟨?_, ?_⟩⟩
    · rw [hT, hdelta, hstep]
      rw [← WithTop.coe_add]
      rw [WithTop.coe_inj]
      push_cast
      rw [habs, div_neg, ← sub_eq_add_neg, div_sub_div_same]
      congr 1
      ring
    · rw [hvr, hstep]
      rw [div_mul_cancel₀ _ (ne_of_lt hd)]
      push_cast
      linarith
  · obtain ⟨_, hT⟩ := hinv.1 hd
    rw [hT] at hfin
    exact absurd hfin WithTop.top_ne_coe
  · obtain ⟨hT, _⟩ := hinv.2.1 hd
    have hstep : stepOf d_a = 1 := by
      unfold stepOf
      rw [if_pos (le_of_lt hd)]
    have hdelta : initTDelta c d_a = ((c / |d_a| : ℝ) : WithTop ℝ) := by
      unfold initTDelta
      rw [if_pos (ne_of_gt hd)]
    have habs : |d_a| = d_a := abs_of_pos hd
    have hvr : vr = (c * ((cell_a : ℝ) + 1) - o_a) / d_a := by
      rw [hT] at hfin
      exact (WithTop.coe_inj.mp hfin).symm
    refine ⟨fun h0 => absurd h0 (ne_of_gt hd), fun _ => ⟨?_, ?_⟩, fun h0 => absurd h0 (by linarith)⟩
    · rw [hT, hdelta, hstep]
      rw [← WithTop.coe_add]
      rw [WithTop.coe_inj]
      push_cast
      rw [habs]
      field_simp
      ring
    · rw [hvr, hstep]
      rw [div_mul_cancel₀ _ (ne_of_gt hd)]
      push_cast
      linarith

/-- Advancing the time from `tr` to `vr ≥ tr` preserves an axis invariant
whose axis was not stepped. -/
theorem AxisInv_unstepped {c o_a d_a : ℝ} {cell_a : ℤ} {tmax_a : WithTop ℝ}
    {tr vr : ℝ} (hinv : AxisInv c o_a d_a cell_a tmax_a tr) (h : tr ≤ vr) :
    AxisInv c o_a d_a cell_a tmax_a vr := by
  refine ⟨hinv.1, fun hd => ⟨(hinv.2.1 hd).1, ?_⟩, fun hd => ⟨(hinv.2.2 hd).1, ?_⟩⟩
  · have := (hinv.2.1 hd).2
    nlinarith
  · have := (hinv.2.2 hd).2
    nlinarith

theorem axisPotential_coe (max_t x dlt : ℝ) :
    axisPotential max_t (x : WithTop ℝ) (dlt : WithTop ℝ) =
      ⌈(max_t - x) / dlt⌉₊ := rfl

theorem axisPotential_decrease {max_t vr δ : ℝ} (h : vr < max_t)
    (hδ : 0 < δ) :
    axisPotential max_t ((vr : WithTop ℝ) + (δ : ℝ)) ((δ : ℝ) : WithTop ℝ) <
      axisPotential max_t (vr : WithTop ℝ) ((δ : ℝ) : WithTop ℝ) := by
  rw [← WithTop.coe_add, axisPotential_coe, axisPotential_coe]
  have hz : 0 < (max_t - vr) / δ := div_pos (by linarith) hδ
  have hceil : 1 ≤ ⌈(max_t - vr) / δ⌉₊ := Nat.ceil_pos.mpr hz
  have harg : (max_t - (vr + δ)) / δ = (max_t - vr) / δ - 1 := by
    rw [show max_t - (vr + δ) = (max_t - vr) - δ by ring, sub_div,
      div_self (ne_of_gt hδ)]
  rw [harg]
  have hle : ⌈(max_t - vr) / δ - 1⌉₊ ≤ ⌈(max_t - vr) / δ⌉₊ - 1 := by
    apply Nat.ceil_le.mpr
    rw [Nat.cast_sub hceil]
    push_cast
    linarith [Nat.le_ceil ((max_t - vr) / δ)]
  omega

/-- If an axis invariant holds and the stored `t_max` is finite, the
direction component is non-zero and `t_delta` is the positive real
`c / |d_a|`. -/
theorem tdelta_of_finite {c o_a d_a : ℝ} {cell_a : ℤ} {tmax_a : WithTop ℝ}
    {tr vr : ℝ} (hc : 0 < c) (hinv : AxisInv c o_a d_a cell_a tmax_a tr)
    (hfin : tmax_a = (vr : ℝ)) :
    d_a ≠ 0 ∧ initTDelta c d_a = ((c / |d_a| : ℝ) : WithTop ℝ) ∧
      0 < c / |d_a| := by
  have hd : d_a ≠ 0 := by
    intro h0
    obtain ⟨_, hT⟩ := hinv.1 h0
    rw [hT] at hfin
    exact WithTop.top_ne_coe hfin
  refine ⟨hd, ?_, div_pos hc (abs_pos.mpr hd)⟩
  unfold initTDelta
  rw [if_pos hd]

/-- Extending the past-coverage of the accumulated cell list through the
current cell up to any time `vr` below every stored `t_max`. -/
theorem pastCov_extend (c : ℝ) (o d : Vector3) (hc : 0 < c)
    (cell : ℤ × ℤ × ℤ) (tx ty tz : WithTop ℝ) (tr vr : ℝ)
    (hx : AxisInv c o.x d.x cell.1 tx tr)
    (hy : AxisInv c o.y d.y cell.2.1 ty tr)
    (hz : AxisInv c o.z d.z cell.2.2 tz tr)
    (hvx : (vr : WithTop ℝ) ≤ tx) (hvy : (vr : WithTop ℝ) ≤ ty)
    (hvz : (vr : WithTop ℝ) ≤ tz)
    (acc : List (ℤ × ℤ × ℤ))
    (hpast : ∀ τ₁ τ₂ C, 0 ≤ τ₁ → τ₁ < τ₂ → τ₂ ≤ tr →
      (∀ τ, τ₁ < τ → τ < τ₂ → cellOfPoint c o d τ = C) → C ∈ acc) :
    ∀ τ₁ τ₂ C, 0 ≤ τ₁ → τ₁ < τ₂ → τ₂ ≤ vr →
      (∀ τ, τ₁ < τ → τ < τ₂ → cellOfPoint c o d τ = C) →
      C ∈ acc ++ [cell] := by
  intro τ₁ τ₂ C h0 h12 h2vr hconst
  by_cases hcase : τ₂ ≤ tr
  · exact List.mem_append_left _ (hpast τ₁ τ₂ C h0 h12 hcase hconst)
  · have htr2 : tr < τ₂ := not_le.mp hcase
    set τm := (max τ₁ tr + τ₂) / 2 with hτm
    have hmax_lt : max τ₁ tr < τ₂ := max_lt h12 htr2
    have hm1 : max τ₁ tr < τm := by
      rw [hτm]
      linarith
    have hm2 : τm < τ₂ := by
      rw [hτm]
      linarith
    have hτ₁m : τ₁ < τm := lt_of_le_of_lt (le_max_left _ _) hm1
    have htrm : tr < τm := lt_of_le_of_lt (le_max_right _ _) hm1
    have hmvr : τm < vr := lt_of_lt_of_le hm2 h2vr
    have hCeq : cellOfPoint c o d τm = C := hconst τm hτ₁m hm2
    have hcellm : cellOfPoint c o d τm = cell := by
      unfold cellOfPoint position_to_cell Vector3.add Vector3.multiply
      have hfx := axis_floor_eq hc hx htrm
        (lt_of_lt_of_le (WithTop.coe_lt_coe.mpr hmvr) hvx)
      have hfy := axis_floor_eq hc hy htrm
        (lt_of_lt_of_le (WithTop.coe_lt_coe.mpr hmvr) hvy)
      have hfz := axis_floor_eq hc hz htrm
        (lt_of_lt_of_le (WithTop.coe_lt_coe.mpr hmvr) hvz)
      rw [mul_comm τm d.x] at hfx
      rw [mul_comm τm d.y] at hfy
      rw [mul_comm τm d.z] at hfz
      simp only []
      rw [hfx, hfy, hfz]
    rw [← hCeq, hcellm]
    exact List.mem_append_right _ (List.mem_singleton_self _)

/-- Master lemma for the DDA walk: starting from any loop state whose axis
invariants hold, whose current time is below every stored `t_max`, and whose
accumulated list already covers all earlier times, the walk's output contains
every cell in which the segment spends an open interval of time below
`max_t`. -/
theorem ddaLoop_coverage (c max_t : ℝ) (o d : Vector3) (hc : 0 < c) :
    ∀ (fuel : ℕ) (cell : ℤ × ℤ × ℤ)
      (tmax : WithTop ℝ × WithTop ℝ × WithTop ℝ) (tr : ℝ)
      (acc : List (ℤ × ℤ × ℤ)),
      ddaFuel max_t tmax
        (initTDelta c d.x, initTDelta c d.y, initTDelta c d.z) ≤ fuel →
      AxisInv c o.x d.x cell.1 tmax.1 tr →
      AxisInv c o.y d.y cell.2.1 tmax.2.1 tr →
      AxisInv c o.z d.z cell.2.2 tmax.2.2 tr →
      (tr : WithTop ℝ) ≤ tmax.1 → (tr : WithTop ℝ) ≤ tmax.2.1 →
      (tr : WithTop ℝ) ≤ tmax.2.2 →
      (∀ τ₁ τ₂ C, 0 ≤ τ₁ → τ₁ < τ₂ → τ₂ ≤ tr →
        (∀ τ, τ₁ < τ → τ < τ₂ → cellOfPoint c o d τ = C) → C ∈ acc) →
      ∀ τ₁ τ₂ C, 0 ≤ τ₁ → τ₁ < τ₂ → τ₂ ≤ max_t →
        (∀ τ, τ₁ < τ → τ < τ₂ → cellOfPoint c o d τ = C) →
        C ∈ ddaLoop max_t (stepOf d.x, stepOf d.y, stepOf d.z)
          (initTDelta c d.x, initTDelta c d.y, initTDelta c d.z)
          fuel cell tmax (tr : ℝ) acc := by
  intro fuel
  induction fuel with
  | zero =>
    intro cell tmax tr acc hfuel
    unfold ddaFuel at hfuel
    omega
  | succ fuel ih =>
    intro cell tmax tr acc hfuel hx hy hz htx hty htz hpast τ₁ τ₂ C h0 h12
      h2max hconst
    obtain ⟨tx, ty, tz⟩ := tmax
    dsimp only at hx hy hz htx hty htz hfuel
    simp only [ddaLoop]
    by_cases hloop : ((tr : ℝ) : WithTop ℝ) < (max_t : WithTop ℝ)
    swap
    · rw [if_neg hloop]
      have htrmax : max_t ≤ tr := by
        have := not_lt.mp hloop
        exact_mod_cast this
      exact hpast τ₁ τ₂ C h0 h12 (le_trans h2max htrmax) hconst
    rw [if_pos hloop]
    have htrm : tr < max_t := by exact_mod_cast hloop
    by_cases hxy : tx < ty
    · rw [if_pos hxy]
      by_cases hxz : tx < tz
      · rw [if_pos hxz]
        -- step along x; v = tx is minimal
        by_cases hbreak : (max_t : WithTop ℝ) ≤ tx
        · rw [if_pos hbreak]
          exact pastCov_extend c o d hc cell tx ty tz tr max_t hx hy hz
            hbreak (le_trans hbreak (le_of_lt hxy))
            (le_trans hbreak (le_of_lt hxz)) acc hpast τ₁ τ₂ C h0 h12 h2max
            hconst
        · rw [if_neg hbreak]
          have hvlt : tx < (max_t : WithTop ℝ) := not_le.mp hbreak
          induction tx using WithTop.recTopCoe with
          | top => exact absurd hvlt (by simp)
          | coe vr =>
          have hvrm : vr < max_t := by exact_mod_cast hvlt
          obtain ⟨hdne, hdelta, hdpos⟩ := tdelta_of_finite hc hx rfl
          have htrvr : tr ≤ vr := by exact_mod_cast htx
          have hstep := AxisInv_stepped hc hx (rfl :
            ((vr : ℝ) : WithTop ℝ) = ((vr : ℝ) : WithTop ℝ))
          have hfuel' : ddaFuel max_t
              ((vr : WithTop ℝ) + initTDelta c d.x, ty, tz)
              (initTDelta c d.x, initTDelta c d.y, initTDelta c d.z) ≤
              fuel := by
            unfold ddaFuel at hfuel ⊢
            dsimp only at hfuel ⊢
            have hdec := axisPotential_decrease hvrm hdpos
            rw [← hdelta] at hdec
            omega
          refine ih (cell.1 + stepOf d.x, cell.2.1, cell.2.2)
            ((vr : WithTop ℝ) + initTDelta c d.x, ty, tz) vr _ hfuel'
            hstep (AxisInv_unstepped hy htrvr) (AxisInv_unstepped hz htrvr)
            ?_ (le_of_lt hxy) (le_of_lt hxz)
            (pastCov_extend c o d hc cell ((vr : ℝ) : WithTop ℝ) ty tz tr vr
              hx hy hz (le_refl _) (le_of_lt hxy) (le_of_lt hxz) acc hpast)
            τ₁ τ₂ C h0 h12 h2max hconst
          · calc ((vr : ℝ) : WithTop ℝ) ≤ (vr : WithTop ℝ) + 0 := by simp
            _ ≤ (vr : WithTop ℝ) + initTDelta c d.x := by
                refine add_le_add_left ?_ _
                rw [hdelta]
                exact_mod_cast le_of_lt hdpos
      · rw [if_neg hxz]
        -- step along z; v = tz ≤ tx < ty
        have hzx : tz ≤ tx := not_lt.mp hxz
        by_cases hbreak : (max_t : WithTop ℝ) ≤ tz
        · rw [if_pos hbreak]
          exact pastCov_extend c o d hc cell tx ty tz tr max_t hx hy hz
            (le_trans hbreak hzx) (le_trans hbreak (le_trans hzx
              (le_of_lt hxy))) hbreak acc hpast τ₁ τ₂ C h0 h12 h2max hconst
        · rw [if_neg hbreak]
          have hvlt : tz < (max_t : WithTop ℝ) := not_le.mp hbreak
          induction tz using WithTop.recTopCoe with
          | top => exact absurd hvlt (by simp)
          | coe vr =>
          have hvrm : vr < max_t := by exact_mod_cast hvlt
          obtain ⟨hdne, hdelta, hdpos⟩ := tdelta_of_finite hc hz rfl
          have htrvr : tr ≤ vr := by exact_mod_cast htz
          have hstep := AxisInv_stepped hc hz (rfl :
            ((vr : ℝ) : WithTop ℝ) = ((vr : ℝ) : WithTop ℝ))
          have hfuel' : ddaFuel max_t
              (tx, ty, (vr : WithTop ℝ) + initTDelta c d.z)
              (initTDelta c d.x, initTDelta c d.y, initTDelta c d.z) ≤
              fuel := by
            unfold ddaFuel at hfuel ⊢
            dsimp only at hfuel ⊢
            have hdec := axisPotential_decrease hvrm hdpos
            rw [← hdelta] at hdec
            omega
          refine ih (cell.1, cell.2.1, cell.2.2 + stepOf d.z)
            (tx, ty, (vr : WithTop ℝ) + initTDelta c d.z) vr _ hfuel'
            (AxisInv_unstepped hx htrvr) (AxisInv_unstepped hy htrvr) hstep
            hzx (le_trans hzx (le_of_lt hxy)) ?_
            (pastCov_extend c o d hc cell tx ty ((vr : ℝ) : WithTop ℝ) tr vr
              hx hy hz hzx (le_trans hzx (le_of_lt hxy)) (le_refl _) acc
              hpast)
            τ₁ τ₂ C h0 h12 h2max hconst
          · calc ((vr : ℝ) : WithTop ℝ) ≤ (vr : WithTop ℝ) + 0 := by simp
            _ ≤ (vr : WithTop ℝ) + initTDelta c d.z := by
                refine add_le_add_left ?_ _
                rw [hdelta]
                exact_mod_cast le_of_lt hdpos
    · rw [if_neg hxy]
      have hyx : ty ≤ tx := not_lt.mp hxy
      by_cases hyz : ty < tz
      · rw [if_pos hyz]
        -- step along y; v = ty ≤ tx, < tz
        by_cases hbreak : (max_t : WithTop ℝ) ≤ ty
        · rw [if_pos hbreak]
          exact pastCov_extend c o d hc cell tx ty tz tr max_t hx hy hz
            (le_trans hbreak hyx) hbreak
            (le_trans hbreak (le_of_lt hyz)) acc hpast τ₁ τ₂ C h0 h12 h2max
            hconst
        · rw [if_neg hbreak]
          have hvlt : ty < (max_t : WithTop ℝ) := not_le.mp hbreak
          induction ty using WithTop.recTopCoe with
          | top => exact absurd hvlt (by simp)
          | coe vr =>
          have hvrm : vr < max_t := by exact_mod_cast hvlt
          obtain ⟨hdne, hdelta, hdpos⟩ := tdelta_of_finite hc hy rfl
          have htrvr : tr ≤ vr := by exact_mod_cast hty
          have hstep := AxisInv_stepped hc hy (rfl :
            ((vr : ℝ) : WithTop ℝ) = ((vr : ℝ) : WithTop ℝ))
          have hfuel' : ddaFuel max_t
              (tx, (vr : WithTop ℝ) + initTDelta c d.y, tz)
              (initTDelta c d.x, initTDelta c d.y, initTDelta c d.z) ≤
              fuel := by
            unfold ddaFuel at hfuel ⊢
            dsimp only at hfuel ⊢
            have hdec := axisPotential_decrease hvrm hdpos
            rw [← hdelta] at hdec
            omega
          refine ih (cell.1, cell.2.1 + stepOf d.y, cell.2.2)
            (tx, (vr : WithTop ℝ) + initTDelta c d.y, tz) vr _ hfuel'
            (AxisInv_unstepped hx htrvr) hstep (AxisInv_unstepped hz htrvr)
            hyx ?_ (le_of_lt hyz)
            (pastCov_extend c o d hc cell tx ((vr : ℝ) : WithTop ℝ) tz tr vr
              hx hy hz hyx (le_refl _) (le_of_lt hyz) acc hpast)
            τ₁ τ₂ C h0 h12 h2max hconst
          · calc ((vr : ℝ) : WithTop ℝ) ≤ (vr : WithTop ℝ) + 0 := by simp
            _ ≤ (vr : WithTop ℝ) + initTDelta c d.y := by
                refine add_le_add_left ?_ _
                rw [hdelta]
                exact_mod_cast le_of_lt hdpos
      · rw [if_neg hyz]
        -- step along z; v = tz ≤ ty ≤ tx
        have hzy : tz ≤ ty := not_lt.mp hyz
        by_cases hbreak : (max_t : WithTop ℝ) ≤ tz
        · rw [if_pos hbreak]
          exact pastCov_extend c o d hc cell tx ty tz tr max_t hx hy hz
            (le_trans hbreak (le_trans hzy hyx)) (le_trans hbreak hzy)
            hbreak acc hpast τ₁ τ₂ C h0 h12 h2max hconst
        · rw [if_neg hbreak]
          have hvlt : tz < (max_t : WithTop ℝ) := not_le.mp hbreak
          induction tz using WithTop.recTopCoe with
          | top => exact absurd hvlt (by simp)
          | coe vr =>
          have hvrm : vr < max_t := by exact_mod_cast hvlt
          obtain ⟨hdne, hdelta, hdpos⟩ := tdelta_of_finite hc hz rfl
          have htrvr : tr ≤ vr := by exact_mod_cast htz
          have hstep := AxisInv_stepped hc hz (rfl :
            ((vr : ℝ) : WithTop ℝ) = ((vr : ℝ) : WithTop ℝ))
          have hfuel' : ddaFuel max_t
              (tx, ty, (vr : WithTop ℝ) + initTDelta c d.z)
              (initTDelta c d.x, initTDelta c d.y, initTDelta c d.z) ≤
              fuel := by
            unfold ddaFuel at hfuel ⊢
            dsimp only at hfuel ⊢
            have hdec := axisPotential_decrease hvrm hdpos
            rw [← hdelta] at hdec
            omega
          refine ih (cell.1, cell.2.1, cell.2.2 + stepOf d.z)
            (tx, ty, (vr : WithTop ℝ) + initTDelta c d.z) vr _ hfuel'
            (AxisInv_unstepped hx htrvr) (AxisInv_unstepped hy htrvr) hstep
            (le_trans hzy hyx) hzy ?_
            (pastCov_extend c o d hc cell tx ty ((vr : ℝ) : WithTop ℝ) tr vr
              hx hy hz (le_trans hzy hyx) hzy (le_refl _) acc hpast)
            τ₁ τ₂ C h0 h12 h2max hconst
          · calc ((vr : ℝ) : WithTop ℝ) ≤ (vr : WithTop ℝ) + 0 := by simp
            _ ≤ (vr : WithTop ℝ) + initTDelta c d.z := by
                refine add_le_add_left ?_ _
                rw [hdelta]
                exact_mod_cast le_of_lt hdpos

theorem stepOf_of_nonneg {d_a : ℝ} (h : 0 ≤ d_a) : stepOf d_a = 1 := by
  unfold stepOf
  rw [if_pos h]

theorem stepOf_of_neg {d_a : ℝ} (h : d_a < 0) : stepOf d_a = -1 := by
  unfold stepOf
  rw [if_neg (not_le.mpr h)]

theorem stepOf_mul_self (d_a : ℝ) : stepOf d_a * stepOf d_a = 1 := by
  unfold stepOf
  by_cases h : d_a ≥ 0
  · rw [if_pos h]
    norm_num
  · rw [if_neg h]
    norm_num

/-- Along the DDA walk the signed key `sx·x + sy·y + sz·z` increases by
exactly one per step, so visited cells are pairwise distinct. -/
theorem ddaLoop_pairwise_key (max_t : ℝ) (dx dy dz : ℝ)
    (tdelta : WithTop ℝ × WithTop ℝ × WithTop ℝ) :
    ∀ (fuel : ℕ) (cell : ℤ × ℤ × ℤ)
      (tmax : WithTop ℝ × WithTop ℝ × WithTop ℝ) (t : WithTop ℝ)
      (acc : List (ℤ × ℤ × ℤ)),
      acc.Pairwise (fun a b =>
        stepOf dx * a.1 + stepOf dy * a.2.1 + stepOf dz * a.2.2 <
          stepOf dx * b.1 + stepOf dy * b.2.1 + stepOf dz * b.2.2) →
      (∀ e ∈ acc,
        stepOf dx * e.1 + stepOf dy * e.2.1 + stepOf dz * e.2.2 <
          stepOf dx * cell.1 + stepOf dy * cell.2.1 + stepOf dz * cell.2.2) →
      (ddaLoop max_t (stepOf dx, stepOf dy, stepOf dz) tdelta fuel cell tmax
        t acc).Pairwise (fun a b =>
        stepOf dx * a.1 + stepOf dy * a.2.1 + stepOf dz * a.2.2 <
          stepOf dx * b.1 + stepOf dy * b.2.1 + stepOf dz * b.2.2) := by
  intro fuel
  induction fuel with
  | zero => intro cell tmax t acc h1 _; exact h1
  | succ fuel ih =>
    intro cell tmax t acc h1 h2
    simp only [ddaLoop]
    by_cases hloop : t < (max_t : WithTop ℝ)
    swap
    · rw [if_neg hloop]; exact h1
    rw [if_pos hloop]
    have h1' : (acc ++ [cell]).Pairwise (fun a b =>
        stepOf dx * a.1 + stepOf dy * a.2.1 + stepOf dz * a.2.2 <
          stepOf dx * b.1 + stepOf dy * b.2.1 + stepOf dz * b.2.2) := by
      rw [List.pairwise_append]
      exact ⟨h1, List.pairwise_singleton _ _, fun a ha b hb => by
        rcases List.mem_singleton.mp hb with rfl
        exact h2 a ha⟩
    have hkey : ∀ e ∈ acc ++ [cell],
        stepOf dx * e.1 + stepOf dy * e.2.1 + stepOf dz * e.2.2 <
          stepOf dx * cell.1 + stepOf dy * cell.2.1 + stepOf dz * cell.2.2
            + 1 := by
      intro e he
      rcases List.mem_append.mp he with he | he
      · have := h2 e he
        omega
      · rcases List.mem_singleton.mp he with rfl
        omega
    by_cases hxy : tmax.1 < tmax.2.1
    · rw [if_pos hxy]
      by_cases hxz : tmax.1 < tmax.2.2
      · rw [if_pos hxz]
        by_cases hbr : (max_t : WithTop ℝ) ≤ tmax.1
        · rw [if_pos hbr]; exact h1'
        · rw [if_neg hbr]
          refine ih _ _ _ _ h1' ?_
          intro e he
          have := hkey e he
          have hs := stepOf_mul_self dx
          dsimp only
          nlinarith
      · rw [if_neg hxz]
        by_cases hbr : (max_t : WithTop ℝ) ≤ tmax.2.2
        · rw [if_pos hbr]; exact h1'
        · rw [if_neg hbr]
          refine ih _ _ _ _ h1' ?_
          intro e he
          have := hkey e he
          have hs := stepOf_mul_self dz
          dsimp only
          nlinarith
    · rw [if_neg hxy]
      by_cases hyz : tmax.2.1 < tmax.2.2
      · rw [if_pos hyz]
        by_cases hbr : (max_t : WithTop ℝ) ≤ tmax.2.1
        · rw [if_pos hbr]; exact h1'
        · rw [if_neg hbr]
          refine ih _ _ _ _ h1' ?_
          intro e he
          have := hkey e he
          have hs := stepOf_mul_self dy
          dsimp only
          nlinarith
      · rw [if_neg hyz]
        by_cases hbr : (max_t : WithTop ℝ) ≤ tmax.2.2
        · rw [if_pos hbr]; exact h1'
        · rw [if_neg hbr]
          refine ih _ _ _ _ h1' ?_
          intro e he
          have := hkey e he
          have hs := stepOf_mul_self dz
          dsimp only
          nlinarith

theorem mem_foldl_union (grid : ℤ × ℤ × ℤ → List ℕ) :
    ∀ (l : List (ℤ × ℤ × ℤ)) (s : Finset ℕ) (idx : ℕ),
      (idx ∈ l.foldl (fun s cell => s ∪ (grid cell).toFinset) s ↔
        idx ∈ s ∨ ∃ cell ∈ l, idx ∈ grid cell) := by
  intro l
  induction l with
  | nil => intro s idx; simp
  | cons cell l ih =>
    intro s idx
    rw [List.foldl_cons, ih]
    simp only [Finset.mem_union, List.mem_toFinset, List.mem_cons]
    constructor
    · rintro ((h | h) | ⟨c', hc', h⟩)
      · exact Or.inl h
      · exact Or.inr ⟨cell, Or.inl rfl, h⟩
      · exact Or.inr ⟨c', Or.inr hc', h⟩
    · rintro (h | ⟨c', (rfl | hc'), h⟩)
      · exact Or.inl (Or.inl h)
      · exact Or.inl (Or.inr h)
      · exact Or.inr ⟨c', hc', h⟩

theorem AxisInv_init (c o_a d_a : ℝ) (hc : 0 < c) :
    AxisInv c o_a d_a ⌊o_a / c⌋ (initTMax c o_a d_a ⌊o_a / c⌋) 0 := by
  have hlow : c * (⌊o_a / c⌋ : ℝ) ≤ o_a := by
    have := Int.floor_le (o_a / c)
    rw [mul_comm]
    calc (⌊o_a / c⌋ : ℝ) * c ≤ (o_a / c) * c :=
      mul_le_mul_of_nonneg_right this (le_of_lt hc)
    _ = o_a := div_mul_cancel₀ _ (ne_of_gt hc)
  have hhigh : o_a < c * ((⌊o_a / c⌋ : ℝ) + 1) := by
    have := Int.lt_floor_add_one (o_a / c)
    have h2 : (o_a / c) * c < ((⌊o_a / c⌋ : ℝ) + 1) * c :=
      mul_lt_mul_of_pos_right this hc
    rw [div_mul_cancel₀ _ (ne_of_gt hc)] at h2
    linarith [h2]
  rcases lt_trichotomy d_a 0 with hd | hd | hd
  · refine ⟨fun h0 => absurd h0 (ne_of_lt hd),
      fun h0 => absurd h0 (by linarith), fun _ => ⟨?_, ?_⟩⟩
    · unfold initTMax
      rw [if_pos (ne_of_lt hd)]
      rw [if_neg]
      unfold stepOf
      rw [if_neg (not_le.mpr hd)]
      norm_num
    · rw [zero_mul, add_zero]
      linarith
  · refine ⟨fun _ => ⟨rfl, ?_⟩, fun h0 => absurd h0 (by linarith),
      fun h0 => absurd h0 (by linarith)⟩
    unfold initTMax
    rw [if_neg (by simpa using hd)]
  · refine ⟨fun h0 => absurd h0 (ne_of_gt hd), fun _ => ⟨?_, ?_⟩,
      fun h0 => absurd h0 (by linarith)⟩
    · unfold initTMax
      rw [if_pos (ne_of_gt hd)]
      rw [if_pos]
      unfold stepOf
      rw [if_pos (le_of_lt hd)]
      norm_num
    · rw [zero_mul, add_zero]
      exact hlow

theorem initTMax_nonneg (c o_a d_a : ℝ) (hc : 0 < c) :
    ((0 : ℝ) : WithTop ℝ) ≤ initTMax c o_a d_a ⌊o_a / c⌋ := by
  have hlow : c * (⌊o_a / c⌋ : ℝ) ≤ o_a := by
    have := Int.floor_le (o_a / c)
    rw [mul_comm]
    calc (⌊o_a / c⌋ : ℝ) * c ≤ (o_a / c) * c :=
      mul_le_mul_of_nonneg_right this (le_of_lt hc)
    _ = o_a := div_mul_cancel₀ _ (ne_of_gt hc)
  have hhigh : o_a < c * ((⌊o_a / c⌋ : ℝ) + 1) := by
    have := Int.lt_floor_add_one (o_a / c)
    have h2 : (o_a / c) * c < ((⌊o_a / c⌋ : ℝ) + 1) * c :=
      mul_lt_mul_of_pos_right this hc
    rw [div_mul_cancel₀ _ (ne_of_gt hc)] at h2
    linarith [h2]
  unfold initTMax
  by_cases hd : d_a ≠ 0
  · rw [if_pos hd]
    rcases lt_or_gt_of_ne hd with hneg | hpos
    · rw [stepOf_of_neg hneg, if_neg (by norm_num : ¬ (-1 : ℤ) > 0)]
      rw [WithTop.coe_le_coe, ← neg_div_neg_eq]
      exact div_nonneg (by linarith) (by linarith)
    · rw [stepOf_of_nonneg (le_of_lt hpos), if_pos (by norm_num : (1 : ℤ) > 0)]
      rw [WithTop.coe_le_coe]
      exact div_nonneg (by linarith) (le_of_lt hpos)
  · rw [if_neg hd]
    exact le_top

/-- Coverage of the DDA walk: every cell in which the segment spends an
open interval of parameters inside `[0, max_t]` appears in the visited
list. -/
theorem rayVisitedCells_coverage (cell_size : ℝ) (ray : Ray) (max_t : ℝ)
    (hc : 0 < cell_size) :
    ∀ τ₁ τ₂ C, 0 ≤ τ₁ → τ₁ < τ₂ → τ₂ ≤ max_t →
      (∀ τ, τ₁ < τ → τ < τ₂ →
        cellOfPoint cell_size ray.origin ray.direction.normalize τ = C) →
      C ∈ rayVisitedCells cell_size ray max_t := by
  have hcov := ddaLoop_coverage cell_size max_t ray.origin
      ray.direction.normalize hc
      (ddaFuel max_t
        (initTMax cell_size ray.origin.x ray.direction.normalize.x
          (position_to_cell cell_size ray.origin).1,
         initTMax cell_size ray.origin.y ray.direction.normalize.y
          (position_to_cell cell_size ray.origin).2.1,
         initTMax cell_size ray.origin.z ray.direction.normalize.z
          (position_to_cell cell_size ray.origin).2.2)
        (initTDelta cell_size ray.direction.normalize.x,
          initTDelta cell_size ray.direction.normalize.y,
          initTDelta cell_size ray.direction.normalize.z))
      (position_to_cell cell_size ray.origin)
      (initTMax cell_size ray.origin.x ray.direction.normalize.x
        (position_to_cell cell_size ray.origin).1,
       initTMax cell_size ray.origin.y ray.direction.normalize.y
        (position_to_cell cell_size ray.origin).2.1,
       initTMax cell_size ray.origin.z ray.direction.normalize.z
        (position_to_cell cell_size ray.origin).2.2)
      0 [] (le_refl _)
      (AxisInv_init cell_size ray.origin.x ray.direction.normalize.x hc)
      (AxisInv_init cell_size ray.origin.y ray.direction.normalize.y hc)
      (AxisInv_init cell_size ray.origin.z ray.direction.normalize.z hc)
      (initTMax_nonneg cell_size ray.origin.x ray.direction.normalize.x hc)
      (initTMax_nonneg cell_size ray.origin.y ray.direction.normalize.y hc)
      (initTMax_nonneg cell_size ray.origin.z ray.direction.normalize.z hc)
      (by
        intro τ₁ τ₂ C _ _ h2 _
        exact absurd (lt_of_lt_of_le (by assumption) h2) (by linarith))
  exact fun τ₁ τ₂ C h0 h12 h2 hconst => hcov τ₁ τ₂ C h0 h12 h2 hconst

/-- C4 amended: for every grid, cell size `> 0`, ray and `max_t`, the DDA
walk of `get_triangles_along_ray` (i) visits no cell more than once, (ii)
visits every cell in which the segment `origin + τ · direction`
(`direction` the walk's normalized ray direction) spends an open interval of
parameters `(τ₁, τ₂) ⊆ [0, max_t]`, and (iii) returns exactly the
deduplicated union of the triangle buckets of the visited cells. -/
theorem C4_dda_traversal (grid : ℤ × ℤ × ℤ → List ℕ) (cell_size : ℝ)
    (ray : Ray) (max_t : ℝ) (hc : 0 < cell_size) :
    (rayVisitedCells cell_size ray max_t).Nodup ∧
    (∀ τ₁ τ₂ C, 0 ≤ τ₁ → τ₁ < τ₂ → τ₂ ≤ max_t →
      (∀ τ, τ₁ < τ → τ < τ₂ →
        cellOfPoint cell_size ray.origin ray.direction.normalize τ = C) →
      C ∈ rayVisitedCells cell_size ray max_t) ∧
    (∀ idx, idx ∈ get_triangles_along_ray grid cell_size ray max_t ↔
      ∃ cell ∈ rayVisitedCells cell_size ray max_t, idx ∈ grid cell) := by
  refine ⟨?_, ?_, ?_⟩
  · have hkey := ddaLoop_pairwise_key max_t ray.direction.normalize.x
      ray.direction.normalize.y ray.direction.normalize.z
      (initTDelta cell_size ray.direction.normalize.x,
        initTDelta cell_size ray.direction.normalize.y,
        initTDelta cell_size ray.direction.normalize.z)
      (ddaFuel max_t
        (initTMax cell_size ray.origin.x ray.direction.normalize.x
          (position_to_cell cell_size ray.origin).1,
         initTMax cell_size ray.origin.y ray.direction.normalize.y
          (position_to_cell cell_size ray.origin).2.1,
         initTMax cell_size ray.origin.z ray.direction.normalize.z
          (position_to_cell cell_size ray.origin).2.2)
        (initTDelta cell_size ray.direction.normalize.x,
          initTDelta cell_size ray.direction.normalize.y,
          initTDelta cell_size ray.direction.normalize.z))
      (position_to_cell cell_size ray.origin)
      (initTMax cell_size ray.origin.x ray.direction.normalize.x
        (position_to_cell cell_size ray.origin).1,
       initTMax cell_size ray.origin.y ray.direction.normalize.y
        (position_to_cell cell_size ray.origin).2.1,
       initTMax cell_size ray.origin.z ray.direction.normalize.z
        (position_to_cell cell_size ray.origin).2.2)
      0 [] List.Pairwise.nil
      (by intro e he; exact absurd he (List.not_mem_nil e))
    have hpw : (rayVisitedCells cell_size ray max_t).Pairwise
        (fun a b => stepOf ray.direction.normalize.x * a.1 +
          stepOf ray.direction.normalize.y * a.2.1 +
          stepOf ray.direction.normalize.z * a.2.2 <
          stepOf ray.direction.normalize.x * b.1 +
          stepOf ray.direction.normalize.y * b.2.1 +
          stepOf ray.direction.normalize.z * b.2.2) := hkey
    exact List.Pairwise.imp
      (fun hlt => by
        intro heq
        rw [heq] at hlt
        exact lt_irrefl _ hlt) hpw
  · exact rayVisitedCells_coverage cell_size ray max_t hc
  · intro idx
    unfold get_triangles_along_ray
    rw [mem_foldl_union]
    simp

theorem ddaLoop_not_lt {m : ℝ} {s : ℤ × ℤ × ℤ}
    {td : WithTop ℝ × WithTop ℝ × WithTop ℝ} {fuel : ℕ} {cell : ℤ × ℤ × ℤ}
    {tmax : WithTop ℝ × WithTop ℝ × WithTop ℝ} {t : WithTop ℝ}
    {acc : List (ℤ × ℤ × ℤ)} (h : ¬ t < (m : WithTop ℝ)) :
    ddaLoop m s td fuel cell tmax t acc = acc := by
  cases fuel with
  | zero => rfl
  | succ n =>
    simp only [ddaLoop]
    rw [if_neg h]

theorem normalize_unit_x : (Vector3.normalize ⟨1, 0, 0⟩ : Vector3) = ⟨1, 0, 0⟩ := by
  unfold Vector3.normalize Vector3.length Vector3.divide
  norm_num

/-- C4 counterexample: with `max_t = 0` the claim as stated fails.  The
segment from the origin to `origin + 0 · direction` is the origin itself,
whose cell `(0,0,0)` stores triangle `0`; but the Python loop `while t <
max_distance` never runs, so no cell is visited and the returned triangle
set is empty rather than containing triangle `0`. -/
theorem C4_stated_coverage_fails :
    (0 : ℝ) ≤ 0 ∧
    cellOfPoint 1 (mkRay ⟨0,0,0⟩ ⟨1,0,0⟩).origin
      ((mkRay ⟨0,0,0⟩ ⟨1,0,0⟩).direction.normalize) 0 = (0, 0, 0) ∧
    0 ∈ buildGrid 1 [⟨⟨0,0,0⟩, ⟨1,0,0⟩, ⟨0,1,0⟩, 1⟩] (0, 0, 0) ∧
    rayVisitedCells 1 (mkRay ⟨0,0,0⟩ ⟨1,0,0⟩) 0 = [] ∧
    get_triangles_along_ray (buildGrid 1 [⟨⟨0,0,0⟩, ⟨1,0,0⟩, ⟨0,1,0⟩, 1⟩]) 1
      (mkRay ⟨0,0,0⟩ ⟨1,0,0⟩) 0 = ∅ := by
  have hvisited : rayVisitedCells 1 (mkRay ⟨0,0,0⟩ ⟨1,0,0⟩) 0 = [] := by
    unfold rayVisitedCells
    exact ddaLoop_not_lt (by simp)
  refine ⟨le_refl 0, ?_, ?_, hvisited, ?_⟩
  · unfold mkRay
    rw [normalize_unit_x, normalize_unit_x]
    unfold cellOfPoint position_to_cell Vector3.add Vector3.multiply
    norm_num
  · rw [buildGrid_eq]
    refine List.mem_map.mpr
      ⟨(0, ⟨⟨0,0,0⟩, ⟨1,0,0⟩, ⟨0,1,0⟩, 1⟩), List.mem_filter.mpr
        ⟨List.mem_singleton_self _, ?_⟩, rfl⟩
    simp only [decide_eq_true_eq]
    unfold cellInTriangleBox position_to_cell Triangle.minX Triangle.maxX
      Triangle.minY Triangle.maxY Triangle.minZ Triangle.maxZ
    norm_num
  · unfold get_triangles_along_ray
    rw [hvisited]
    rfl

/-- Witness for `C4_dda_traversal`: a concrete grid over one triangle, cell
size 1, the ray from the origin along `+x`, `max_t = 1`. -/
theorem C4_dda_traversal_witness :
    (0 : ℝ) < 1 ∧
    ((rayVisitedCells 1 (mkRay ⟨0,0,0⟩ ⟨1,0,0⟩) 1).Nodup ∧
      (∀ τ₁ τ₂ C, 0 ≤ τ₁ → τ₁ < τ₂ → τ₂ ≤ 1 →
        (∀ τ, τ₁ < τ → τ < τ₂ →
          cellOfPoint 1 (mkRay ⟨0,0,0⟩ ⟨1,0,0⟩).origin
            (mkRay ⟨0,0,0⟩ ⟨1,0,0⟩).direction.normalize τ = C) →
        C ∈ rayVisitedCells 1 (mkRay ⟨0,0,0⟩ ⟨1,0,0⟩) 1) ∧
      (∀ idx, idx ∈ get_triangles_along_ray
          (buildGrid 1 [⟨⟨0,0,0⟩, ⟨1,0,0⟩, ⟨0,1,0⟩, 1⟩]) 1
          (mkRay ⟨0,0,0⟩ ⟨1,0,0⟩) 1 ↔
        ∃ cell ∈ rayVisitedCells 1 (mkRay ⟨0,0,0⟩ ⟨1,0,0⟩) 1,
          idx ∈ buildGrid 1 [⟨⟨0,0,0⟩, ⟨1,0,0⟩, ⟨0,1,0⟩, 1⟩] cell)) :=
  ⟨one_pos, C4_dda_traversal (buildGrid 1 [⟨⟨0,0,0⟩, ⟨1,0,0⟩, ⟨0,1,0⟩, 1⟩])
    1 (mkRay ⟨0,0,0⟩ ⟨1,0,0⟩) 1 one_pos⟩

/-! ## Ray-triangle intersection and Tracer (`raytracing/`) -/

/-- `IntersectionResult` from `raytracing/intersect.py`. -/
structure IntersectionResult where
  hit : Bool
  distance : ℝ
  point : Vector3

open Classical in
/-- `ray_triangle_intersection` from `raytracing/intersect.py`:
Möller-Trumbore with the parallel-ray guard (`|det| < 1e-6`), the barycentric
edge tolerance `1e-4`, rejection of `t < 1e-6`, and the one-sided facing test
against the direction from the ray origin to the triangle center. -/
noncomputable def ray_triangle_intersection (ray : Ray) (triangle : Triangle) :
    IntersectionResult :=
  let edge1 := triangle.v1.subtract triangle.v0
  let edge2 := triangle.v2.subtract triangle.v0
  let h := ray.direction.cross edge2
  let a := edge1.dot h
  if |a| < 1e-6 then ⟨false, 0, ⟨0, 0, 0⟩⟩
  else
    let f := 1 / a
    let s := ray.origin.subtract triangle.v0
    let u := f * s.dot h
    if u < -1e-4 ∨ u > 1 + 1e-4 then ⟨false, 0, ⟨0, 0, 0⟩⟩
    else
      let q := s.cross edge1
      let v := f * ray.direction.dot q
      if v < -1e-4 ∨ u + v > 1 + 1e-4 then ⟨false, 0, ⟨0, 0, 0⟩⟩
      else
        let t := f * edge2.dot q
        if t < 1e-6 then ⟨false, 0, ⟨0, 0, 0⟩⟩
        else
          let ray_to_surface := (triangle.get_center.subtract
            ray.origin).normalize
          let facing_dot := triangle.normal.dot ray_to_surface
          if facing_dot < 0 then ⟨false, 0, ⟨0, 0, 0⟩⟩
          else ⟨true, t, ray.get_point t⟩

/-- `Tracer` from `raytracing/tracer.py`: triangle list plus the grid cell
size (the grid itself is the pure function `buildGrid` of these). -/
structure Tracer where
  triangles : List Triangle
  cell_size : ℝ

open Classical in
/-- `Tracer.is_path_clear`: points closer than `1e-6` are mutually visible;
otherwise the path is clear iff no candidate triangle from the grid
traversal is hit strictly before `distance - 1e-6`. -/
noncomputable def is_path_clear (tracer : Tracer) (origin target : Vector3) :
    Bool :=
  let direction := target.subtract origin
  let distance := direction.length
  if distance < 1e-6 then true
  else
    let ray := mkRay origin direction
    let candidates := get_triangles_along_ray
      (buildGrid tracer.cell_size tracer.triangles) tracer.cell_size ray
      distance
    decide (∀ idx ∈ candidates, ∀ tri, tracer.triangles.get? idx = some tri →
      ¬ ((ray_triangle_intersection ray tri).hit = true ∧
        (ray_triangle_intersection ray tri).distance < distance - 1e-6))

/-- `RayHit` from `raytracing/tracer.py` (the triangle is recorded by index;
`none` for a miss).  The initial closest distance `float('inf')` is `⊤`. -/
structure RayHit where
  hit : Bool
  distance : WithTop ℝ
  point : Vector3
  triangleIdx : Option ℕ

open Classical in
/-- `Tracer.trace_ray`: fold over the candidate triangles keeping the
closest accepted hit.  The Python `set` iteration order is unspecified; the
fold here runs in ascending index order, which yields the same hit flag,
distance and point (the minimum is order-independent; only the identity of
the recorded triangle among exactly-tied hits could differ). -/
noncomputable def trace_ray (tracer : Tracer) (origin direction : Vector3)
    (max_distance : Option ℝ) : RayHit :=
  let normalized_dir := direction.normalize
  let ray := mkRay origin normalized_dir
  let trace_distance := max_distance.getD 10000.0
  let candidates := (get_triangles_along_ray
    (buildGrid tracer.cell_size tracer.triangles) tracer.cell_size ray
    trace_distance).sort (· ≤ ·)
  candidates.foldl
    (fun closest idx =>
      match tracer.triangles.get? idx with
      | none => closest
      | some tri =>
        let result := ray_triangle_intersection ray tri
        if result.hit = true ∧
            ((result.distance : ℝ) : WithTop ℝ) < closest.distance then
          ⟨true, ((result.distance : ℝ) : WithTop ℝ), result.point, some idx⟩
        else closest)
    ⟨false, ⊤, ⟨0, 0, 0⟩, none⟩

theorem is_path_clear_empty (cell_size : ℝ) (o t : Vector3) :
    is_path_clear ⟨[], cell_size⟩ o t = true := by
  unfold is_path_clear
  by_cases h : (t.subtract o).length < 1e-6
  · rw [if_pos h]
  · rw [if_neg h]
    apply decide_eq_true
    intro idx _ tri htri
    simp at htri

/-! ## Lamp profiles (`core/lamp_profiles.py`) and lights (`core/light.py`) -/

/-- `LampProfile` from `core/lamp_profiles.py`: angle-indexed intensity
samples (integer degrees), a forward intensity, and the pre-sorted angle
list. -/
structure LampProfile where
  name : String
  wavelength_nm : ℝ
  intensity_samples : List (ℤ × ℝ)
  forward_intensity : ℝ
  sorted_angles : List ℤ

/-- `LampProfile.__init__`: default `forward_intensity` is the sample at 0°
(or `1.0`), and `sorted_angles` is the sorted key list. -/
noncomputable def mkLampProfile (name : String) (wavelength_nm : ℝ)
    (intensity_samples : List (ℤ × ℝ)) (forward_intensity : Option ℝ) :
    LampProfile :=
  ⟨name, wavelength_nm, intensity_samples,
    forward_intensity.getD ((intensity_samples.lookup 0).getD 1.0),
    (intensity_samples.map Prod.fst).mergeSort (· ≤ ·)⟩

open Classical in
/-- Python `angle_degrees in self.intensity_samples` plus the dictionary
read: the float angle is compared for equality against the integer keys. -/
noncomputable def lookupAngle : List (ℤ × ℝ) → ℝ → Option ℝ
  | [], _ => none
  | (k, v) :: rest, angle =>
    if (k : ℝ) = angle then some v else lookupAngle rest angle

/-- Python dictionary read at an integer key (`0` default is never used on
keys drawn from the dictionary itself). -/
def lookupKey (samples : List (ℤ × ℝ)) (k : ℤ) : ℝ :=
  (samples.lookup k).getD 0

open Classical in
/-- `LampProfile.get_intensity_at_angle`: clamp to `[0, 90]`, exact-sample
fast path, then the linear scan for the surrounding samples and linear
interpolation. -/
noncomputable def getIntensityAtAngle (p : LampProfile) (angle_degrees : ℝ) :
    ℝ :=
  let angle := max 0 (min 90 angle_degrees)
  match lookupAngle p.intensity_samples angle with
  | some v => v
  | none =>
    let lower : Option ℤ := p.sorted_angles.foldl
      (fun acc (a : ℤ) => if (a : ℝ) ≤ angle then some a else acc) none
    let upper : Option ℤ := p.sorted_angles.foldl
      (fun acc (a : ℤ) => if (a : ℝ) ≥ angle ∧ acc = none then some a else acc)
      none
    match lower, upper with
    | none, _ => lookupKey p.intensity_samples (p.sorted_angles.headD 0)
    | some _, none =>
      lookupKey p.intensity_samples (p.sorted_angles.getLastD 0)
    | some lo, some up =>
      if lo = up then lookupKey p.intensity_samples lo
      else
        let lower_intensity := lookupKey p.intensity_samples lo
        let upper_intensity := lookupKey p.intensity_samples up
        let t := (angle - (Int.cast lo : ℝ)) /
          ((Int.cast up : ℝ) - (Int.cast lo : ℝ))
        lower_intensity + t * (upper_intensity - lower_intensity)

/-- A lamp-profile manager (`LampProfileManager.profiles`): the table is
loaded from the external read-only JSON, so it is a parameter of the
embedding. -/
def LampManager : Type := String → Option LampProfile

/-- `Light` from `core/light.py`. -/
structure Light where
  position : Vector3
  intensity : ℝ
  lamp_type : String
  direction : Vector3

/-! ## Intensity calculator (`simulation/intensity.py`) -/

open Classical in
/-- `IntensityCalculator._calculate_direct_intensity`: early zero for a
point at the light or a blocked path; otherwise the inverse-square law
weighted by the lamp's angular factor.  The `try/except` around
`get_intensity_at_angle` (which raises only for an unknown lamp type) and
the `get_profile` fallback become matches on the manager lookup. -/
noncomputable def calculate_direct_intensity (manager : LampManager)
    (tracer : Tracer) (point : Vector3) (light : Light) : ℝ :=
  let direction := light.position.subtract point
  let distance := direction.length
  if distance < 1e-6 then 0
  else if ¬ (is_path_clear tracer point light.position = true) then 0
  else
    let to_point := direction.multiply (-1)
    let to_point_normalized := to_point.normalize
    let cos_angle := light.direction.dot to_point_normalized
    let cos_angle' := max (-1) (min 1 cos_angle)
    let angle_rad := Real.arccos cos_angle'
    let angle_deg := angle_rad * (180 / Real.pi)
    let intensity_at_angle :=
      match manager light.lamp_type with
      | none => light.intensity
      | some p => getIntensityAtAngle p angle_deg
    let forward_intensity :=
      match manager light.lamp_type with
      | none => light.intensity
      | some p => p.forward_intensity
    let intensity_multiplier :=
      if forward_intensity > 0 then intensity_at_angle / forward_intensity
      else 1.0
    intensity_multiplier * light.intensity /
      (4 * Real.pi * distance * distance)

theorem multiply_neg_one_subtract (a b : Vector3) :
    (a.subtract b).multiply (-1) = b.subtract a := by
  unfold Vector3.subtract Vector3.multiply
  simp only [Vector3.mk.injEq]
  refine ⟨by ring, by ring, by ring⟩

/-- C1 amended: with a known lamp profile of positive forward intensity
`I₀` equal to the light's declared intensity, a point at distance
`d ≥ 1e-6` with a clear path receives direct irradiance
`(I(θ)/I₀) · I₀ / (4π d²)` — the claim's formula **without** the factor ½ —
where `θ` is the (clamped-cosine) angle in degrees between the lamp axis and
the unit vector from the lamp toward the point, and `I` the profile's
interpolated angular intensity curve. -/
theorem C1_direct_intensity_formula (manager : LampManager) (tracer : Tracer)
    (point : Vector3) (light : Light) (prof : LampProfile)
    (hprof : manager light.lamp_type = some prof)
    (hfwd : 0 < prof.forward_intensity)
    (hI : light.intensity = prof.forward_intensity)
    (hd : ¬ (light.position.subtract point).length < 1e-6)
    (hclear : is_path_clear tracer point light.position = true) :
    calculate_direct_intensity manager tracer point light =
      (getIntensityAtAngle prof
          (Real.arccos (max (-1) (min 1
            (light.direction.dot ((point.subtract light.position).normalize))))
            * (180 / Real.pi)) / prof.forward_intensity) *
        prof.forward_intensity /
        (4 * Real.pi * ((light.position.subtract point).length *
          (light.position.subtract point).length)) := by
  unfold calculate_direct_intensity
  rw [if_neg hd, if_neg (by rw [hclear]; exact not_not_intro rfl)]
  simp only [hprof, multiply_neg_one_subtract]
  rw [if_pos hfwd, hI]
  ring

theorem sqrt_nine : Real.sqrt 9 = 3 := by
  rw [show (9 : ℝ) = 3 ^ 2 by norm_num, Real.sqrt_sq (by norm_num : (0:ℝ) ≤ 3)]

theorem length_sub_origin_three :
    (((⟨0,0,0⟩ : Vector3)).subtract ⟨3,0,0⟩).length = 3 := by
  unfold Vector3.subtract Vector3.length
  norm_num [sqrt_nine]

theorem normalize_three_x :
    (((⟨3,0,0⟩ : Vector3)).subtract ⟨0,0,0⟩).normalize = ⟨1,0,0⟩ := by
  unfold Vector3.subtract Vector3.normalize Vector3.length Vector3.divide
  norm_num [sqrt_nine]

theorem constProfile_intensity_at_zero :
    getIntensityAtAngle (mkLampProfile "const" 222 [(0, 5)] (some 5)) 0 = 5 := by
  unfold getIntensityAtAngle mkLampProfile lookupAngle
  norm_num

theorem constProfile_forward :
    (mkLampProfile "const" 222 [(0, 5)] (some 5)).forward_intensity = 5 := rfl

theorem C1_concrete_eval :
    calculate_direct_intensity
      (fun s => if s = "const" then
        some (mkLampProfile "const" 222 [(0, 5)] (some 5)) else none)
      ⟨[], 10⟩ ⟨3,0,0⟩ ⟨⟨0,0,0⟩, 5, "const", ⟨1,0,0⟩⟩ =
      5 / (4 * Real.pi * 9) := by
  unfold calculate_direct_intensity
  simp only [length_sub_origin_three, multiply_neg_one_subtract,
    normalize_three_x]
  rw [if_neg (by norm_num : ¬ (3 : ℝ) < 1e-6)]
  rw [if_neg (by rw [is_path_clear_empty]; exact not_not_intro rfl)]
  have hdot : ((⟨1,0,0⟩ : Vector3).dot ⟨1,0,0⟩) = 1 := by
    unfold Vector3.dot
    norm_num
  rw [hdot]
  rw [show max (-1 : ℝ) (min 1 1) = 1 by norm_num]
  rw [Real.arccos_one, zero_mul]
  simp only [if_true]
  rw [constProfile_intensity_at_zero, constProfile_forward]
  rw [if_pos (by norm_num : (5:ℝ) > 0)]
  norm_num
  ring

/-- C1 counterexample: at the point `(3,0,0)` and a lamp at the origin with
a constant single-sample profile (`I(0°) = I₀ = 5`), unobstructed view and
on-axis angle `0°`, the code returns `5 / (4π·9)` — the inverse-square value
with angular factor 1 and **no** factor ½ — while the claim's formula
`½ · (I(θ)/I₀) · I₀ / (4π d²)` gives the different value `(5/2) / (4π·9)`. -/
theorem C1_half_factor_counterexample :
    is_path_clear ⟨[], 10⟩ ⟨3,0,0⟩ ⟨0,0,0⟩ = true ∧
    (((⟨0,0,0⟩ : Vector3)).subtract ⟨3,0,0⟩).length = 3 ∧
    getIntensityAtAngle (mkLampProfile "const" 222 [(0, 5)] (some 5)) 0 = 5 ∧
    (mkLampProfile "const" 222 [(0, 5)] (some 5)).forward_intensity = 5 ∧
    calculate_direct_intensity
      (fun s => if s = "const" then
        some (mkLampProfile "const" 222 [(0, 5)] (some 5)) else none)
      ⟨[], 10⟩ ⟨3,0,0⟩ ⟨⟨0,0,0⟩, 5, "const", ⟨1,0,0⟩⟩ =
      5 / (4 * Real.pi * 9) ∧
    5 / (4 * Real.pi * 9) ≠ (1/2) * (5 / 5) * 5 / (4 * Real.pi * 9) := by
  refine ⟨is_path_clear_empty 10 _ _, length_sub_origin_three,
    constProfile_intensity_at_zero, constProfile_forward, C1_concrete_eval,
    ?_⟩
  intro h
  have hπ := Real.pi_pos
  rw [div_eq_div_iff (by positivity) (by positivity)] at h
  nlinarith

/-- Witness for `C1_direct_intensity_formula` at the counterexample's
concrete lamp, profile and point. -/
theorem C1_direct_intensity_formula_witness :
    (fun s => if s = "const" then
      some (mkLampProfile "const" 222 [(0, 5)] (some 5)) else none)
      (("const" : String)) = some (mkLampProfile "const" 222 [(0, 5)]
        (some 5)) ∧
    calculate_direct_intensity
      (fun s => if s = "const" then
        some (mkLampProfile "const" 222 [(0, 5)] (some 5)) else none)
      ⟨[], 10⟩ ⟨3,0,0⟩ ⟨⟨0,0,0⟩, 5, "const", ⟨1,0,0⟩⟩ =
      (getIntensityAtAngle (mkLampProfile "const" 222 [(0, 5)] (some 5))
          (Real.arccos (max (-1) (min 1
            (((⟨1,0,0⟩ : Vector3)).dot ((((⟨3,0,0⟩ : Vector3)).subtract
              ⟨0,0,0⟩).normalize)))) * (180 / Real.pi)) /
          (mkLampProfile "const" 222 [(0, 5)] (some 5)).forward_intensity) *
        (mkLampProfile "const" 222 [(0, 5)] (some 5)).forward_intensity /
        (4 * Real.pi * (((((⟨0,0,0⟩ : Vector3))).subtract ⟨3,0,0⟩).length *
          ((((⟨0,0,0⟩ : Vector3))).subtract ⟨3,0,0⟩).length)) :=
  ⟨by simp,
    C1_direct_intensity_formula
      (fun s => if s = "const" then
        some (mkLampProfile "const" 222 [(0, 5)] (some 5)) else none)
      ⟨[], 10⟩ ⟨3,0,0⟩ ⟨⟨0,0,0⟩, 5, "const", ⟨1,0,0⟩⟩
      (mkLampProfile "const" 222 [(0, 5)] (some 5)) (by simp)
      (by rw [constProfile_forward]; norm_num) rfl
      (by rw [length_sub_origin_three]; norm_num)
      (is_path_clear_empty 10 _ _)⟩

/-! ## Forward photon tracing (`simulation/photon_tracing.py`) -/

/-- `PhotonTracingConfig` from `simulation/photon_tracing.py` (the fields
`verbose` and `use_path_reuse` only gate log output / an unused toggle and
are omitted).  Defaults at the constructor: `max_bounces = 1`,
`photons_per_light = 10000`, `kernel_radius = 1.0`, `epsilon = 1e-6`,
`clustering_distance = 0.0`, `use_russian_roulette = True`,
`roulette_threshold = 0.01`. -/
structure PhotonTracingConfig where
  max_bounces : ℤ
  photons_per_light : ℤ
  kernel_radius : ℝ
  epsilon : ℝ
  clustering_distance : ℝ
  use_russian_roulette : Bool
  roulette_threshold : ℝ

/-- A Python `Dict[int, float]` keyed by sample-point index. -/
abbrev ExpoMap := ℕ → Option ℝ

open Classical in
/-- `SamplePointClusterer._cluster_points`: greedy clustering over the point
indices in order.  The Python inner loop adds each found `j` to `used` as it
goes; since each `j` is visited once per pass, filtering the whole range
against the `used` set from the start of the pass is equivalent. -/
noncomputable def clusterGo (pts : List Vector3) (cd : ℝ) :
    List ℕ → Finset ℕ → List (List ℕ) × List Vector3 →
    List (List ℕ) × List Vector3
  | [], _, acc => acc
  | i :: rest, used, acc =>
    if i ∈ used then clusterGo pts cd rest used acc
    else
      let point := pts.getD i ⟨0, 0, 0⟩
      let cluster := i :: (List.range pts.length).filter
        (fun j => decide (i < j ∧ j ∉ used ∧
          (point.subtract (pts.getD j ⟨0, 0, 0⟩)).length < cd))
      let center := (cluster.foldl
        (fun (c : Vector3) idx => c.add (pts.getD idx ⟨0, 0, 0⟩))
        ⟨0, 0, 0⟩).multiply
        (1.0 / (cluster.length : ℝ))
      clusterGo pts cd rest (used ∪ cluster.toFinset)
        (acc.1 ++ [cluster], acc.2 ++ [center])

/-- `SamplePointGrid` from `simulation/photon_tracing.py`: cell size plus
the stored sample-point list (the bucket map is the pure function
`spgGrid` of these). -/
structure SamplePointGrid where
  cell_size : ℝ
  sample_points : List Vector3

open Classical in
/-- `SamplePointGrid._build_grid`: append each point index to the bucket of
its cell. -/
noncomputable def spgGrid (g : SamplePointGrid) : ℤ × ℤ × ℤ → List ℕ :=
  g.sample_points.enum.foldl
    (fun m e => fun cell =>
      if cell = position_to_cell g.cell_size e.2 then m cell ++ [e.1]
      else m cell)
    (fun _ => [])

/-- The offsets `range(-s, s+1)` of the nearby-cell triple loop. -/
def rangeOffsets (s : ℤ) : List ℤ :=
  (List.range (2 * s + 1).toNat).map (fun i => (i : ℤ) - s)

open Classical in
/-- `SamplePointGrid.get_nearby_point_indices`: Python
`int(search_radius / cell_size)` truncates toward zero. -/
noncomputable def get_nearby_point_indices (g : SamplePointGrid)
    (position : Vector3) (search_radius : ℝ) : List ℕ :=
  let center := position_to_cell g.cell_size position
  let q := search_radius / g.cell_size
  let search_cells : ℤ := (if 0 ≤ q then ⌊q⌋ else ⌈q⌉) + 1
  (rangeOffsets search_cells).flatMap (fun dx =>
    (rangeOffsets search_cells).flatMap (fun dy =>
      (rangeOffsets search_cells).flatMap (fun dz =>
        spgGrid g (center.1 + dx, center.2.1 + dy, center.2.2 + dz))))

open Classical in
/-- The flux-deposition loop of `_trace_reflected_photon`: linear-falloff
kernel inside `kernel_radius`.  Python indexes `sample_points[i]` with `i`
drawn from the grid built over the same list, so the index is always in
range; `getD` stands for that indexing. -/
noncomputable def depositFlux (g : SamplePointGrid)
    (sample_points : List Vector3) (kernel_radius : ℝ) (hit_point : Vector3)
    (flux : ℝ) (exposure : ExpoMap) : ExpoMap :=
  (get_nearby_point_indices g hit_point kernel_radius).foldl
    (fun m i =>
      let sample_point := sample_points.getD i ⟨0, 0, 0⟩
      let distance := (hit_point.subtract sample_point).length
      if distance < kernel_radius then
        let weight := max 0 (1 - distance / kernel_radius)
        fun j =>
          if j = i then (m j).map (fun old => old + flux * weight) else m j
      else m)
    exposure

/-- `math.radians`. -/
noncomputable def radians (deg : ℝ) : ℝ := deg * (Real.pi / 180)

/-- Python `random.uniform(a, b)` applied to the unit draw `r`:
`a + (b - a) * r`. -/
def uniformDraw (a b r : ℝ) : ℝ := a + (b - a) * r

open Classical in
/-- `sample_biased_cone` from `utils/sampling.py`; consumes the stream
draws at indices `n` (the azimuth) and `n + 1` (the cosine). -/
noncomputable def sample_biased_cone (direction : Vector3)
    (max_angle_degrees : ℝ) (rng : ℕ → ℝ) (n : ℕ) : Vector3 :=
  let max_angle_rad := radians max_angle_degrees
  let phi := uniformDraw 0 (2 * Real.pi) (rng n)
  let cos_max_angle := Real.cos max_angle_rad
  let cos_theta0 := uniformDraw cos_max_angle 1.0 (rng (n + 1))
  let cos_theta := Real.sqrt (max 0 cos_theta0)
  let sin_theta := Real.sqrt (max 0 (1 - cos_theta * cos_theta))
  let local_dir : Vector3 :=
    ⟨sin_theta * Real.cos phi, sin_theta * Real.sin phi, cos_theta⟩
  let tangent :=
    if |direction.x| < 0.9 then
      (Vector3.mk 0 direction.z (-direction.y)).normalize
    else (Vector3.mk (-direction.z) 0 direction.x).normalize
  let bitangent := (direction.cross tangent).normalize
  let world_dir : Vector3 :=
    ⟨local_dir.x * tangent.x + local_dir.y * bitangent.x +
        local_dir.z * direction.x,
      local_dir.x * tangent.y + local_dir.y * bitangent.y +
        local_dir.z * direction.y,
      local_dir.x * tangent.z + local_dir.y * bitangent.z +
        local_dir.z * direction.z⟩
  world_dir.normalize

open Classical in
/-- `PhotonTracer._trace_reflected_photon`.  The rng stream is threaded by
index: the `ℕ` inside the `Except` is the next unused draw index, the outer
`ℕ` is a ghost count of deposition events (it records no program state and
exists only to state the spec's resource bound).  The body after
`rho = tri.albedo` is unreachable: `Triangle` (`core/triangle.py`) defines
no attribute `albedo` (only `reflectivity`), so that line raises
`AttributeError`; the embedding returns an error there, and the roulette /
hemisphere-sampling / recursive-call tail that follows it in the source is
dead code. -/
noncomputable def trace_reflected_photon (cfg : PhotonTracingConfig)
    (tracer : Tracer) (sample_points : List Vector3) (grid : SamplePointGrid)
    (rng : ℕ → ℝ) (origin direction : Vector3) (flux : ℝ) (bounce : ℤ)
    (exposure : ExpoMap) (n : ℕ) : (Except String (ExpoMap × ℕ)) × ℕ :=
  if bounce > cfg.max_bounces then (.ok (exposure, n), 0)
  else
    let rouletteActive : Prop :=
      cfg.use_russian_roulette = true ∧ flux < cfg.roulette_threshold
    let survival_prob := flux / cfg.roulette_threshold
    let killed : Prop := rouletteActive ∧ rng n > survival_prob
    let flux1 := if rouletteActive then flux / survival_prob else flux
    let n1 := if rouletteActive then n + 1 else n
    if killed then (.ok (exposure, n1), 0)
    else if flux1 < cfg.epsilon then (.ok (exposure, n1), 0)
    else
      let hit := trace_ray tracer origin direction none
      if ¬ hit.hit = true then (.ok (exposure, n1), 0)
      else
        let exposure1 := depositFlux grid sample_points cfg.kernel_radius
          hit.point flux1 exposure
        match hit.triangleIdx.bind tracer.triangles.get? with
        | none => (.ok (exposure1, n1), 1)
        | some _ =>
          (.error "AttributeError: Triangle object has no attribute albedo",
            1)

open Classical in
/-- `PhotonTracer._trace_photon_from_light`: the first hit deposits no
energy; the lamp-angle lookup mirrors `_calculate_direct_intensity` (the
`try/except` fallback and the `get_profile` fallback become matches on the
manager).  As in `trace_reflected_photon`, the line `rho = tri.albedo`
raises `AttributeError`, so any photon whose first ray hits a triangle makes
the whole call fail; nothing in the function consumes rng draws before that
point. -/
noncomputable def trace_photon_from_light (manager : LampManager)
    (cfg : PhotonTracingConfig) (tracer : Tracer)
    (sample_points : List Vector3) (grid : SamplePointGrid)
    (origin direction : Vector3) (flux : ℝ) (light : Light)
    (exposure : ExpoMap) : Except String ExpoMap :=
  let hit := trace_ray tracer origin direction none
  if ¬ hit.hit = true then .ok exposure
  else
    match hit.triangleIdx.bind tracer.triangles.get? with
    | none => .ok exposure
    | some _ =>
      let cos_angle := light.direction.dot direction
      let cos_angle1 := max (-1) (min 1 cos_angle)
      let angle_deg := Real.arccos cos_angle1 * (180 / Real.pi)
      let intensity_at_angle :=
        match manager light.lamp_type with
        | none => light.intensity
        | some p => getIntensityAtAngle p angle_deg
      let forward_intensity :=
        match manager light.lamp_type with
        | none => light.intensity
        | some p => p.forward_intensity
      let intensity_multiplier :=
        if forward_intensity > 0 then intensity_at_angle / forward_intensity
        else 1.0
      let angle_adjusted_flux := flux * intensity_multiplier
      .error "AttributeError: Triangle object has no attribute albedo"

open Classical in
/-- `PhotonTracer.trace_indirect_exposure`.  Each photon consumes the two
rng draws of `sample_biased_cone`; the `Except` threads the
`AttributeError` raised inside `_trace_photon_from_light` out to the caller
exactly as the Python exception propagates. -/
noncomputable def trace_indirect_exposure (cfg : PhotonTracingConfig)
    (tracer : Tracer) (manager : LampManager)
    (sample_points : List Vector3) (lights : List Light) (rng : ℕ → ℝ) :
    Except String ExpoMap := do
  let indirect_exposure : ExpoMap :=
    fun i => if i < sample_points.length then some 0.0 else none
  let clusterData : List (List ℕ) × List Vector3 :=
    if cfg.clustering_distance > 0 then
      clusterGo sample_points cfg.clustering_distance
        (List.range sample_points.length) ∅ ([], [])
    else
      ((List.range sample_points.length).map (fun i => [i]), sample_points)
  let clusters := clusterData.1
  let cluster_centers := clusterData.2
  let optimal_cell_size := max 0.1 (cfg.kernel_radius / 2.0)
  let grid : SamplePointGrid := ⟨optimal_cell_size, cluster_centers⟩
  let traced ← lights.foldlM
    (fun (st : ExpoMap × ℕ) light =>
      let power_per_photon := light.intensity / (cfg.photons_per_light : ℝ)
      (List.range cfg.photons_per_light.toNat).foldlM
        (fun (st2 : ExpoMap × ℕ) _ => do
          let initial_direction :=
            sample_biased_cone light.direction 90.0 rng st2.2
          let e ← trace_photon_from_light manager cfg tracer cluster_centers
            grid light.position initial_direction power_per_photon light st2.1
          pure (e, st2.2 + 2))
        st)
    (indirect_exposure, 0)
  if cfg.clustering_distance > 0 then
    let base : ExpoMap :=
      fun i => if i < sample_points.length then some 0.0 else none
    pure (clusters.enum.foldl
      (fun m e =>
        e.2.foldl
          (fun m2 point_idx => fun j =>
            if j = point_idx then some ((traced.1 e.1).getD 0.0) else m2 j)
          m)
      base)
  else
    pure traced.1

/-- **C8** (termination and resources): for every configuration and photon
state, `_trace_reflected_photon` returns immediately — exposure map and rng
stream untouched, no deposition — once `bounce > max_bounces`, and the
number of deposition events it performs is bounded by
`max_bounces + 1 - bounce` (so at most `max_bounces` for the initial call
at `bounce = 1`, and the recursion depth the source's bounce counter allows
is bounded by `max_bounces + 1`). -/
theorem C8_bounce_termination (cfg : PhotonTracingConfig) (tracer : Tracer)
    (sample_points : List Vector3) (grid : SamplePointGrid) (rng : ℕ → ℝ)
    (origin direction : Vector3) (flux : ℝ) (bounce : ℤ) (exposure : ExpoMap)
    (n : ℕ) :
    (bounce > cfg.max_bounces →
      trace_reflected_photon cfg tracer sample_points grid rng origin
        direction flux bounce exposure n = (.ok (exposure, n), 0)) ∧
    (trace_reflected_photon cfg tracer sample_points grid rng origin
        direction flux bounce exposure n).2 ≤
      (cfg.max_bounces + 1 - bounce).toNat := by
  constructor
  · intro hb
    unfold trace_reflected_photon
    rw [if_pos hb]
  · unfold trace_reflected_photon
    by_cases hb : bounce > cfg.max_bounces
    · rw [if_pos hb]
      exact Nat.zero_le _
    · rw [if_neg hb]
      have h1 : 1 ≤ (cfg.max_bounces + 1 - bounce).toNat := by omega
      dsimp only
      repeat' split
      all_goals first
      | exact Nat.zero_le _
      | exact h1

/-- Witness for `C8_bounce_termination` at `max_bounces = 2`, `bounce = 3`:
the call returns immediately with the exposure map untouched and no
deposition event. -/
theorem C8_bounce_termination_witness :
    trace_reflected_photon ⟨2, 1, 1, 1e-6, 0, true, 1e-2⟩ ⟨[], 1⟩ []
        ⟨1, []⟩ (fun _ => 0) ⟨0, 0, 0⟩ ⟨0, 0, 0⟩ 1 3 (fun _ => none) 0 =
      (.ok (fun _ => none, 0), 0) :=
  (C8_bounce_termination ⟨2, 1, 1, 1e-6, 0, true, 1e-2⟩ ⟨[], 1⟩ []
    ⟨1, []⟩ (fun _ => 0) ⟨0, 0, 0⟩ ⟨0, 0, 0⟩ 1 3 (fun _ => none) 0).1
    (by norm_num)

/-- The wall triangle of the C2 failing scene: a wall in the plane `x = 1`
facing the origin, large enough that the photon from the origin along `+x`
hits it. -/
def wallTriangle : Triangle := ⟨⟨1, -10, -10⟩, ⟨1, 10, -10⟩, ⟨1, 0, 10⟩, 1⟩

/-- The rng stream of the C2 failing scene: draw 0 (azimuth) is `0`, every
later draw is `1`, making `sample_biased_cone` return exactly the light
axis. -/
def photonRng : ℕ → ℝ := fun k => if k = 0 then 0 else 1

theorem normalize_unit_z :
    (Vector3.normalize ⟨0, 0, 1⟩ : Vector3) = ⟨0, 0, 1⟩ := by
  unfold Vector3.normalize Vector3.length Vector3.divide
  norm_num

theorem normalize_neg_unit_y :
    (Vector3.normalize ⟨0, -1, 0⟩ : Vector3) = ⟨0, -1, 0⟩ := by
  unfold Vector3.normalize Vector3.length Vector3.divide
  norm_num

theorem C2_dir_eval :
    sample_biased_cone ⟨1, 0, 0⟩ 90.0 photonRng 0 = ⟨1, 0, 0⟩ := by
  unfold sample_biased_cone uniformDraw radians photonRng
  dsimp only
  rw [show (90.0 : ℝ) * (Real.pi / 180) = Real.pi / 2 by norm_num; ring,
    Real.cos_pi_div_two]
  norm_num [max_def, Real.sqrt_one, Real.sqrt_zero, normalize_unit_z,
    Vector3.cross, normalize_neg_unit_y, normalize_unit_x]

theorem C2_visited_eval :
    rayVisitedCells 20000 (mkRay ⟨0, 0, 0⟩ ⟨1, 0, 0⟩) 10000 = [(0, 0, 0)] := by
  unfold rayVisitedCells mkRay
  rw [normalize_unit_x, normalize_unit_x]
  have hcell : position_to_cell 20000 (⟨0, 0, 0⟩ : Vector3) = (0, 0, 0) := by
    unfold position_to_cell
    norm_num
  rw [hcell]
  dsimp only
  have htx : initTMax 20000 0 1 0 = ((20000 : ℝ) : WithTop ℝ) := by
    unfold initTMax stepOf
    norm_num
  have htz : ∀ o : ℝ, initTMax 20000 o 0 0 = ⊤ := by
    intro o
    unfold initTMax
    norm_num
  have hdx : initTDelta 20000 1 = ((20000 : ℝ) : WithTop ℝ) := by
    unfold initTDelta
    norm_num
  have hdz : initTDelta 20000 0 = ⊤ := by
    unfold initTDelta
    norm_num
  rw [htx, htz, hdx, hdz]
  have hfuel : ddaFuel 10000 (((20000 : ℝ) : WithTop ℝ), ⊤, ⊤)
      (((20000 : ℝ) : WithTop ℝ), ⊤, ⊤) = 1 := by
    unfold ddaFuel
    rw [axisPotential_coe]
    norm_num
    rfl
  rw [hfuel, show (1 : ℕ) = 0 + 1 from rfl]
  simp only [ddaLoop]
  rw [if_pos (show (0 : WithTop ℝ) < ((10000 : ℝ) : WithTop ℝ) by
    exact_mod_cast (by norm_num : (0 : ℝ) < 10000))]
  rw [if_pos (WithTop.coe_lt_top (20000 : ℝ)),
    if_pos (WithTop.coe_lt_top (20000 : ℝ)),
    if_pos (show ((10000 : ℝ) : WithTop ℝ) ≤ ((20000 : ℝ) : WithTop ℝ) by
      exact_mod_cast (by norm_num : (10000 : ℝ) ≤ 20000))]
  rfl

open Classical in
theorem C2_bucket_eval :
    buildGrid 20000 [wallTriangle] (0, 0, 0) = [0] := by
  rw [buildGrid_eq]
  have hbox : cellInTriangleBox 20000 wallTriangle (0, 0, 0) := by
    unfold cellInTriangleBox position_to_cell wallTriangle Triangle.minX
      Triangle.maxX Triangle.minY Triangle.maxY Triangle.minZ Triangle.maxZ
    norm_num
  rw [show [wallTriangle].enum = [(0, wallTriangle)] from rfl]
  rw [List.filter_cons]
  rw [if_pos (by simpa using hbox)]
  rfl

theorem C2_candidates_eval :
    get_triangles_along_ray (buildGrid 20000 [wallTriangle]) 20000
      (mkRay ⟨0, 0, 0⟩ ⟨1, 0, 0⟩) 10000 = {0} := by
  unfold get_triangles_along_ray
  rw [C2_visited_eval]
  simp only [List.foldl_cons, List.foldl_nil]
  rw [C2_bucket_eval]
  simp

theorem sqrt_160000 : Real.sqrt 160000 = 400 := by
  rw [show (160000 : ℝ) = 400 ^ 2 by norm_num, Real.sqrt_sq (by norm_num)]

theorem wallTriangle_normal : wallTriangle.normal = ⟨1, 0, 0⟩ := by
  unfold wallTriangle Triangle.normal
  norm_num [Vector3.subtract, Vector3.cross, Vector3.normalize,
    Vector3.length, Vector3.divide, sqrt_160000]

theorem C2_facing_nonneg :
    0 ≤ (wallTriangle.normal).dot
      ((wallTriangle.get_center.subtract ⟨0, 0, 0⟩).normalize) := by
  rw [wallTriangle_normal]
  unfold Vector3.normalize
  split
  · norm_num [Vector3.dot]
  · unfold wallTriangle Triangle.get_center Vector3.subtract Vector3.divide
      Vector3.dot Vector3.length
    dsimp only
    ring_nf
    positivity

theorem C2_intersection_eval :
    ray_triangle_intersection (mkRay ⟨0, 0, 0⟩ ⟨1, 0, 0⟩) wallTriangle =
      ⟨true, 1, ⟨1, 0, 0⟩⟩ := by
  unfold ray_triangle_intersection mkRay
  rw [normalize_unit_x]
  dsimp only
  rw [if_neg (show ¬ |Vector3.dot (wallTriangle.v1.subtract wallTriangle.v0)
      (Vector3.cross ⟨1, 0, 0⟩ (wallTriangle.v2.subtract wallTriangle.v0))| <
      1e-6 by
    unfold wallTriangle Vector3.subtract Vector3.cross Vector3.dot
    norm_num)]
  have hu : (1 / Vector3.dot (wallTriangle.v1.subtract wallTriangle.v0)
      (Vector3.cross ⟨1, 0, 0⟩ (wallTriangle.v2.subtract wallTriangle.v0))) *
      Vector3.dot ((Vector3.subtract ⟨0, 0, 0⟩ wallTriangle.v0))
        (Vector3.cross ⟨1, 0, 0⟩ (wallTriangle.v2.subtract wallTriangle.v0)) =
      1 / 4 := by
    unfold wallTriangle Vector3.subtract Vector3.cross Vector3.dot
    norm_num
  rw [hu]
  rw [if_neg (by norm_num : ¬ ((1 : ℝ) / 4 < -1e-4 ∨ (1 : ℝ) / 4 > 1 + 1e-4))]
  have hv : (1 / Vector3.dot (wallTriangle.v1.subtract wallTriangle.v0)
      (Vector3.cross ⟨1, 0, 0⟩ (wallTriangle.v2.subtract wallTriangle.v0))) *
      Vector3.dot (⟨1, 0, 0⟩ : Vector3)
        (Vector3.cross (Vector3.subtract ⟨0, 0, 0⟩ wallTriangle.v0)
          (wallTriangle.v1.subtract wallTriangle.v0)) = 1 / 2 := by
    unfold wallTriangle Vector3.subtract Vector3.cross Vector3.dot
    norm_num
  rw [hv]
  rw [if_neg (by norm_num :
    ¬ ((1 : ℝ) / 2 < -1e-4 ∨ (1 : ℝ) / 4 + 1 / 2 > 1 + 1e-4))]
  have ht : (1 / Vector3.dot (wallTriangle.v1.subtract wallTriangle.v0)
      (Vector3.cross ⟨1, 0, 0⟩ (wallTriangle.v2.subtract wallTriangle.v0))) *
      Vector3.dot (wallTriangle.v2.subtract wallTriangle.v0)
        (Vector3.cross (Vector3.subtract ⟨0, 0, 0⟩ wallTriangle.v0)
          (wallTriangle.v1.subtract wallTriangle.v0)) = 1 := by
    unfold wallTriangle Vector3.subtract Vector3.cross Vector3.dot
    norm_num
  rw [ht]
  rw [if_neg (by norm_num : ¬ ((1 : ℝ) < 1e-6))]
  rw [if_neg (not_lt.mpr C2_facing_nonneg)]
  unfold Ray.get_point Vector3.add Vector3.multiply
  norm_num

theorem C2_trace_ray_eval :
    trace_ray ⟨[wallTriangle], 20000⟩ ⟨0, 0, 0⟩ ⟨1, 0, 0⟩ none =
      ⟨true, ((1 : ℝ) : WithTop ℝ), ⟨1, 0, 0⟩, some 0⟩ := by
  unfold trace_ray
  dsimp only
  rw [normalize_unit_x]
  rw [show (none : Option ℝ).getD 10000.0 = 10000 by norm_num]
  rw [C2_candidates_eval]
  rw [Finset.sort_singleton]
  simp only [List.foldl_cons, List.foldl_nil]
  rw [show ([wallTriangle].get? 0) = some wallTriangle from rfl]
  dsimp only
  rw [C2_intersection_eval]
  rw [if_pos ⟨rfl, WithTop.coe_lt_top (1 : ℝ)⟩]

theorem C2_from_light_eval (manager : LampManager)
    (cfg : PhotonTracingConfig) (sample_points : List Vector3)
    (grid : SamplePointGrid) (flux : ℝ) (light : Light) (exposure : ExpoMap) :
    trace_photon_from_light manager cfg ⟨[wallTriangle], 20000⟩ sample_points
        grid ⟨0, 0, 0⟩ ⟨1, 0, 0⟩ flux light exposure =
      .error "AttributeError: Triangle object has no attribute albedo" := by
  unfold trace_photon_from_light
  rw [C2_trace_ray_eval]
  dsimp only
  rw [if_neg (show ¬ ¬ (true = true) by simp)]
  rfl

/-- **C2** (code bug): the claim that `trace_indirect_exposure` completes
for every scene whenever `photons_per_light > 0` and `kernel_radius > 0` is
false.  With `P = 1 > 0`, `R = 1 > 0`, a single wall triangle, one light
whose sampled photon hits the wall, and an unknown lamp type,
`_trace_photon_from_light` reaches `rho = tri.albedo` and raises
`AttributeError`, because `Triangle` (`core/triangle.py`) defines only
`reflectivity` and no `albedo`. -/
theorem C2_photon_tracer_crash :
    (0 : ℤ) < 1 ∧ (0 : ℝ) < 1 ∧
    trace_indirect_exposure ⟨1, 1, 1, 1e-6, 0, true, 1e-2⟩
        ⟨[wallTriangle], 20000⟩ (fun _ => none) []
        [⟨⟨0, 0, 0⟩, 1, "unknown", ⟨1, 0, 0⟩⟩] photonRng =
      .error "AttributeError: Triangle object has no attribute albedo" := by
  refine ⟨by norm_num, by norm_num, ?_⟩
  unfold trace_indirect_exposure
  dsimp only
  rw [if_neg (by norm_num : ¬ ((0 : ℝ) > 0))]
  simp only [List.foldlM]
  rw [C2_dir_eval]
  rw [C2_from_light_eval]
  rfl

/-! ## Intensity calculator cache (`simulation/intensity.py`) -/

/-- `IntensityResult` from `simulation/intensity.py`. -/
structure IntensityResult where
  direct_intensity : ℝ
  indirect_intensity : ℝ
  total_intensity : ℝ

/-- `IntensityConfig` from `simulation/intensity.py` (`verbose` only gates
logging and is omitted). -/
structure IntensityConfig where
  max_bounces : ℤ
  grid_cell_size : ℝ
  photons_per_light : ℤ
  kernel_radius : ℝ

/-- The `PhotonTracingConfig` that `IntensityCalculator.__init__` builds
when `max_bounces > 0`: the remaining fields take the constructor
defaults (`epsilon = 1e-6`, `clustering_distance = 0.0`,
`use_russian_roulette = True`, `roulette_threshold = 0.01`). -/
def photonConfigOf (cfg : IntensityConfig) : PhotonTracingConfig :=
  ⟨cfg.max_bounces, cfg.photons_per_light, cfg.kernel_radius, 1e-6, 0.0,
    true, 1e-2⟩

/-- The two mutable cache fields of `IntensityCalculator`
(`_photon_cache` and `_cached_lights`), both initially `None`. -/
structure IntensityCalculatorState where
  photon_cache : Option ExpoMap
  cached_lights : Option (List Light)

open Classical in
/-- The per-point result assembly of `calculate_intensity_batch`: the
direct sum over the lights, plus the indirect read `cache.get(i, 0.0)`
(zero when indirect lighting is disabled or no cache exists). -/
noncomputable def batchResults (manager : LampManager)
    (cfg : IntensityConfig) (triangles : List Triangle)
    (points : List Vector3) (lights : List Light) (cache : Option ExpoMap) :
    List IntensityResult :=
  (List.range points.length).map (fun i =>
    let point := points.getD i ⟨0, 0, 0⟩
    let direct := lights.foldl
      (fun acc light => acc + calculate_direct_intensity manager
        ⟨triangles, cfg.grid_cell_size⟩ point light) 0
    let indirect : ℝ :=
      if cfg.max_bounces > 0 then
        match cache with
        | none => 0.0
        | some m => (m i).getD 0.0
      else 0.0
    ⟨direct, indirect, direct + indirect⟩)

open Classical in
/-- `IntensityCalculator.calculate_intensity_batch`, as a state transformer
over the two cache fields.  The cache check compares only the light lists
(Python compares the stored and passed lists with `!=`, elementwise default
object equality, which implies the structural equality used here); when
they differ the photon tracer is re-run on exactly this call's points and
lights and both fields are overwritten; when they are equal the cached
deposition map is reused even if the measurement points changed.  The
photon tracer's Python exception propagates as the `Except` error. -/
noncomputable def calculate_intensity_batch (manager : LampManager)
    (cfg : IntensityConfig) (triangles : List Triangle)
    (st : IntensityCalculatorState) (points : List Vector3)
    (lights : List Light) (rng : ℕ → ℝ) :
    Except String (List IntensityResult × IntensityCalculatorState) :=
  if cfg.max_bounces > 0 then
    if st.cached_lights ≠ some lights then do
      let cache ← trace_indirect_exposure (photonConfigOf cfg)
        ⟨triangles, cfg.grid_cell_size⟩ manager points lights rng
      pure (batchResults manager cfg triangles points lights (some cache),
        ⟨some cache, some lights⟩)
    else
      pure (batchResults manager cfg triangles points lights st.photon_cache,
        st)
  else
    pure (batchResults manager cfg triangles points lights st.photon_cache,
      st)

open Classical in
/-- `IntensityCalculator._calculate_indirect_intensity`: when any cache
exists the function returns the constant `0.0` (the source comments
"should not reach here if used correctly"); when no cache exists it runs a
one-shot photon trace on `[point]` alone and reads index 0.  It never
writes the cache fields. -/
noncomputable def calculate_indirect_intensity (manager : LampManager)
    (cfg : IntensityConfig) (triangles : List Triangle)
    (st : IntensityCalculatorState) (point : Vector3) (lights : List Light)
    (rng : ℕ → ℝ) : Except String ℝ :=
  match st.photon_cache with
  | none => do
    let cache ← trace_indirect_exposure (photonConfigOf cfg)
      ⟨triangles, cfg.grid_cell_size⟩ manager [point] lights rng
    pure ((cache 0).getD 0.0)
  | some _ => pure 0.0

theorem C3_trace_empty_lights (cfg : PhotonTracingConfig) (tracer : Tracer)
    (manager : LampManager) (sample_points : List Vector3) (rng : ℕ → ℝ)
    (hcl : ¬ cfg.clustering_distance > 0) :
    trace_indirect_exposure cfg tracer manager sample_points [] rng =
      .ok (fun i => if i < sample_points.length then some 0.0 else none) := by
  unfold trace_indirect_exposure
  simp only [List.foldlM, pure_bind]
  rw [if_neg hcl]
  rfl

/-- **C3** (corrected): the cache behaviour of `IntensityCalculator` with
`max_bounces > 0`.  (i) When the cached light list differs from `lights`,
`calculate_intensity_batch` re-runs the photon tracer on exactly this
call's points and lights and overwrites both cache fields.  (ii) When the
cached light list equals `lights`, the previously cached deposition map is
reused and the state is unchanged: the measurement-point list plays no
part in the cache check, so changing only the points does not invalidate
the cache.  (iii) The single-point `_calculate_indirect_intensity` returns
the constant `0.0` whenever any cache exists, regardless of the queried
point. -/
theorem C3_cache_semantics (manager : LampManager) (cfg : IntensityConfig)
    (triangles : List Triangle) (st : IntensityCalculatorState)
    (points : List Vector3) (lights : List Light) (rng : ℕ → ℝ)
    (hmb : cfg.max_bounces > 0) :
    (st.cached_lights ≠ some lights →
      ∀ cache, trace_indirect_exposure (photonConfigOf cfg)
          ⟨triangles, cfg.grid_cell_size⟩ manager points lights rng =
          .ok cache →
        calculate_intensity_batch manager cfg triangles st points lights
            rng =
          .ok (batchResults manager cfg triangles points lights (some cache),
            ⟨some cache, some lights⟩)) ∧
    (st.cached_lights = some lights →
      calculate_intensity_batch manager cfg triangles st points lights rng =
        .ok (batchResults manager cfg triangles points lights
          st.photon_cache, st)) ∧
    (∀ m, st.photon_cache = some m →
      ∀ point, calculate_indirect_intensity manager cfg triangles st point
        lights rng = .ok 0.0) := by
  refine ⟨?_, ?_, ?_⟩
  · intro hne cache hcache
    unfold calculate_intensity_batch
    rw [if_pos hmb, if_pos hne, hcache]
    rfl
  · intro heq
    unfold calculate_intensity_batch
    rw [if_pos hmb, if_neg (by simpa using heq)]
    rfl
  · intro m hm point
    unfold calculate_indirect_intensity
    rw [hm]
    rfl

/-- Witness for `C3_cache_semantics` over an empty scene with
`max_bounces = 1`, empty point and light lists, and an empty initial
cache. -/
theorem C3_cache_semantics_witness :
    ((⟨none, none⟩ : IntensityCalculatorState).cached_lights ≠
        some ([] : List Light) →
      ∀ cache, trace_indirect_exposure (photonConfigOf ⟨1, 10, 1, 1⟩)
          ⟨[], (⟨1, 10, 1, 1⟩ : IntensityConfig).grid_cell_size⟩
          (fun _ => none) [] [] (fun _ => 0) = .ok cache →
        calculate_intensity_batch (fun _ => none) ⟨1, 10, 1, 1⟩ []
            ⟨none, none⟩ [] [] (fun _ => 0) =
          .ok (batchResults (fun _ => none) ⟨1, 10, 1, 1⟩ [] [] []
            (some cache), ⟨some cache, some []⟩)) ∧
    ((⟨none, none⟩ : IntensityCalculatorState).cached_lights =
        some ([] : List Light) →
      calculate_intensity_batch (fun _ => none) ⟨1, 10, 1, 1⟩ []
          ⟨none, none⟩ [] [] (fun _ => 0) =
        .ok (batchResults (fun _ => none) ⟨1, 10, 1, 1⟩ [] [] []
          (⟨none, none⟩ : IntensityCalculatorState).photon_cache,
          ⟨none, none⟩)) ∧
    (∀ m, (⟨none, none⟩ : IntensityCalculatorState).photon_cache = some m →
      ∀ point, calculate_indirect_intensity (fun _ => none) ⟨1, 10, 1, 1⟩
        [] ⟨none, none⟩ point [] (fun _ => 0) = .ok 0.0) :=
  C3_cache_semantics (fun _ => none) ⟨1, 10, 1, 1⟩ [] ⟨none, none⟩ [] []
    (fun _ => 0) (by norm_num)

/-- C3 counterexample: over an empty scene with `max_bounces = 1`, priming
the cache with points `[(0,0,0)]`, then calling again with the extended
point list `[(0,0,0), (3,0,0)]` and the same (empty) light list reuses the
stale one-point deposition map unchanged: the returned state still carries
a map undefined at index 1, although the photon trace of the second call's
own point list is defined (and zero) there.  Changing only the measurement
points therefore does not invalidate the cache, refuting the claim. -/
theorem C3_stale_cache_counterexample :
    ∃ r1 r2,
      calculate_intensity_batch (fun _ => none) ⟨1, 10, 1, 1⟩ []
          ⟨none, none⟩ [⟨0, 0, 0⟩] [] (fun _ => 0) =
        .ok (r1, ⟨some (fun i => if i < 1 then some 0.0 else none),
          some []⟩) ∧
      calculate_intensity_batch (fun _ => none) ⟨1, 10, 1, 1⟩ []
          ⟨some (fun i => if i < 1 then some 0.0 else none), some []⟩
          [⟨0, 0, 0⟩, ⟨3, 0, 0⟩] [] (fun _ => 0) =
        .ok (r2, ⟨some (fun i => if i < 1 then some 0.0 else none),
          some []⟩) ∧
      trace_indirect_exposure (photonConfigOf ⟨1, 10, 1, 1⟩) ⟨[], 10⟩
          (fun _ => none) [⟨0, 0, 0⟩, ⟨3, 0, 0⟩] [] (fun _ => 0) =
        .ok (fun i => if i < 2 then some 0.0 else none) ∧
      ((fun i => if i < 1 then some 0.0 else none) : ExpoMap) 1 = none ∧
      ((fun i => if i < 2 then some 0.0 else none) : ExpoMap) 1 =
        some 0.0 := by
  refine ⟨batchResults (fun _ => none) ⟨1, 10, 1, 1⟩ [] [⟨0, 0, 0⟩] []
      (some (fun i => if i < 1 then some 0.0 else none)),
    batchResults (fun _ => none) ⟨1, 10, 1, 1⟩ [] [⟨0, 0, 0⟩, ⟨3, 0, 0⟩] []
      (some (fun i => if i < 1 then some 0.0 else none)),
    ?_, ?_, ?_, by norm_num, by norm_num⟩
  · unfold calculate_intensity_batch
    rw [if_pos (by norm_num : (1 : ℤ) > 0),
      if_pos (by simp :
        (⟨none, none⟩ : IntensityCalculatorState).cached_lights ≠
          some ([] : List Light))]
    rw [C3_trace_empty_lights _ _ _ _ _ (by norm_num [photonConfigOf])]
    rfl
  · unfold calculate_intensity_batch
    rw [if_pos (by norm_num : (1 : ℤ) > 0)]
    rw [if_neg (by simp : ¬ ((⟨some (fun i =>
        if i < 1 then some 0.0 else none), some []⟩ :
        IntensityCalculatorState).cached_lights ≠
          some ([] : List Light)))]
    rfl
  · exact C3_trace_empty_lights _ _ _ _ _ (by norm_num [photonConfigOf])

/-! ## C7: occlusion symmetry of `Tracer.is_path_clear` -/

/-- The knife-edge wall of the C7 counterexample: the plane `x = 1e-6`,
10⁻⁶ in front of the first endpoint `(0,0,0)`. -/
def knifeT : Triangle := ⟨⟨1e-6, -10, -10⟩, ⟨1e-6, 10, -10⟩, ⟨1e-6, 0, 10⟩, 1⟩

/-- The same wall with the opposite orientation, so the mesh represents the
wall facing both sides. -/
def knifeT2 : Triangle :=
  ⟨⟨1e-6, -10, -10⟩, ⟨1e-6, 0, 10⟩, ⟨1e-6, 10, -10⟩, 1⟩

theorem normalize_neg_unit_x :
    (Vector3.normalize ⟨-1, 0, 0⟩ : Vector3) = ⟨-1, 0, 0⟩ := by
  unfold Vector3.normalize Vector3.length Vector3.divide
  norm_num

theorem length_unit_x : (Vector3.length ⟨1, 0, 0⟩ : ℝ) = 1 := by
  unfold Vector3.length
  norm_num

theorem length_neg_unit_x : (Vector3.length ⟨-1, 0, 0⟩ : ℝ) = 1 := by
  unfold Vector3.length
  norm_num

theorem knifeT_normal : knifeT.normal = ⟨1, 0, 0⟩ := by
  unfold knifeT Triangle.normal
  norm_num [Vector3.subtract, Vector3.cross, Vector3.normalize,
    Vector3.length, Vector3.divide, sqrt_160000]

theorem knifeT2_normal : knifeT2.normal = ⟨-1, 0, 0⟩ := by
  unfold knifeT2 Triangle.normal
  norm_num [Vector3.subtract, Vector3.cross, Vector3.normalize,
    Vector3.length, Vector3.divide, sqrt_160000]

theorem C7_facing_aT :
    0 ≤ (knifeT.normal).dot
      ((knifeT.get_center.subtract ⟨0, 0, 0⟩).normalize) := by
  rw [knifeT_normal]
  unfold Vector3.normalize
  split
  · norm_num [Vector3.dot]
  · unfold knifeT Triangle.get_center Vector3.subtract Vector3.divide
      Vector3.dot Vector3.length
    dsimp only
    ring_nf
    positivity

theorem C7_center_b_len_pos :
    0 < ((knifeT.get_center.subtract ⟨1, 0, 0⟩).length) := by
  unfold knifeT Triangle.get_center Vector3.subtract Vector3.length
  dsimp only
  apply Real.sqrt_pos.mpr
  norm_num

theorem C7_facing_bT :
    (knifeT.normal).dot
      ((knifeT.get_center.subtract ⟨1, 0, 0⟩).normalize) < 0 := by
  rw [knifeT_normal]
  unfold Vector3.normalize
  rw [if_neg (ne_of_gt C7_center_b_len_pos)]
  unfold knifeT Triangle.get_center Vector3.subtract Vector3.divide
    Vector3.dot Vector3.length
  dsimp only
  have hL : (0 : ℝ) < Real.sqrt
      (((1e-6 + 1e-6 + 1e-6) / 3 - 1) * ((1e-6 + 1e-6 + 1e-6) / 3 - 1) +
        ((-10 + 10 + 0) / 3 - 0) * ((-10 + 10 + 0) / 3 - 0) +
        ((-10 + -10 + 10) / 3 - 0) * ((-10 + -10 + 10) / 3 - 0)) := by
    apply Real.sqrt_pos.mpr
    norm_num
  have hnum : ((1e-6 + 1e-6 + 1e-6 : ℝ) / 3 - 1) < 0 := by norm_num
  have := div_neg_of_neg_of_pos hnum hL
  nlinarith [this]

theorem C7_facing_bT2 :
    0 ≤ (knifeT2.normal).dot
      ((knifeT2.get_center.subtract ⟨1, 0, 0⟩).normalize) := by
  rw [knifeT2_normal]
  unfold Vector3.normalize
  split
  · norm_num [Vector3.dot]
  · unfold knifeT2 Triangle.get_center Vector3.subtract Vector3.divide
      Vector3.dot Vector3.length
    dsimp only
    ring_nf
    positivity

theorem C7_hit_aT :
    ray_triangle_intersection (mkRay ⟨0, 0, 0⟩ ⟨1, 0, 0⟩) knifeT =
      ⟨true, 1e-6, ⟨1e-6, 0, 0⟩⟩ := by
  unfold ray_triangle_intersection mkRay
  rw [normalize_unit_x]
  dsimp only
  rw [if_neg (show ¬ |Vector3.dot (knifeT.v1.subtract knifeT.v0)
      (Vector3.cross ⟨1, 0, 0⟩ (knifeT.v2.subtract knifeT.v0))| < 1e-6 by
    unfold knifeT Vector3.subtract Vector3.cross Vector3.dot
    norm_num)]
  have hu : (1 / Vector3.dot (knifeT.v1.subtract knifeT.v0)
      (Vector3.cross ⟨1, 0, 0⟩ (knifeT.v2.subtract knifeT.v0))) *
      Vector3.dot ((Vector3.subtract ⟨0, 0, 0⟩ knifeT.v0))
        (Vector3.cross ⟨1, 0, 0⟩ (knifeT.v2.subtract knifeT.v0)) =
      1 / 4 := by
    unfold knifeT Vector3.subtract Vector3.cross Vector3.dot
    norm_num
  rw [hu]
  rw [if_neg (by norm_num : ¬ ((1 : ℝ) / 4 < -1e-4 ∨ (1 : ℝ) / 4 > 1 + 1e-4))]
  have hv : (1 / Vector3.dot (knifeT.v1.subtract knifeT.v0)
      (Vector3.cross ⟨1, 0, 0⟩ (knifeT.v2.subtract knifeT.v0))) *
      Vector3.dot (⟨1, 0, 0⟩ : Vector3)
        (Vector3.cross (Vector3.subtract ⟨0, 0, 0⟩ knifeT.v0)
          (knifeT.v1.subtract knifeT.v0)) = 1 / 2 := by
    unfold knifeT Vector3.subtract Vector3.cross Vector3.dot
    norm_num
  rw [hv]
  rw [if_neg (by norm_num :
    ¬ ((1 : ℝ) / 2 < -1e-4 ∨ (1 : ℝ) / 4 + 1 / 2 > 1 + 1e-4))]
  have ht : (1 / Vector3.dot (knifeT.v1.subtract knifeT.v0)
      (Vector3.cross ⟨1, 0, 0⟩ (knifeT.v2.subtract knifeT.v0))) *
      Vector3.dot (knifeT.v2.subtract knifeT.v0)
        (Vector3.cross (Vector3.subtract ⟨0, 0, 0⟩ knifeT.v0)
          (knifeT.v1.subtract knifeT.v0)) = 1e-6 := by
    unfold knifeT Vector3.subtract Vector3.cross Vector3.dot
    norm_num
  rw [ht]
  rw [if_neg (by norm_num : ¬ ((1e-6 : ℝ) < 1e-6))]
  rw [if_neg (not_lt.mpr C7_facing_aT)]
  unfold Ray.get_point Vector3.add Vector3.multiply
  norm_num

theorem C7_miss_bT :
    ray_triangle_intersection (mkRay ⟨1, 0, 0⟩ ⟨-1, 0, 0⟩) knifeT =
      ⟨false, 0, ⟨0, 0, 0⟩⟩ := by
  unfold ray_triangle_intersection mkRay
  rw [normalize_neg_unit_x]
  dsimp only
  rw [if_neg (show ¬ |Vector3.dot (knifeT.v1.subtract knifeT.v0)
      (Vector3.cross ⟨-1, 0, 0⟩ (knifeT.v2.subtract knifeT.v0))| < 1e-6 by
    unfold knifeT Vector3.subtract Vector3.cross Vector3.dot
    norm_num)]
  have hu : (1 / Vector3.dot (knifeT.v1.subtract knifeT.v0)
      (Vector3.cross ⟨-1, 0, 0⟩ (knifeT.v2.subtract knifeT.v0))) *
      Vector3.dot ((Vector3.subtract ⟨1, 0, 0⟩ knifeT.v0))
        (Vector3.cross ⟨-1, 0, 0⟩ (knifeT.v2.subtract knifeT.v0)) =
      1 / 4 := by
    unfold knifeT Vector3.subtract Vector3.cross Vector3.dot
    norm_num
  rw [hu]
  rw [if_neg (by norm_num : ¬ ((1 : ℝ) / 4 < -1e-4 ∨ (1 : ℝ) / 4 > 1 + 1e-4))]
  have hv : (1 / Vector3.dot (knifeT.v1.subtract knifeT.v0)
      (Vector3.cross ⟨-1, 0, 0⟩ (knifeT.v2.subtract knifeT.v0))) *
      Vector3.dot (⟨-1, 0, 0⟩ : Vector3)
        (Vector3.cross (Vector3.subtract ⟨1, 0, 0⟩ knifeT.v0)
          (knifeT.v1.subtract knifeT.v0)) = 1 / 2 := by
    unfold knifeT Vector3.subtract Vector3.cross Vector3.dot
    norm_num
  rw [hv]
  rw [if_neg (by norm_num :
    ¬ ((1 : ℝ) / 2 < -1e-4 ∨ (1 : ℝ) / 4 + 1 / 2 > 1 + 1e-4))]
  have ht : (1 / Vector3.dot (knifeT.v1.subtract knifeT.v0)
      (Vector3.cross ⟨-1, 0, 0⟩ (knifeT.v2.subtract knifeT.v0))) *
      Vector3.dot (knifeT.v2.subtract knifeT.v0)
        (Vector3.cross (Vector3.subtract ⟨1, 0, 0⟩ knifeT.v0)
          (knifeT.v1.subtract knifeT.v0)) = 1 - 1e-6 := by
    unfold knifeT Vector3.subtract Vector3.cross Vector3.dot
    norm_num
  rw [ht]
  rw [if_neg (by norm_num : ¬ ((1 - 1e-6 : ℝ) < 1e-6))]
  rw [if_pos C7_facing_bT]

theorem C7_hit_bT2 :
    ray_triangle_intersection (mkRay ⟨1, 0, 0⟩ ⟨-1, 0, 0⟩) knifeT2 =
      ⟨true, 1 - 1e-6, ⟨1e-6, 0, 0⟩⟩ := by
  unfold ray_triangle_intersection mkRay
  rw [normalize_neg_unit_x]
  dsimp only
  rw [if_neg (show ¬ |Vector3.dot (knifeT2.v1.subtract knifeT2.v0)
      (Vector3.cross ⟨-1, 0, 0⟩ (knifeT2.v2.subtract knifeT2.v0))| < 1e-6 by
    unfold knifeT2 Vector3.subtract Vector3.cross Vector3.dot
    norm_num)]
  have hu : (1 / Vector3.dot (knifeT2.v1.subtract knifeT2.v0)
      (Vector3.cross ⟨-1, 0, 0⟩ (knifeT2.v2.subtract knifeT2.v0))) *
      Vector3.dot ((Vector3.subtract ⟨1, 0, 0⟩ knifeT2.v0))
        (Vector3.cross ⟨-1, 0, 0⟩ (knifeT2.v2.subtract knifeT2.v0)) =
      1 / 2 := by
    unfold knifeT2 Vector3.subtract Vector3.cross Vector3.dot
    norm_num
  rw [hu]
  rw [if_neg (by norm_num : ¬ ((1 : ℝ) / 2 < -1e-4 ∨ (1 : ℝ) / 2 > 1 + 1e-4))]
  have hv : (1 / Vector3.dot (knifeT2.v1.subtract knifeT2.v0)
      (Vector3.cross ⟨-1, 0, 0⟩ (knifeT2.v2.subtract knifeT2.v0))) *
      Vector3.dot (⟨-1, 0, 0⟩ : Vector3)
        (Vector3.cross (Vector3.subtract ⟨1, 0, 0⟩ knifeT2.v0)
          (knifeT2.v1.subtract knifeT2.v0)) = 1 / 4 := by
    unfold knifeT2 Vector3.subtract Vector3.cross Vector3.dot
    norm_num
  rw [hv]
  rw [if_neg (by norm_num :
    ¬ ((1 : ℝ) / 4 < -1e-4 ∨ (1 : ℝ) / 2 + 1 / 4 > 1 + 1e-4))]
  have ht : (1 / Vector3.dot (knifeT2.v1.subtract knifeT2.v0)
      (Vector3.cross ⟨-1, 0, 0⟩ (knifeT2.v2.subtract knifeT2.v0))) *
      Vector3.dot (knifeT2.v2.subtract knifeT2.v0)
        (Vector3.cross (Vector3.subtract ⟨1, 0, 0⟩ knifeT2.v0)
          (knifeT2.v1.subtract knifeT2.v0)) = 1 - 1e-6 := by
    unfold knifeT2 Vector3.subtract Vector3.cross Vector3.dot
    norm_num
  rw [ht]
  rw [if_neg (by norm_num : ¬ ((1 - 1e-6 : ℝ) < 1e-6))]
  rw [if_neg (not_lt.mpr C7_facing_bT2)]
  unfold Ray.get_point Vector3.add Vector3.multiply
  norm_num

theorem C7_visited_a :
    rayVisitedCells 10 (mkRay ⟨0, 0, 0⟩ ⟨1, 0, 0⟩) 1 = [(0, 0, 0)] := by
  unfold rayVisitedCells mkRay
  rw [normalize_unit_x, normalize_unit_x]
  have hcell : position_to_cell 10 (⟨0, 0, 0⟩ : Vector3) = (0, 0, 0) := by
    unfold position_to_cell
    norm_num
  rw [hcell]
  dsimp only
  have htx : initTMax 10 0 1 0 = ((10 : ℝ) : WithTop ℝ) := by
    unfold initTMax stepOf
    norm_num
  have htz : ∀ o : ℝ, initTMax 10 o 0 0 = ⊤ := by
    intro o
    unfold initTMax
    norm_num
  have hdx : initTDelta 10 1 = ((10 : ℝ) : WithTop ℝ) := by
    unfold initTDelta
    norm_num
  have hdz : initTDelta 10 0 = ⊤ := by
    unfold initTDelta
    norm_num
  rw [htx, htz, hdx, hdz]
  have hfuel : ddaFuel 1 (((10 : ℝ) : WithTop ℝ), ⊤, ⊤)
      (((10 : ℝ) : WithTop ℝ), ⊤, ⊤) = 1 := by
    unfold ddaFuel
    rw [axisPotential_coe]
    norm_num
    rfl
  rw [hfuel, show (1 : ℕ) = 0 + 1 from rfl]
  simp only [ddaLoop]
  rw [if_pos (show (0 : WithTop ℝ) < ((1 : ℝ) : WithTop ℝ) by
    exact_mod_cast (by norm_num : (0 : ℝ) < 1))]
  rw [if_pos (WithTop.coe_lt_top (10 : ℝ)),
    if_pos (WithTop.coe_lt_top (10 : ℝ)),
    if_pos (show ((1 : ℝ) : WithTop ℝ) ≤ ((10 : ℝ) : WithTop ℝ) by
      exact_mod_cast (by norm_num : (1 : ℝ) ≤ 10))]
  rfl

theorem C7_visited_b :
    rayVisitedCells 10 (mkRay ⟨1, 0, 0⟩ ⟨-1, 0, 0⟩) 1 = [(0, 0, 0)] := by
  unfold rayVisitedCells mkRay
  rw [normalize_neg_unit_x, normalize_neg_unit_x]
  have hcell : position_to_cell 10 (⟨1, 0, 0⟩ : Vector3) = (0, 0, 0) := by
    unfold position_to_cell
    norm_num
  rw [hcell]
  dsimp only
  have htx : initTMax 10 1 (-1) 0 = ((1 : ℝ) : WithTop ℝ) := by
    unfold initTMax stepOf
    norm_num
  have htz : ∀ o : ℝ, initTMax 10 o 0 0 = ⊤ := by
    intro o
    unfold initTMax
    norm_num
  have hdx : initTDelta 10 (-1) = ((10 : ℝ) : WithTop ℝ) := by
    unfold initTDelta
    norm_num
  have hdz : initTDelta 10 0 = ⊤ := by
    unfold initTDelta
    norm_num
  rw [htx, htz, hdx, hdz]
  have hfuel : ddaFuel 1 (((1 : ℝ) : WithTop ℝ), ⊤, ⊤)
      (((10 : ℝ) : WithTop ℝ), ⊤, ⊤) = 1 := by
    unfold ddaFuel
    rw [axisPotential_coe]
    norm_num
    rfl
  rw [hfuel, show (1 : ℕ) = 0 + 1 from rfl]
  simp only [ddaLoop]
  rw [if_pos (show (0 : WithTop ℝ) < ((1 : ℝ) : WithTop ℝ) by
    exact_mod_cast (by norm_num : (0 : ℝ) < 1))]
  rw [if_pos (WithTop.coe_lt_top (1 : ℝ)),
    if_pos (WithTop.coe_lt_top (1 : ℝ)),
    if_pos (show ((1 : ℝ) : WithTop ℝ) ≤ ((1 : ℝ) : WithTop ℝ) from le_refl _)]
  rfl

open Classical in
theorem C7_bucket :
    buildGrid 10 [knifeT, knifeT2] (0, 0, 0) = [0, 1] := by
  rw [buildGrid_eq]
  have hbox1 : cellInTriangleBox 10 knifeT (0, 0, 0) := by
    unfold cellInTriangleBox position_to_cell knifeT Triangle.minX
      Triangle.maxX Triangle.minY Triangle.maxY Triangle.minZ Triangle.maxZ
    norm_num
  have hbox2 : cellInTriangleBox 10 knifeT2 (0, 0, 0) := by
    unfold cellInTriangleBox position_to_cell knifeT2 Triangle.minX
      Triangle.maxX Triangle.minY Triangle.maxY Triangle.minZ Triangle.maxZ
    norm_num
  rw [show [knifeT, knifeT2].enum = [(0, knifeT), (1, knifeT2)] from rfl]
  rw [List.filter_cons, if_pos (by simpa using hbox1)]
  rw [List.filter_cons, if_pos (by simpa using hbox2)]
  rfl

theorem C7_candidates_a :
    get_triangles_along_ray (buildGrid 10 [knifeT, knifeT2]) 10
      (mkRay ⟨0, 0, 0⟩ ⟨1, 0, 0⟩) 1 = {0, 1} := by
  unfold get_triangles_along_ray
  rw [C7_visited_a]
  simp only [List.foldl_cons, List.foldl_nil]
  rw [C7_bucket]
  simp

theorem C7_candidates_b :
    get_triangles_along_ray (buildGrid 10 [knifeT, knifeT2]) 10
      (mkRay ⟨1, 0, 0⟩ ⟨-1, 0, 0⟩) 1 = {0, 1} := by
  unfold get_triangles_along_ray
  rw [C7_visited_b]
  simp only [List.foldl_cons, List.foldl_nil]
  rw [C7_bucket]
  simp

/-- C7 counterexample: a knife-edge occluder breaks the symmetry of
`is_path_clear` even in a mesh whose wall is represented by triangles of
both orientations (the first conjunct records that `knifeT2` is exactly
`knifeT` with reversed orientation).  From `(0,0,0)` the wall `x = 1e-6` is
hit at parameter exactly `t = 1e-6`, which passes the `t < 1e-6` rejection
and the `t < distance - 1e-6` blocking test, so the path to `(1,0,0)` is
reported blocked; from `(1,0,0)` the same wall is hit at `t = 1 - 1e-6`,
which fails the strict `t < distance - 1e-6` blocking test, so the reverse
path is reported clear. -/
theorem C7_symmetry_counterexample :
    (knifeT2.v0 = knifeT.v0 ∧ knifeT2.v1 = knifeT.v2 ∧
      knifeT2.v2 = knifeT.v1) ∧
    is_path_clear ⟨[knifeT, knifeT2], 10⟩ ⟨0, 0, 0⟩ ⟨1, 0, 0⟩ = false ∧
    is_path_clear ⟨[knifeT, knifeT2], 10⟩ ⟨1, 0, 0⟩ ⟨0, 0, 0⟩ = true := by
  refine ⟨⟨rfl, rfl, rfl⟩, ?_, ?_⟩
  · unfold is_path_clear
    dsimp only
    have hsub : (⟨1, 0, 0⟩ : Vector3).subtract ⟨0, 0, 0⟩ = ⟨1, 0, 0⟩ := by
      unfold Vector3.subtract
      norm_num
    simp only [hsub, length_unit_x]
    rw [if_neg (by norm_num : ¬ ((1 : ℝ) < 1e-6))]
    simp only [C7_candidates_a]
    apply decide_eq_false
    intro hP
    have hblock := hP 0 (by simp) knifeT rfl
    rw [C7_hit_aT] at hblock
    exact hblock ⟨rfl, by norm_num⟩
  · unfold is_path_clear
    dsimp only
    have hsub : (⟨0, 0, 0⟩ : Vector3).subtract ⟨1, 0, 0⟩ = ⟨-1, 0, 0⟩ := by
      unfold Vector3.subtract
      norm_num
    simp only [hsub, length_neg_unit_x]
    rw [if_neg (by norm_num : ¬ ((1 : ℝ) < 1e-6))]
    simp only [C7_candidates_b]
    apply decide_eq_true
    intro idx hidx tri htri
    rcases Finset.mem_insert.mp hidx with h0 | h1
    · subst h0
      have htr : tri = knifeT := by simpa using htri.symm
      subst htr
      rw [C7_miss_bT]
      rintro ⟨hh, -⟩
      simp at hh
    · have h1' : idx = 1 := by simpa using h1
      subst h1'
      have htr : tri = knifeT2 := by simpa using htri.symm
      subst htr
      rw [C7_hit_bT2]
      rintro ⟨-, hd⟩
      dsimp only at hd
      norm_num at hd

/-- The orientation reversal of a triangle (swap `v1` and `v2`). -/
def revTri (t : Triangle) : Triangle := ⟨t.v0, t.v2, t.v1, t.reflectivity⟩

/-- The Möller-Trumbore determinant `a = edge1 · (dir × edge2)` of
`ray_triangle_intersection` (independent of the ray origin). -/
noncomputable def mtDet (dir : Vector3) (t : Triangle) : ℝ :=
  (t.v1.subtract t.v0).dot (dir.cross (t.v2.subtract t.v0))

/-- The Möller-Trumbore barycentric coordinate `u`. -/
noncomputable def mtU (o dir : Vector3) (t : Triangle) : ℝ :=
  (1 / mtDet dir t) *
    ((o.subtract t.v0).dot (dir.cross (t.v2.subtract t.v0)))

/-- The Möller-Trumbore barycentric coordinate `v`. -/
noncomputable def mtV (o dir : Vector3) (t : Triangle) : ℝ :=
  (1 / mtDet dir t) *
    (dir.dot ((o.subtract t.v0).cross (t.v1.subtract t.v0)))

/-- The Möller-Trumbore ray parameter `t`. -/
noncomputable def mtT (o dir : Vector3) (t : Triangle) : ℝ :=
  (1 / mtDet dir t) *
    ((t.v2.subtract t.v0).dot ((o.subtract t.v0).cross (t.v1.subtract t.v0)))

open Classical in
/-- `ray_triangle_intersection` written in terms of the named
Möller-Trumbore scalars. -/
theorem rti_spec (ray : Ray) (tri : Triangle) :
    ray_triangle_intersection ray tri =
      if |mtDet ray.direction tri| < 1e-6 then ⟨false, 0, ⟨0, 0, 0⟩⟩
      else if mtU ray.origin ray.direction tri < -1e-4 ∨
          mtU ray.origin ray.direction tri > 1 + 1e-4 then
        ⟨false, 0, ⟨0, 0, 0⟩⟩
      else if mtV ray.origin ray.direction tri < -1e-4 ∨
          mtU ray.origin ray.direction tri +
            mtV ray.origin ray.direction tri > 1 + 1e-4 then
        ⟨false, 0, ⟨0, 0, 0⟩⟩
      else if mtT ray.origin ray.direction tri < 1e-6 then
        ⟨false, 0, ⟨0, 0, 0⟩⟩
      else if tri.normal.dot
          ((tri.get_center.subtract ray.origin).normalize) < 0 then
        ⟨false, 0, ⟨0, 0, 0⟩⟩
      else ⟨true, mtT ray.origin ray.direction tri,
        ray.get_point (mtT ray.origin ray.direction tri)⟩ := rfl

open Classical in
/-- What a successful Möller-Trumbore test implies about the scalars. -/
theorem rti_hit_inv (ray : Ray) (tri : Triangle)
    (h : (ray_triangle_intersection ray tri).hit = true) :
    ¬ |mtDet ray.direction tri| < 1e-6 ∧
    ¬ (mtU ray.origin ray.direction tri < -1e-4 ∨
      mtU ray.origin ray.direction tri > 1 + 1e-4) ∧
    ¬ (mtV ray.origin ray.direction tri < -1e-4 ∨
      mtU ray.origin ray.direction tri +
        mtV ray.origin ray.direction tri > 1 + 1e-4) ∧
    ¬ mtT ray.origin ray.direction tri < 1e-6 ∧
    ¬ tri.normal.dot ((tri.get_center.subtract ray.origin).normalize) < 0 ∧
    (ray_triangle_intersection ray tri).distance =
      mtT ray.origin ray.direction tri := by
  rw [rti_spec] at h
  split_ifs at h with h1 h2 h3 h4 h5
  all_goals try exact absurd h Bool.false_ne_true
  refine ⟨h1, h2, h3, h4, h5, ?_⟩
  rw [rti_spec, if_neg h1, if_neg h2, if_neg h3, if_neg h4, if_neg h5]

open Classical in
/-- Assembling a successful Möller-Trumbore test from the scalar facts. -/
theorem rti_hit_of (ray : Ray) (tri : Triangle)
    (h1 : ¬ |mtDet ray.direction tri| < 1e-6)
    (h2 : ¬ (mtU ray.origin ray.direction tri < -1e-4 ∨
      mtU ray.origin ray.direction tri > 1 + 1e-4))
    (h3 : ¬ (mtV ray.origin ray.direction tri < -1e-4 ∨
      mtU ray.origin ray.direction tri +
        mtV ray.origin ray.direction tri > 1 + 1e-4))
    (h4 : ¬ mtT ray.origin ray.direction tri < 1e-6)
    (h5 : ¬ tri.normal.dot
      ((tri.get_center.subtract ray.origin).normalize) < 0) :
    ray_triangle_intersection ray tri =
      ⟨true, mtT ray.origin ray.direction tri,
        ray.get_point (mtT ray.origin ray.direction tri)⟩ := by
  rw [rti_spec, if_neg h1, if_neg h2, if_neg h3, if_neg h4, if_neg h5]

theorem subtract_swap (a b : Vector3) :
    a.subtract b = (b.subtract a).multiply (-1) :=
  (multiply_neg_one_subtract b a).symm

theorem length_mul_neg_one (v : Vector3) :
    (v.multiply (-1)).length = v.length := by
  unfold Vector3.multiply Vector3.length
  dsimp only
  congr 1
  ring

theorem normalize_mul_neg_one (v : Vector3) :
    (v.multiply (-1)).normalize = v.normalize.multiply (-1) := by
  unfold Vector3.normalize
  rw [length_mul_neg_one]
  split
  · unfold Vector3.multiply
    dsimp only
    norm_num
  · unfold Vector3.multiply Vector3.divide
    dsimp only
    simp only [Vector3.mk.injEq]
    refine ⟨by ring, by ring, by ring⟩

theorem sq_sqrt_sum (x y z : ℝ) :
    Real.sqrt (x * x + y * y + z * z) * Real.sqrt (x * x + y * y + z * z) =
      x * x + y * y + z * z :=
  Real.mul_self_sqrt (add_nonneg (add_nonneg (mul_self_nonneg x)
    (mul_self_nonneg y)) (mul_self_nonneg z))

theorem abs_le_sqrt_sum_x (x y z : ℝ) :
    |x| ≤ Real.sqrt (x * x + y * y + z * z) := by
  rw [show x * x + y * y + z * z = x ^ 2 + (y * y + z * z) by ring]
  calc |x| = Real.sqrt (x ^ 2) := (Real.sqrt_sq_eq_abs x).symm
  _ ≤ _ := Real.sqrt_le_sqrt (by nlinarith)

theorem normalize_component_bound (v : Vector3) :
    |v.normalize.x| ≤ 1 ∧ |v.normalize.y| ≤ 1 ∧ |v.normalize.z| ≤ 1 := by
  unfold Vector3.normalize
  split
  · dsimp only
    norm_num
  · rename_i hne
    unfold Vector3.divide Vector3.length
    unfold Vector3.length at hne
    dsimp only
    have hpos : 0 < Real.sqrt (v.x * v.x + v.y * v.y + v.z * v.z) :=
      lt_of_le_of_ne (Real.sqrt_nonneg _) (Ne.symm hne)
    have habs : |Real.sqrt (v.x * v.x + v.y * v.y + v.z * v.z)| =
        Real.sqrt (v.x * v.x + v.y * v.y + v.z * v.z) :=
      abs_of_pos hpos
    refine ⟨?_, ?_, ?_⟩
    · rw [abs_div, habs, div_le_one hpos]
      exact abs_le_sqrt_sum_x v.x v.y v.z
    · rw [abs_div, habs, div_le_one hpos]
      have := abs_le_sqrt_sum_x v.y v.x v.z
      calc |v.y| ≤ Real.sqrt (v.y * v.y + v.x * v.x + v.z * v.z) := this
      _ = _ := by rw [show v.y * v.y + v.x * v.x + v.z * v.z =
          v.x * v.x + v.y * v.y + v.z * v.z by ring]
    · rw [abs_div, habs, div_le_one hpos]
      have := abs_le_sqrt_sum_x v.z v.y v.x
      calc |v.z| ≤ Real.sqrt (v.z * v.z + v.y * v.y + v.x * v.x) := this
      _ = _ := by rw [show v.z * v.z + v.y * v.y + v.x * v.x =
          v.x * v.x + v.y * v.y + v.z * v.z by ring]

theorem point_decomp (a b : Vector3) (hL : (b.subtract a).length ≠ 0) :
    b = a.add
      (((b.subtract a).normalize).multiply ((b.subtract a).length)) := by
  unfold Vector3.normalize
  rw [if_neg hL]
  obtain ⟨ax, ay, az⟩ := a
  obtain ⟨bx, byy, bz⟩ := b
  unfold Vector3.subtract at hL ⊢
  dsimp only at hL ⊢
  unfold Vector3.divide Vector3.add Vector3.multiply
  dsimp only
  simp only [Vector3.mk.injEq]
  refine ⟨?_, ?_, ?_⟩ <;>
    · rw [div_mul_cancel₀ _ hL]
      ring

theorem normalize_idem (v : Vector3) :
    v.normalize.normalize = v.normalize := by
  by_cases h : v.length = 0
  · have h0 : v.normalize = ⟨0, 0, 0⟩ := by
      unfold Vector3.normalize
      rw [if_pos h]
    rw [h0]
    have hz : (Vector3.mk 0 0 0 : Vector3).length = 0 := by
      unfold Vector3.length
      norm_num
    unfold Vector3.normalize
    rw [if_pos hz]
  · have hlen : v.normalize.length = 1 := by
      unfold Vector3.normalize
      rw [if_neg h]
      unfold Vector3.divide Vector3.length
      unfold Vector3.length at h
      dsimp only
      have hpos : 0 < Real.sqrt (v.x * v.x + v.y * v.y + v.z * v.z) :=
        lt_of_le_of_ne (Real.sqrt_nonneg _) (Ne.symm h)
      rw [show v.x / Real.sqrt (v.x * v.x + v.y * v.y + v.z * v.z) *
          (v.x / Real.sqrt (v.x * v.x + v.y * v.y + v.z * v.z)) +
          v.y / Real.sqrt (v.x * v.x + v.y * v.y + v.z * v.z) *
          (v.y / Real.sqrt (v.x * v.x + v.y * v.y + v.z * v.z)) +
          v.z / Real.sqrt (v.x * v.x + v.y * v.y + v.z * v.z) *
          (v.z / Real.sqrt (v.x * v.x + v.y * v.y + v.z * v.z)) =
          (v.x * v.x + v.y * v.y + v.z * v.z) /
            (Real.sqrt (v.x * v.x + v.y * v.y + v.z * v.z) *
              Real.sqrt (v.x * v.x + v.y * v.y + v.z * v.z)) by ring]
      rw [sq_sqrt_sum]
      have hS : v.x * v.x + v.y * v.y + v.z * v.z ≠ 0 := by
        intro h0
        rw [h0] at h
        exact h Real.sqrt_zero
      rw [div_self hS]
      exact Real.sqrt_one
    rw [show v.normalize.normalize = (if v.normalize.length = 0 then
      (⟨0, 0, 0⟩ : Vector3) else v.normalize.divide v.normalize.length)
      from rfl]
    rw [hlen]
    rw [if_neg one_ne_zero]
    simp [Vector3.divide]

theorem mtDet_rev (d : Vector3) (tri : Triangle) :
    mtDet (d.multiply (-1)) (revTri tri) = mtDet d tri := by
  unfold mtDet revTri Vector3.subtract Vector3.cross Vector3.dot
    Vector3.multiply
  dsimp only
  ring

theorem mtDet_fwd (d : Vector3) (tri : Triangle) :
    mtDet (d.multiply (-1)) tri = -(mtDet d tri) := by
  unfold mtDet Vector3.subtract Vector3.cross Vector3.dot Vector3.multiply
  dsimp only
  ring

theorem mtU_rev_pt (a d : Vector3) (dist : ℝ) (tri : Triangle) :
    mtU (a.add (d.multiply dist)) (d.multiply (-1)) (revTri tri) =
      mtV a d tri := by
  unfold mtU mtV
  rw [mtDet_rev]
  congr 1
  unfold revTri Vector3.subtract Vector3.cross Vector3.dot Vector3.multiply
    Vector3.add
  dsimp only
  ring

theorem mtV_rev_pt (a d : Vector3) (dist : ℝ) (tri : Triangle) :
    mtV (a.add (d.multiply dist)) (d.multiply (-1)) (revTri tri) =
      mtU a d tri := by
  unfold mtU mtV
  rw [mtDet_rev]
  congr 1
  unfold revTri Vector3.subtract Vector3.cross Vector3.dot Vector3.multiply
    Vector3.add
  dsimp only
  ring

theorem mtT_rev_pt (a d : Vector3) (dist : ℝ) (tri : Triangle)
    (hdet : mtDet d tri ≠ 0) :
    mtT (a.add (d.multiply dist)) (d.multiply (-1)) (revTri tri) =
      dist - mtT a d tri := by
  unfold mtT
  rw [mtDet_rev]
  field_simp
  unfold mtDet revTri Vector3.subtract Vector3.cross Vector3.dot
    Vector3.multiply Vector3.add
  dsimp only
  ring

theorem mtU_fwd_pt (a d : Vector3) (dist : ℝ) (tri : Triangle)
    (hdet : mtDet d tri ≠ 0) :
    mtU (a.add (d.multiply dist)) (d.multiply (-1)) tri = mtU a d tri := by
  unfold mtU
  rw [mtDet_fwd]
  rw [div_neg]
  field_simp
  unfold mtDet Vector3.subtract Vector3.cross Vector3.dot Vector3.multiply
    Vector3.add
  dsimp only
  ring

theorem mtV_fwd_pt (a d : Vector3) (dist : ℝ) (tri : Triangle)
    (hdet : mtDet d tri ≠ 0) :
    mtV (a.add (d.multiply dist)) (d.multiply (-1)) tri = mtV a d tri := by
  unfold mtV
  rw [mtDet_fwd]
  rw [div_neg]
  field_simp
  unfold mtDet Vector3.subtract Vector3.cross Vector3.dot Vector3.multiply
    Vector3.add
  dsimp only
  ring

theorem mtT_fwd_pt (a d : Vector3) (dist : ℝ) (tri : Triangle)
    (hdet : mtDet d tri ≠ 0) :
    mtT (a.add (d.multiply dist)) (d.multiply (-1)) tri =
      dist - mtT a d tri := by
  unfold mtT
  rw [mtDet_fwd]
  rw [div_neg]
  field_simp
  unfold mtDet Vector3.subtract Vector3.cross Vector3.dot Vector3.multiply
    Vector3.add
  dsimp only
  ring

theorem revTri_center (t : Triangle) :
    (revTri t).get_center = t.get_center := by
  unfold revTri Triangle.get_center
  dsimp only
  simp only [Vector3.mk.injEq]
  refine ⟨by ring, by ring, by ring⟩

theorem revTri_normal_dot (t : Triangle) (w : Vector3) :
    (revTri t).normal.dot w = -(t.normal.dot w) := by
  unfold revTri Triangle.normal
  dsimp only
  have hcross : ((t.v2.subtract t.v0).cross (t.v1.subtract t.v0)) =
      (((t.v1.subtract t.v0).cross (t.v2.subtract t.v0)).multiply (-1)) := by
    unfold Vector3.subtract Vector3.cross Vector3.multiply
    dsimp only
    simp only [Vector3.mk.injEq]
    refine ⟨by ring, by ring, by ring⟩
  rw [hcross, normalize_mul_neg_one]
  unfold Vector3.multiply Vector3.dot
  dsimp only
  ring

theorem max_swap_right (a b c : ℝ) :
    max (max a b) c = max (max a c) b := by
  rw [max_assoc, max_comm b c, ← max_assoc]

theorem cellInTriangleBox_rev (c : ℝ) (t : Triangle) (cell : ℤ × ℤ × ℤ) :
    cellInTriangleBox c (revTri t) cell ↔ cellInTriangleBox c t cell := by
  unfold cellInTriangleBox revTri Triangle.minX Triangle.maxX Triangle.minY
    Triangle.maxY Triangle.minZ Triangle.maxZ position_to_cell
  dsimp only
  rw [min_right_comm t.v0.x t.v2.x t.v1.x,
    min_right_comm t.v0.y t.v2.y t.v1.y,
    min_right_comm t.v0.z t.v2.z t.v1.z,
    max_swap_right t.v0.x t.v2.x t.v1.x,
    max_swap_right t.v0.y t.v2.y t.v1.y,
    max_swap_right t.v0.z t.v2.z t.v1.z]

theorem convex3_le {lo w1 w2 w3 l1 l2 l3 : ℝ} (h1 : 0 ≤ l1) (h2 : 0 ≤ l2)
    (h3 : 0 ≤ l3) (hs : l1 + l2 + l3 = 1) (hw1 : lo ≤ w1) (hw2 : lo ≤ w2)
    (hw3 : lo ≤ w3) : lo ≤ l1 * w1 + l2 * w2 + l3 * w3 := by
  calc lo = l1 * lo + l2 * lo + l3 * lo := by
        rw [show l1 * lo + l2 * lo + l3 * lo = (l1 + l2 + l3) * lo by ring,
          hs, one_mul]
  _ ≤ l1 * w1 + l2 * w2 + l3 * w3 :=
    add_le_add (add_le_add (mul_le_mul_of_nonneg_left hw1 h1)
      (mul_le_mul_of_nonneg_left hw2 h2)) (mul_le_mul_of_nonneg_left hw3 h3)

theorem convex3_ge {hi w1 w2 w3 l1 l2 l3 : ℝ} (h1 : 0 ≤ l1) (h2 : 0 ≤ l2)
    (h3 : 0 ≤ l3) (hs : l1 + l2 + l3 = 1) (hw1 : w1 ≤ hi) (hw2 : w2 ≤ hi)
    (hw3 : w3 ≤ hi) : l1 * w1 + l2 * w2 + l3 * w3 ≤ hi := by
  calc l1 * w1 + l2 * w2 + l3 * w3 ≤ l1 * hi + l2 * hi + l3 * hi :=
    add_le_add (add_le_add (mul_le_mul_of_nonneg_left hw1 h1)
      (mul_le_mul_of_nonneg_left hw2 h2)) (mul_le_mul_of_nonneg_left hw3 h3)
  _ = hi := by
    rw [show l1 * hi + l2 * hi + l3 * hi = (l1 + l2 + l3) * hi by ring, hs,
      one_mul]

theorem floor_window {c x y : ℝ} (hc : 0 < c)
    (hl : c * ((⌊x / c⌋ : ℤ) : ℝ) < y)
    (hu : y < c * (((⌊x / c⌋ : ℤ) : ℝ) + 1)) :
    ⌊y / c⌋ = ⌊x / c⌋ := by
  rw [Int.floor_eq_iff]
  constructor
  · exact le_of_lt ((lt_div_iff₀ hc).mpr (by linarith))
  · push_cast
    exact (div_lt_iff₀ hc).mpr (by linarith)

theorem floor_div_mono {c x y : ℝ} (hc : 0 < c) (h : x ≤ y) :
    ⌊x / c⌋ ≤ ⌊y / c⌋ :=
  Int.floor_le_floor (by gcongr)

theorem axis_window {c px y : ℝ} (hc : 0 < c)
    (h1 : |y - px| < px - c * ((⌊px / c⌋ : ℤ) : ℝ))
    (h2 : |y - px| < c * (((⌊px / c⌋ : ℤ) : ℝ) + 1) - px) :
    ⌊y / c⌋ = ⌊px / c⌋ := by
  have ha := abs_lt.mp h1
  have hb := abs_lt.mp h2
  exact floor_window hc (by linarith [ha.1]) (by linarith [hb.2])

/-- The Cramer correctness of the Möller-Trumbore solution: the ray point
at parameter `mtT` is the barycentric combination of the vertices with
weights `(1 - u - v, u, v)`. -/
theorem mt_point_coords (a d : Vector3) (tri : Triangle)
    (hdet : mtDet d tri ≠ 0) :
    (a.x + d.x * mtT a d tri =
      (1 - mtU a d tri - mtV a d tri) * tri.v0.x +
        mtU a d tri * tri.v1.x + mtV a d tri * tri.v2.x) ∧
    (a.y + d.y * mtT a d tri =
      (1 - mtU a d tri - mtV a d tri) * tri.v0.y +
        mtU a d tri * tri.v1.y + mtV a d tri * tri.v2.y) ∧
    (a.z + d.z * mtT a d tri =
      (1 - mtU a d tri - mtV a d tri) * tri.v0.z +
        mtU a d tri * tri.v1.z + mtV a d tri * tri.v2.z) := by
  refine ⟨?_, ?_, ?_⟩ <;>
  · unfold mtT mtU mtV
    field_simp
    unfold mtDet Vector3.subtract Vector3.cross Vector3.dot
    dsimp only
    ring

/-- The point lies strictly inside its grid cell on every axis. -/
def StrictlyInsideCell (c : ℝ) (p : Vector3) : Prop :=
  (c * ((⌊p.x / c⌋ : ℤ) : ℝ) < p.x ∧
    p.x < c * (((⌊p.x / c⌋ : ℤ) : ℝ) + 1)) ∧
  (c * ((⌊p.y / c⌋ : ℤ) : ℝ) < p.y ∧
    p.y < c * (((⌊p.y / c⌋ : ℤ) : ℝ) + 1)) ∧
  (c * ((⌊p.z / c⌋ : ℤ) : ℝ) < p.z ∧
    p.z < c * (((⌊p.z / c⌋ : ℤ) : ℝ) + 1))

theorem cellOfPoint_window (c : ℝ) (hc : 0 < c) (o d : Vector3) (t0 : ℝ)
    (hdx : |d.x| ≤ 1) (hdy : |d.y| ≤ 1) (hdz : |d.z| ≤ 1)
    (hin : StrictlyInsideCell c (o.add (d.multiply t0))) :
    ∃ δ, 0 < δ ∧ ∀ τ, |τ - t0| < δ →
      cellOfPoint c o d τ = cellOfPoint c o d t0 := by
  obtain ⟨⟨hx1, hx2⟩, ⟨hy1, hy2⟩, ⟨hz1, hz2⟩⟩ := hin
  set p := o.add (d.multiply t0) with hp
  have hpx : p.x = o.x + d.x * t0 := rfl
  have hpy : p.y = o.y + d.y * t0 := rfl
  have hpz : p.z = o.z + d.z * t0 := rfl
  refine ⟨min (min (p.x - c * ((⌊p.x / c⌋ : ℤ) : ℝ))
      (c * (((⌊p.x / c⌋ : ℤ) : ℝ) + 1) - p.x))
    (min (min (p.y - c * ((⌊p.y / c⌋ : ℤ) : ℝ))
      (c * (((⌊p.y / c⌋ : ℤ) : ℝ) + 1) - p.y))
    (min (p.z - c * ((⌊p.z / c⌋ : ℤ) : ℝ))
      (c * (((⌊p.z / c⌋ : ℤ) : ℝ) + 1) - p.z))), ?_, ?_⟩
  · simp only [lt_min_iff]
    exact ⟨⟨by linarith, by linarith⟩, ⟨by linarith, by linarith⟩,
      by linarith, by linarith⟩
  · intro τ hτ
    simp only [lt_min_iff] at hτ
    obtain ⟨⟨hm1, hm2⟩, ⟨hm3, hm4⟩, hm5, hm6⟩ := hτ
    have hshift : ∀ oc w : ℝ, |w| ≤ 1 →
        |(oc + w * τ) - (oc + w * t0)| ≤ |τ - t0| := by
      intro oc w hw
      rw [show oc + w * τ - (oc + w * t0) = w * (τ - t0) by ring, abs_mul]
      calc |w| * |τ - t0| ≤ 1 * |τ - t0| :=
        mul_le_mul_of_nonneg_right hw (abs_nonneg _)
      _ = |τ - t0| := one_mul _
    have hex : ⌊(o.x + d.x * τ) / c⌋ = ⌊p.x / c⌋ :=
      axis_window hc
        (lt_of_le_of_lt (by rw [hpx]; exact hshift o.x d.x hdx) hm1)
        (lt_of_le_of_lt (by rw [hpx]; exact hshift o.x d.x hdx) hm2)
    have hey : ⌊(o.y + d.y * τ) / c⌋ = ⌊p.y / c⌋ :=
      axis_window hc
        (lt_of_le_of_lt (by rw [hpy]; exact hshift o.y d.y hdy) hm3)
        (lt_of_le_of_lt (by rw [hpy]; exact hshift o.y d.y hdy) hm4)
    have hez : ⌊(o.z + d.z * τ) / c⌋ = ⌊p.z / c⌋ :=
      axis_window hc
        (lt_of_le_of_lt (by rw [hpz]; exact hshift o.z d.z hdz) hm5)
        (lt_of_le_of_lt (by rw [hpz]; exact hshift o.z d.z hdz) hm6)
    unfold cellOfPoint position_to_cell Vector3.add Vector3.multiply
    dsimp only
    simp only [Prod.mk.injEq]
    exact ⟨hex, hey, hez⟩

open Classical in
theorem mem_buildGrid_of (c : ℝ) (L : List Triangle) (i : ℕ) (t : Triangle)
    (hget : L.get? i = some t) (cell : ℤ × ℤ × ℤ)
    (hbox : cellInTriangleBox c t cell) :
    i ∈ buildGrid c L cell := by
  rw [buildGrid_eq]
  exact List.mem_map.mpr ⟨(i, t), List.mem_filter.mpr
    ⟨mem_enum_of_get? hget, by simpa using hbox⟩, rfl⟩

theorem hit_point_in_box (c : ℝ) (hc : 0 < c) (a d : Vector3)
    (tri : Triangle) (hdet : mtDet d tri ≠ 0)
    (hu0 : 0 ≤ mtU a d tri) (hv0 : 0 ≤ mtV a d tri)
    (huv : mtU a d tri + mtV a d tri ≤ 1) :
    cellInTriangleBox c tri
      (position_to_cell c (a.add (d.multiply (mtT a d tri)))) := by
  obtain ⟨hx, hy, hz⟩ := mt_point_coords a d tri hdet
  unfold cellInTriangleBox position_to_cell Triangle.minX Triangle.maxX
    Triangle.minY Triangle.maxY Triangle.minZ Triangle.maxZ Vector3.add
    Vector3.multiply
  dsimp only
  have hl1 : (0 : ℝ) ≤ 1 - mtU a d tri - mtV a d tri := by linarith
  refine ⟨?_, ?_, ?_, ?_, ?_, ?_⟩
  · apply floor_div_mono hc
    rw [hx]
    exact convex3_le hl1 hu0 hv0 (by ring)
      ((min_le_left _ _).trans (min_le_left _ _))
      ((min_le_left _ _).trans (min_le_right _ _)) (min_le_right _ _)
  · apply floor_div_mono hc
    rw [hx]
    exact convex3_ge hl1 hu0 hv0 (by ring)
      ((le_max_left _ _).trans (le_max_left _ _))
      ((le_max_right _ _).trans (le_max_left _ _)) (le_max_right _ _)
  · apply floor_div_mono hc
    rw [hy]
    exact convex3_le hl1 hu0 hv0 (by ring)
      ((min_le_left _ _).trans (min_le_left _ _))
      ((min_le_left _ _).trans (min_le_right _ _)) (min_le_right _ _)
  · apply floor_div_mono hc
    rw [hy]
    exact convex3_ge hl1 hu0 hv0 (by ring)
      ((le_max_left _ _).trans (le_max_left _ _))
      ((le_max_right _ _).trans (le_max_left _ _)) (le_max_right _ _)
  · apply floor_div_mono hc
    rw [hz]
    exact convex3_le hl1 hu0 hv0 (by ring)
      ((min_le_left _ _).trans (min_le_left _ _))
      ((min_le_left _ _).trans (min_le_right _ _)) (min_le_right _ _)
  · apply floor_div_mono hc
    rw [hz]
    exact convex3_ge hl1 hu0 hv0 (by ring)
      ((le_max_left _ _).trans (le_max_left _ _))
      ((le_max_right _ _).trans (le_max_left _ _)) (le_max_right _ _)

open Classical in
theorem is_path_clear_eq_false_iff (tracer : Tracer) (o t : Vector3)
    (hfar : ¬ (t.subtract o).length < 1e-6) :
    (is_path_clear tracer o t = false ↔
      ∃ idx ∈ get_triangles_along_ray
          (buildGrid tracer.cell_size tracer.triangles) tracer.cell_size
          (mkRay o (t.subtract o)) ((t.subtract o).length),
        ∃ tri, tracer.triangles.get? idx = some tri ∧
          (ray_triangle_intersection (mkRay o (t.subtract o)) tri).hit =
            true ∧
          (ray_triangle_intersection (mkRay o (t.subtract o)) tri).distance
            < (t.subtract o).length - 1e-6) := by
  unfold is_path_clear
  rw [if_neg hfar]
  constructor
  · intro h
    have hnp := of_decide_eq_false h
    push_neg at hnp
    obtain ⟨idx, hidx, tri, h1, h2⟩ := hnp
    exact ⟨idx, hidx, tri, h1, h2⟩
  · rintro ⟨idx, hidx, tri, hget, hh, hd⟩
    apply decide_eq_false
    intro hP
    exact hP idx hidx tri hget ⟨hh, hd⟩

/-- Non-degeneracy of a blocking hit for the amended occlusion-symmetry
claim: interior barycentric coordinates, ray parameter strictly inside the
`(1e-6, distance - 1e-6)` window, and a hit point strictly inside its grid
cell. -/
def NiceBlock (c : ℝ) (a b : Vector3) (tri : Triangle) : Prop :=
  0 ≤ mtU a ((b.subtract a).normalize) tri ∧
  mtU a ((b.subtract a).normalize) tri ≤ 1 ∧
  0 ≤ mtV a ((b.subtract a).normalize) tri ∧
  mtU a ((b.subtract a).normalize) tri +
    mtV a ((b.subtract a).normalize) tri ≤ 1 ∧
  1e-6 < mtT a ((b.subtract a).normalize) tri ∧
  mtT a ((b.subtract a).normalize) tri < (b.subtract a).length - 1e-6 ∧
  StrictlyInsideCell c (a.add (((b.subtract a).normalize).multiply
    (mtT a ((b.subtract a).normalize) tri)))

theorem mtU_fwd_at (a bb d : Vector3) (dist : ℝ) (tri : Triangle)
    (hdet : mtDet d tri ≠ 0) (hb : bb = a.add (d.multiply dist)) :
    mtU bb (d.multiply (-1)) tri = mtU a d tri := by
  subst hb
  exact mtU_fwd_pt a d dist tri hdet

theorem mtV_fwd_at (a bb d : Vector3) (dist : ℝ) (tri : Triangle)
    (hdet : mtDet d tri ≠ 0) (hb : bb = a.add (d.multiply dist)) :
    mtV bb (d.multiply (-1)) tri = mtV a d tri := by
  subst hb
  exact mtV_fwd_pt a d dist tri hdet

theorem mtT_fwd_at (a bb d : Vector3) (dist : ℝ) (tri : Triangle)
    (hdet : mtDet d tri ≠ 0) (hb : bb = a.add (d.multiply dist)) :
    mtT bb (d.multiply (-1)) tri = dist - mtT a d tri := by
  subst hb
  exact mtT_fwd_pt a d dist tri hdet

theorem mtU_rev_at (a bb d : Vector3) (dist : ℝ) (tri : Triangle)
    (hb : bb = a.add (d.multiply dist)) :
    mtU bb (d.multiply (-1)) (revTri tri) = mtV a d tri := by
  subst hb
  exact mtU_rev_pt a d dist tri

theorem mtV_rev_at (a bb d : Vector3) (dist : ℝ) (tri : Triangle)
    (hb : bb = a.add (d.multiply dist)) :
    mtV bb (d.multiply (-1)) (revTri tri) = mtU a d tri := by
  subst hb
  exact mtV_rev_pt a d dist tri

theorem mtT_rev_at (a bb d : Vector3) (dist : ℝ) (tri : Triangle)
    (hdet : mtDet d tri ≠ 0) (hb : bb = a.add (d.multiply dist)) :
    mtT bb (d.multiply (-1)) (revTri tri) = dist - mtT a d tri := by
  subst hb
  exact mtT_rev_pt a d dist tri hdet

theorem reverse_point_eq (a bb d : Vector3) (dist t : ℝ)
    (hb : bb = a.add (d.multiply dist)) :
    bb.add ((d.multiply (-1)).multiply (dist - t)) = a.add (d.multiply t) := by
  subst hb
  unfold Vector3.add Vector3.multiply
  dsimp only
  simp only [Vector3.mk.injEq]
  refine ⟨by ring, by ring, by ring⟩

open Classical in
/-- If the path from `a` to `b` is blocked and every blocking hit is
non-degenerate, the path from `b` to `a` is blocked as well, provided the
mesh contains the orientation reversal of each of its triangles. -/
theorem C7_blocked_symm (L : List Triangle) (c : ℝ) (a b : Vector3)
    (hc : 0 < c)
    (hmesh : ∀ i tri, L.get? i = some tri →
      ∃ j, L.get? j = some (revTri tri))
    (hnice : ∀ idx tri, L.get? idx = some tri →
      (ray_triangle_intersection (mkRay a (b.subtract a)) tri).hit = true →
      (ray_triangle_intersection (mkRay a (b.subtract a)) tri).distance <
        (b.subtract a).length - 1e-6 →
      NiceBlock c a b tri)
    (hblocked : is_path_clear ⟨L, c⟩ a b = false) :
    is_path_clear ⟨L, c⟩ b a = false := by
  by_cases hnear : (b.subtract a).length < 1e-6
  · exfalso
    unfold is_path_clear at hblocked
    rw [if_pos hnear] at hblocked
    exact Bool.noConfusion hblocked
  rw [is_path_clear_eq_false_iff ⟨L, c⟩ a b hnear] at hblocked
  obtain ⟨idx, hidx, tri, hget, hhit, hdlt⟩ := hblocked
  obtain ⟨hu0, hu1, hv0, huv, ht1, ht2, hcellin⟩ :=
    hnice idx tri hget hhit hdlt
  obtain ⟨hg1, hg2, hg3, hg4, hg5, hdisteq⟩ :=
    rti_hit_inv (mkRay a (b.subtract a)) tri hhit
  set dv : Vector3 := (b.subtract a).normalize with hdv
  set dl : ℝ := (b.subtract a).length with hdl
  set tv : ℝ := mtT a dv tri with htv
  have hfar2 : ¬ (a.subtract b).length < 1e-6 := by
    rw [length_subtract_comm]
    exact hnear
  rw [is_path_clear_eq_false_iff ⟨L, c⟩ b a hfar2]
  have hdl2 : (a.subtract b).length = dl := length_subtract_comm a b
  have hg1' : ¬ |mtDet dv tri| < 1e-6 := hg1
  have hdetne : mtDet dv tri ≠ 0 := by
    intro h0
    apply hg1'
    rw [h0]
    norm_num
  have hLne : dl ≠ 0 := by
    intro h0
    apply hnear
    rw [h0]
    norm_num
  have hbdec : b = a.add (dv.multiply dl) := point_decomp a b hLne
  have hdir_b : (a.subtract b).normalize = dv.multiply (-1) := by
    rw [subtract_swap a b, normalize_mul_neg_one, hdv]
  have hray2_dir : (mkRay b (a.subtract b)).direction = dv.multiply (-1) :=
    hdir_b
  have hray2_org : (mkRay b (a.subtract b)).origin = b := rfl
  have hdirn : (mkRay b (a.subtract b)).direction.normalize =
      dv.multiply (-1) := by
    show (a.subtract b).normalize.normalize = _
    rw [normalize_idem]
    exact hdir_b
  set cellX : ℤ × ℤ × ℤ := position_to_cell c (a.add (dv.multiply tv))
    with hcellX
  have hbox0 : cellInTriangleBox c tri cellX :=
    hit_point_in_box c hc a dv tri hdetne hu0 hv0 huv
  have hbounds := normalize_component_bound (a.subtract b)
  rw [hdir_b] at hbounds
  have hin2 : StrictlyInsideCell c
      (b.add ((dv.multiply (-1)).multiply (dl - tv))) := by
    rw [reverse_point_eq a b dv dl tv hbdec]
    exact hcellin
  have hcell_t2 : cellOfPoint c b (dv.multiply (-1)) (dl - tv) = cellX := by
    unfold cellOfPoint
    rw [reverse_point_eq a b dv dl tv hbdec]
  have hvis : cellX ∈ rayVisitedCells c (mkRay b (a.subtract b))
      ((a.subtract b).length) := by
    obtain ⟨δ, hδpos, hδ⟩ := cellOfPoint_window c hc b (dv.multiply (-1))
      (dl - tv) hbounds.1 hbounds.2.1 hbounds.2.2 hin2
    have htp1 : 1e-6 < dl - tv := by linarith
    refine rayVisitedCells_coverage c (mkRay b (a.subtract b))
      ((a.subtract b).length) hc
      ((dl - tv) - min (δ / 2) (min ((dl - tv) / 2) (tv / 2)))
      ((dl - tv) + min (δ / 2) (min ((dl - tv) / 2) (tv / 2))) cellX
      ?_ ?_ ?_ ?_
    · have h1 : min (δ / 2) (min ((dl - tv) / 2) (tv / 2)) ≤
          (dl - tv) / 2 := le_trans (min_le_right _ _) (min_le_left _ _)
      linarith
    · have hεpos : 0 < min (δ / 2) (min ((dl - tv) / 2) (tv / 2)) :=
        lt_min (by linarith) (lt_min (by linarith) (by linarith))
      linarith
    · have h1 : min (δ / 2) (min ((dl - tv) / 2) (tv / 2)) ≤ tv / 2 :=
        le_trans (min_le_right _ _) (min_le_right _ _)
      rw [hdl2]
      linarith
    · intro τ hτ1 hτ2
      rw [hdirn]
      have habs : |τ - (dl - tv)| < δ := by
        rw [abs_lt]
        have h1 : min (δ / 2) (min ((dl - tv) / 2) (tv / 2)) ≤ δ / 2 :=
          min_le_left _ _
        constructor <;> linarith
      exact (hδ τ habs).trans hcell_t2
  by_cases hfacing : tri.normal.dot
      ((tri.get_center.subtract b).normalize) < 0
  · -- the reversed triangle blocks from b
    obtain ⟨j, hgetj⟩ := hmesh idx tri hget
    have g1 : ¬ |mtDet (mkRay b (a.subtract b)).direction (revTri tri)| <
        1e-6 := by
      rw [hray2_dir, mtDet_rev]
      exact hg1'
    have hU2 : mtU (mkRay b (a.subtract b)).origin
        (mkRay b (a.subtract b)).direction (revTri tri) = mtV a dv tri := by
      rw [hray2_org, hray2_dir]
      exact mtU_rev_at a b dv dl tri hbdec
    have hV2 : mtV (mkRay b (a.subtract b)).origin
        (mkRay b (a.subtract b)).direction (revTri tri) = mtU a dv tri := by
      rw [hray2_org, hray2_dir]
      exact mtV_rev_at a b dv dl tri hbdec
    have hT2 : mtT (mkRay b (a.subtract b)).origin
        (mkRay b (a.subtract b)).direction (revTri tri) = dl - tv := by
      rw [hray2_org, hray2_dir]
      exact mtT_rev_at a b dv dl tri hdetne hbdec
    have g2 : ¬ (mtU (mkRay b (a.subtract b)).origin
        (mkRay b (a.subtract b)).direction (revTri tri) < -1e-4 ∨
        mtU (mkRay b (a.subtract b)).origin
          (mkRay b (a.subtract b)).direction (revTri tri) > 1 + 1e-4) := by
      rw [hU2]
      push_neg
      constructor <;> linarith
    have g3 : ¬ (mtV (mkRay b (a.subtract b)).origin
        (mkRay b (a.subtract b)).direction (revTri tri) < -1e-4 ∨
        mtU (mkRay b (a.subtract b)).origin
          (mkRay b (a.subtract b)).direction (revTri tri) +
        mtV (mkRay b (a.subtract b)).origin
          (mkRay b (a.subtract b)).direction (revTri tri) > 1 + 1e-4) := by
      rw [hU2, hV2]
      push_neg
      constructor <;> linarith
    have g4 : ¬ mtT (mkRay b (a.subtract b)).origin
        (mkRay b (a.subtract b)).direction (revTri tri) < 1e-6 := by
      rw [hT2]
      push_neg
      linarith
    have g5 : ¬ (revTri tri).normal.dot
        (((revTri tri).get_center.subtract
          (mkRay b (a.subtract b)).origin).normalize) < 0 := by
      rw [hray2_org, revTri_center, revTri_normal_dot]
      push_neg
      linarith
    have hrb := rti_hit_of (mkRay b (a.subtract b)) (revTri tri)
      g1 g2 g3 g4 g5
    refine ⟨j, ?_, revTri tri, hgetj, ?_, ?_⟩
    · unfold get_triangles_along_ray
      rw [mem_foldl_union]
      exact Or.inr ⟨cellX, hvis, mem_buildGrid_of c L j (revTri tri) hgetj
        cellX ((cellInTriangleBox_rev c tri cellX).mpr hbox0)⟩
    · rw [hrb]
    · rw [hrb]
      dsimp only
      rw [hT2, hdl2]
      linarith
  · -- the triangle itself blocks from b
    have g1 : ¬ |mtDet (mkRay b (a.subtract b)).direction tri| < 1e-6 := by
      rw [hray2_dir, mtDet_fwd, abs_neg]
      exact hg1'
    have hU2 : mtU (mkRay b (a.subtract b)).origin
        (mkRay b (a.subtract b)).direction tri = mtU a dv tri := by
      rw [hray2_org, hray2_dir]
      exact mtU_fwd_at a b dv dl tri hdetne hbdec
    have hV2 : mtV (mkRay b (a.subtract b)).origin
        (mkRay b (a.subtract b)).direction tri = mtV a dv tri := by
      rw [hray2_org, hray2_dir]
      exact mtV_fwd_at a b dv dl tri hdetne hbdec
    have hT2 : mtT (mkRay b (a.subtract b)).origin
        (mkRay b (a.subtract b)).direction tri = dl - tv := by
      rw [hray2_org, hray2_dir]
      exact mtT_fwd_at a b dv dl tri hdetne hbdec
    have g2 : ¬ (mtU (mkRay b (a.subtract b)).origin
        (mkRay b (a.subtract b)).direction tri < -1e-4 ∨
        mtU (mkRay b (a.subtract b)).origin
          (mkRay b (a.subtract b)).direction tri > 1 + 1e-4) := by
      rw [hU2]
      push_neg
      constructor <;> linarith
    have g3 : ¬ (mtV (mkRay b (a.subtract b)).origin
        (mkRay b (a.subtract b)).direction tri < -1e-4 ∨
        mtU (mkRay b (a.subtract b)).origin
          (mkRay b (a.subtract b)).direction tri +
        mtV (mkRay b (a.subtract b)).origin
          (mkRay b (a.subtract b)).direction tri > 1 + 1e-4) := by
      rw [hU2, hV2]
      push_neg
      constructor <;> linarith
    have g4 : ¬ mtT (mkRay b (a.subtract b)).origin
        (mkRay b (a.subtract b)).direction tri < 1e-6 := by
      rw [hT2]
      push_neg
      linarith
    have g5 : ¬ tri.normal.dot
        ((tri.get_center.subtract
          (mkRay b (a.subtract b)).origin).normalize) < 0 := by
      rw [hray2_org]
      exact hfacing
    have hrb := rti_hit_of (mkRay b (a.subtract b)) tri g1 g2 g3 g4 g5
    refine ⟨idx, ?_, tri, hget, ?_, ?_⟩
    · unfold get_triangles_along_ray
      rw [mem_foldl_union]
      exact Or.inr ⟨cellX, hvis, mem_buildGrid_of c L idx tri hget cellX
        hbox0⟩
    · rw [hrb]
    · rw [hrb]
      dsimp only
      rw [hT2, hdl2]
      linarith

/-- **C7** (corrected): occlusion symmetry.  In a mesh that contains the
orientation reversal of each of its triangles, and in which every blocking
hit in either direction is non-degenerate (`NiceBlock`: barycentric
coordinates inside `[0, 1]` with `u + v ≤ 1`, ray parameter strictly
inside the `(1e-6, distance - 1e-6)` window, and hit point strictly inside
its grid cell), `Tracer.is_path_clear` is symmetric.  Without the
non-degeneracy condition the symmetry fails: `C7_symmetry_counterexample`
exhibits a two-sided wall hit at parameter exactly `1e-6` that blocks one
direction only. -/
theorem C7_occlusion_symmetry (L : List Triangle) (c : ℝ) (a b : Vector3)
    (hc : 0 < c)
    (hmesh : ∀ i tri, L.get? i = some tri →
      ∃ j, L.get? j = some (revTri tri))
    (hnab : ∀ idx tri, L.get? idx = some tri →
      (ray_triangle_intersection (mkRay a (b.subtract a)) tri).hit = true →
      (ray_triangle_intersection (mkRay a (b.subtract a)) tri).distance <
        (b.subtract a).length - 1e-6 →
      NiceBlock c a b tri)
    (hnba : ∀ idx tri, L.get? idx = some tri →
      (ray_triangle_intersection (mkRay b (a.subtract b)) tri).hit = true →
      (ray_triangle_intersection (mkRay b (a.subtract b)) tri).distance <
        (a.subtract b).length - 1e-6 →
      NiceBlock c b a tri) :
    is_path_clear ⟨L, c⟩ a b = is_path_clear ⟨L, c⟩ b a := by
  have h1 := C7_blocked_symm L c a b hc hmesh hnab
  have h2 := C7_blocked_symm L c b a hc hmesh hnba
  cases hab : is_path_clear ⟨L, c⟩ a b
  · rw [h1 hab]
  · cases hba : is_path_clear ⟨L, c⟩ b a
    · exact Bool.noConfusion ((h2 hba).symm.trans hab)
    · rfl

/-- Witness for `C7_occlusion_symmetry` on the empty mesh, where the mesh
and non-degeneracy hypotheses hold vacuously. -/
theorem C7_occlusion_symmetry_witness :
    is_path_clear ⟨[], 1⟩ ⟨0, 0, 0⟩ ⟨3, 0, 0⟩ =
      is_path_clear ⟨[], 1⟩ ⟨3, 0, 0⟩ ⟨0, 0, 0⟩ :=
  C7_occlusion_symmetry [] 1 ⟨0, 0, 0⟩ ⟨3, 0, 0⟩ one_pos
    (by intro i tri h; simp at h)
    (by intro idx tri h; simp at h)
    (by intro idx tri h; simp at h)

end Caustic
